import Mathlib

/-!
Release-plan lint: the approval gate validator, the workflow linter and the
release-job dispatcher; validators of the project service and of the
environment service.

A shallow embedding of `lintApproval`, `lintWorkflow` and `lintReleaseJob` from
`pkg/microservice/aslan/core/release_plan/service/lint.go`, of `validateSvc`,
`filterProductServices`, `ensureProductTmpl` and `validateCommonRule` from
`pkg/microservice/aslan/core/project/service/product.go`, and of
`queryPodsStatus` and `validateServiceContainer2` from
`pkg/microservice/aslan/core/environment/service/service.go`.

A Go `error` is modelled by `Except String Unit`: `.ok ()` is the nil error
and `.error msg` is an error whose message is `msg`.
-/

namespace ReleasePlan

/-! ## Data model -/

/-- Modelled from the spec: the provider tag constant `config.NativeApproval`
is declared outside the available sources. -/
def NativeApprovalType : String := "native"

/-- Modelled from the spec: the provider tag constant `config.LarkApproval`
is declared outside the available sources. -/
def LarkApprovalType : String := "lark"

/-- Modelled from the spec: the provider tag constant
`config.DingTalkApproval` is declared outside the available sources. -/
def DingTalkApprovalType : String := "dingtalk"

/-- Modelled from the spec: an approver as `lintApproval` reads one, a stable
`ID` and a display `Name` (the type declaration is outside the available
sources). An approver list holds approver values; a nil entry is not
represented. -/
structure ApprovalUser where
  ID : String
  Name : String
  deriving DecidableEq, Repr

/-- Modelled from the spec: one step of a Lark or DingTalk approval chain, a
list of approvers and a gating type (the type declaration is outside the
available sources). A node list holds node values; a nil entry is not
represented. The field `Type` is written `Type_`. -/
structure ApprovalNode where
  ApproveUsers : List ApprovalUser
  Type_ : String
  deriving DecidableEq, Repr

/-- Modelled from the spec: the native block, a flat list of approvers and a
quorum; `NeededApprovers` is compared with `len(...)`, so it is a Go `int`
(the type declaration is outside the available sources). -/
structure NativeApproval where
  ApproveUsers : List ApprovalUser
  NeededApprovers : Int
  deriving DecidableEq, Repr

/-- Modelled from the spec: the Lark block, an ordered list of approval nodes
(the type declaration is outside the available sources). -/
structure LarkApproval where
  ApprovalNodes : List ApprovalNode
  deriving DecidableEq, Repr

/-- Modelled from the spec: the DingTalk block, an ordered list of approval
nodes (the type declaration is outside the available sources). -/
structure DingTalkApproval where
  ApprovalNodes : List ApprovalNode
  deriving DecidableEq, Repr

/-- Modelled from the spec: the approval block of a release plan; each
provider block is a pointer that may be nil (the type declaration is outside
the available sources). -/
structure Approval where
  Enabled : Bool
  Type_ : String
  NativeApproval : Option NativeApproval
  LarkApproval : Option LarkApproval
  DingTalkApproval : Option DingTalkApproval
  deriving DecidableEq, Repr

deriving instance DecidableEq for Except

/-! ## Error messages -/

/-- Message of `errors.New("approval not found")`. -/
def errApprovalNotFound : String := "approval not found"

/-- Message of the native quorum error. -/
def errNeededApprovers : String :=
  "all approve users should not less than needed approvers"

/-- Message of `errors.New("num of approval-node is 0")`. -/
def errNoNode : String := "num of approval-node is 0"

/-- Message of `errors.New("num of approval-node should not exceed 20")`. -/
def errTooManyNodes : String := "num of approval-node should not exceed 20"

/-- Message of `errors.Errorf("num of approval-node %d approver is 0", i)`. -/
def errNoApprover (i : Nat) : String :=
  "num of approval-node " ++ toString i ++ " approver is 0"

/-- Message of `errors.Errorf("approval-node %d type should be AND or OR", i)`. -/
def errNodeType (i : Nat) : String :=
  "approval-node " ++ toString i ++ " type should be AND or OR"

/-- Message of the duplicate-approver error, `%s` being the user's name. -/
def errDuplicate (name : String) : String :=
  "Duplicate approvers " ++ name ++ " should not appear in a complete approval process"

/-- Message of `errors.Errorf("invalid approval type %s", approval.Type)`. -/
def errInvalidType (t : String) : String :=
  "invalid approval type " ++ t

/-! ## The validator -/

/-- The test `lo.Contains([]string{"AND", "OR"}, string(node.Type))`. -/
def isAndOr (t : String) : Bool :=
  ["AND", "OR"].contains t

/-- The loop over `approval.LarkApproval.ApprovalNodes`, entered at index `i`. -/
def lintLarkNodes : Nat → List ApprovalNode → Except String Unit
  | _, [] => .ok ()
  | i, node :: rest =>
    if node.ApproveUsers.length = 0 then
      .error (errNoApprover i)
    else if !isAndOr node.Type_ then
      .error (errNodeType i)
    else
      lintLarkNodes (i + 1) rest

/-- The inner loop over `node.ApproveUsers` of the DingTalk case. The string
set `userIDSets` is the list `seen`; the result is the set after the loop. -/
def lintDingTalkUsers : List String → List ApprovalUser → Except String (List String)
  | seen, [] => .ok seen
  | seen, user :: rest =>
    if seen.contains user.ID then
      .error (errDuplicate user.Name)
    else
      lintDingTalkUsers (user.ID :: seen) rest

/-- The loop over `approval.DingTalkApproval.ApprovalNodes`, entered at index
`i` with the set `seen` of approver IDs met so far. -/
def lintDingTalkNodes : Nat → List String → List ApprovalNode → Except String Unit
  | _, _, [] => .ok ()
  | i, seen, node :: rest =>
    if node.ApproveUsers.length = 0 then
      .error (errNoApprover i)
    else
      match lintDingTalkUsers seen node.ApproveUsers with
      | .error e => .error e
      | .ok seen1 =>
        if !isAndOr node.Type_ then
          .error (errNodeType i)
        else
          lintDingTalkNodes (i + 1) seen1 rest

/-- The function `lintApproval`; `none` is the nil approval. -/
def lintApproval : Option Approval → Except String Unit
  | none => .ok ()
  | some approval =>
    if !approval.Enabled then
      .ok ()
    else if approval.Type_ = NativeApprovalType then
      match approval.NativeApproval with
      | none => .error errApprovalNotFound
      | some native =>
        if (native.ApproveUsers.length : Int) < native.NeededApprovers then
          .error errNeededApprovers
        else
          .ok ()
    else if approval.Type_ = LarkApprovalType then
      match approval.LarkApproval with
      | none => .error errApprovalNotFound
      | some lark =>
        if lark.ApprovalNodes.length = 0 then
          .error errNoNode
        else
          lintLarkNodes 0 lark.ApprovalNodes
    else if approval.Type_ = DingTalkApprovalType then
      match approval.DingTalkApproval with
      | none => .error errApprovalNotFound
      | some ding =>
        if ding.ApprovalNodes.length > 20 then
          .error errTooManyNodes
        else if ding.ApprovalNodes.length = 0 then
          .error errNoNode
        else
          lintDingTalkNodes 0 [] ding.ApprovalNodes
    else
      .error (errInvalidType approval.Type_)

/-- The IDs of a list of approvers, in order. -/
def userIDs (users : List ApprovalUser) : List String :=
  users.map fun user => user.ID

/-- All approver IDs of a node list, in node order then position order. -/
def approverIDs (nodes : List ApprovalNode) : List String :=
  (nodes.map fun node => userIDs node.ApproveUsers).flatten

/-- All approvers of a node list, in node order then position order. -/
def approvers (nodes : List ApprovalNode) : List ApprovalUser :=
  (nodes.map fun node => node.ApproveUsers).flatten

/-- A node passes the two per-node checks shared by Lark and DingTalk. -/
def nodeOk (node : ApprovalNode) : Prop :=
  1 ≤ node.ApproveUsers.length ∧ (node.Type_ = "AND" ∨ node.Type_ = "OR")

instance (node : ApprovalNode) : Decidable (nodeOk node) := by
  unfold nodeOk; infer_instance

/-! ## Sample values -/

/-- An approver with ID `u1`. -/
def userAlice : ApprovalUser := ⟨"u1", "alice"⟩

/-- An approver with ID `u2`. -/
def userBob : ApprovalUser := ⟨"u2", "bob"⟩

/-- A second approver entry with ID `u1`. -/
def userCarol : ApprovalUser := ⟨"u1", "carol"⟩

/-- An approver with ID `u3`. -/
def userDave : ApprovalUser := ⟨"u3", "dave"⟩

/-- Two valid nodes with different approvers. -/
def nodesOk : List ApprovalNode :=
  [⟨[userAlice], "AND"⟩, ⟨[userBob], "OR"⟩]

/-- Two nodes, each valid alone, that share the approver ID `u1`. -/
def nodesDup : List ApprovalNode :=
  [⟨[userAlice], "AND"⟩, ⟨[userCarol, userBob], "OR"⟩]

/-- Node 0 has no approver, node 1 has the type `XOR`. -/
def nodesEmptyThenXor : List ApprovalNode :=
  [⟨[], "AND"⟩, ⟨[userAlice], "XOR"⟩]

/-- Node 0 is valid, node 1 has the type `XOR`, node 2 has no approver. -/
def nodesXorSecond : List ApprovalNode :=
  [⟨[userAlice], "AND"⟩, ⟨[userBob], "XOR"⟩, ⟨[], "OR"⟩]

/-- An enabled approval of the given type with the given blocks. -/
def enabledApproval (t : String) (native : Option NativeApproval)
    (lark : Option LarkApproval) (ding : Option DingTalkApproval) : Approval :=
  ⟨true, t, native, lark, ding⟩

/-- An enabled DingTalk approval over the given nodes. -/
def dingTalkOf (nodes : List ApprovalNode) : Approval :=
  enabledApproval DingTalkApprovalType none none (some ⟨nodes⟩)

/-- An enabled Lark approval over the given nodes. -/
def larkOf (nodes : List ApprovalNode) : Approval :=
  enabledApproval LarkApprovalType none (some ⟨nodes⟩) none

/-- An enabled native approval with three listed approvers and the given quorum. -/
def nativeOfThree (needed : Int) : Approval :=
  enabledApproval NativeApprovalType (some ⟨[userAlice, userBob, userDave], needed⟩) none none

/-! ## Workflow lint and release-job dispatch: data model -/

/-- Modelled from the spec: the job-type tag constant `config.JobText` is
declared outside the available sources. -/
def JobText : String := "text"

/-- Modelled from the spec: the job-type tag constant `config.JobWorkflow` is
declared outside the available sources. -/
def JobWorkflow : String := "workflow"

/-- Modelled from the spec: a job of a workflow, with a name, a job kind and a
kind-specific configuration (the type declaration is outside the available
sources). -/
structure Job where
  Name : String
  JobType : String
  Spec : String
  deriving DecidableEq, Repr

/-- Modelled from the spec: a stage, an ordered sequence of jobs (the type
declaration is outside the available sources). A job list holds job values; a
nil entry is not represented. -/
structure WorkflowStage where
  Jobs : List Job
  deriving DecidableEq, Repr

/-- Modelled from the spec: a workflow definition, an ordered sequence of
stages (the type declaration is outside the available sources). A stage list
holds stage values; a nil entry is not represented. -/
structure WorkflowV4 where
  Stages : List WorkflowStage
  deriving DecidableEq, Repr

/-- Modelled from the spec: a runtime job instance produced by expansion (the
type declaration is outside the available sources). -/
structure JobTask where
  Name : String
  deriving DecidableEq, Repr

/-- Modelled from the spec: the typed shape of a Text release job, free-form
display content (the type declaration is outside the available sources). -/
structure TextReleaseJobSpec where
  Content : String
  deriving DecidableEq, Repr

/-- Modelled from the spec: the typed shape of a Workflow release job; the
embedded workflow is a pointer that may be nil (the type declaration is
outside the available sources). -/
structure WorkflowReleaseJobSpec where
  Workflow : Option WorkflowV4
  deriving DecidableEq, Repr

/-- Modelled from the spec: the job-kind catalog of package `jobctl`, which is
outside the available sources: the skip predicate `JobSkiped`, the lint
function `LintJob` and the expand function `ToJobs`, as functions of the job
and the workflow they are given. -/
structure JobCatalog where
  JobSkiped : Job → Bool
  LintJob : Job → WorkflowV4 → Except String Unit
  ToJobs : Job → WorkflowV4 → Int → Except String (List JobTask)

/-- Modelled from the spec: the coercion `models.IToi`, which is outside the
available sources, at the three target types `lint.go` uses it with. `Raw` is
the type of the untyped payload of a release job. -/
structure Coercion (Raw : Type) where
  toTextSpec : Raw → Except String TextReleaseJobSpec
  toWorkflowSpec : Raw → Except String WorkflowReleaseJobSpec
  toWorkflow : WorkflowV4 → Except String WorkflowV4

/-! ## Workflow lint and release-job dispatch: the functions -/

/-- The inner loop `for _, job := range stage.Jobs` of `lintWorkflow`; the
argument `workflow` is the one `lintWorkflow` was called with. -/
def lintStageJobs (cat : JobCatalog) (workflow : WorkflowV4) :
    List Job → Except String Unit
  | [] => .ok ()
  | job :: rest =>
    if cat.JobSkiped job then
      lintStageJobs cat workflow rest
    else
      match cat.LintJob job workflow with
      | .error err => .error ("lint job-" ++ job.Name ++ " err: " ++ err)
      | .ok _ =>
        match cat.ToJobs job workflow 0 with
        | .error err => .error ("lint job-" ++ job.Name ++ " runtime err: " ++ err)
        | .ok _ => lintStageJobs cat workflow rest

/-- The outer loop `for _, stage := range tmp.Stages` of `lintWorkflow`. -/
def lintStages (cat : JobCatalog) (workflow : WorkflowV4) :
    List WorkflowStage → Except String Unit
  | [] => .ok ()
  | stage :: rest =>
    match lintStageJobs cat workflow stage.Jobs with
    | .error e => .error e
    | .ok _ => lintStages cat workflow rest

/-- The function `lintWorkflow`; `none` is the nil workflow and `copy` is
`models.IToi(workflow, tmp)`. The loops run over the stages of the copy `tmp`,
and `LintJob` and `ToJobs` are given the job of the copy and `workflow`. -/
def lintWorkflow (copy : WorkflowV4 → Except String WorkflowV4) (cat : JobCatalog) :
    Option WorkflowV4 → Except String Unit
  | none => .error "workflow cannot be empty"
  | some workflow =>
    match copy workflow with
    | .error err => .error ("IToi tmp workflow error: " ++ err)
    | .ok tmp => lintStages cat workflow tmp.Stages

/-- The function `lintReleaseJob`. -/
def lintReleaseJob {Raw : Type} (co : Coercion Raw) (cat : JobCatalog)
    (_type : String) (spec : Raw) : Except String Unit :=
  if _type = JobText then
    match co.toTextSpec spec with
    | .error err => .error ("invalid text spec: " ++ err)
    | .ok _ => .ok ()
  else if _type = JobWorkflow then
    match co.toWorkflowSpec spec with
    | .error err => .error ("invalid workflow spec: " ++ err)
    | .ok w => lintWorkflow co.toWorkflow cat w.Workflow
  else
    .error ("invalid release job type: " ++ _type)

/-- All jobs of a workflow, in stage order then job order. -/
def allJobs (workflow : WorkflowV4) : List Job :=
  (workflow.Stages.map fun stage => stage.Jobs).flatten

/-- A job passes: it is skipped, or both `LintJob` and `ToJobs` return no error. -/
def jobPasses (cat : JobCatalog) (workflow : WorkflowV4) (job : Job) : Prop :=
  cat.JobSkiped job = false →
    cat.LintJob job workflow = .ok () ∧ ∃ tasks, cat.ToJobs job workflow 0 = .ok tasks

/-! ## Sample values for the workflow lint -/

/-- A job named `build`. -/
def jobBuild : Job := ⟨"build", "zadig-build", "{}"⟩

/-- A job named `deploy`. -/
def jobDeploy : Job := ⟨"deploy", "zadig-deploy", "{}"⟩

/-- A job named `test`. -/
def jobTest : Job := ⟨"test", "zadig-test", "{}"⟩

/-- A job named `notify`, which the sample catalogs skip. -/
def jobNotify : Job := ⟨"notify", "notification", "{}"⟩

/-- A catalog that skips `notify`, rejects `deploy` at lint and fails to
expand `test`. -/
def sampleCatalog : JobCatalog where
  JobSkiped := fun job => job.Name == "notify"
  LintJob := fun job _ =>
    if job.Name = "deploy" then .error "upstream job not found" else .ok ()
  ToJobs := fun job _ _ =>
    if job.Name = "test" then .error "empty matrix" else .ok [⟨job.Name⟩]

/-- The sample catalog, except that lint and expansion also fail on the
skipped job `notify`. -/
def sampleCatalogStrict : JobCatalog where
  JobSkiped := fun job => job.Name == "notify"
  LintJob := fun job _ =>
    if job.Name = "deploy" ∨ job.Name = "notify" then .error "upstream job not found"
    else .ok ()
  ToJobs := fun job _ _ =>
    if job.Name = "test" ∨ job.Name = "notify" then .error "empty matrix"
    else .ok [⟨job.Name⟩]

/-- A coercion of a workflow that succeeds with an equal value. -/
def copyExact : WorkflowV4 → Except String WorkflowV4 :=
  fun workflow => .ok workflow

/-- A coercion of a workflow that fails. -/
def copyFails : WorkflowV4 → Except String WorkflowV4 :=
  fun _ => .error "unsupported value"

/-- Two stages: `build`, `notify`, then `deploy`, `test`. -/
def workflowDeployFails : WorkflowV4 :=
  ⟨[⟨[jobBuild, jobNotify]⟩, ⟨[jobDeploy, jobTest]⟩]⟩

/-- Two stages: `build`, then `notify`, `test`, `deploy`. -/
def workflowTestFails : WorkflowV4 :=
  ⟨[⟨[jobBuild]⟩, ⟨[jobNotify, jobTest, jobDeploy]⟩]⟩

/-- Two stages: `build`, `notify`, then `build`. -/
def workflowPasses : WorkflowV4 :=
  ⟨[⟨[jobBuild, jobNotify]⟩, ⟨[jobBuild]⟩]⟩

/-- One stage that holds the skipped job `notify` only. -/
def workflowSkippedOnly : WorkflowV4 :=
  ⟨[⟨[jobNotify]⟩]⟩

/-- A workflow without stages. -/
def workflowEmpty : WorkflowV4 := ⟨[]⟩

/-- A coercion of payloads that are strings: the payload `text` is a Text
spec, the payload `wf` a Workflow spec that embeds `workflowDeployFails`, the
payload `nowf` a Workflow spec without a workflow; workflows are copied
exactly. -/
def sampleCoercion : Coercion String where
  toTextSpec := fun raw =>
    if raw = "text" then .ok ⟨"release notes"⟩ else .error "cannot unmarshal"
  toWorkflowSpec := fun raw =>
    if raw = "wf" then .ok ⟨some workflowDeployFails⟩
    else if raw = "nowf" then .ok ⟨none⟩
    else .error "cannot unmarshal"
  toWorkflow := copyExact

/-! ## Workflow lint on a heap of jobs -/

/-- The jobs of a program state: a job pointer is an index into this list. -/
@[reducible] def JobHeap : Type := List Job

/-- A workflow whose stages hold job pointers, `[]*Job` in Go. The stage lists
are values: `lintWorkflow` does not write them. -/
structure WorkflowPtr where
  Stages : List (List Nat)
  deriving DecidableEq, Repr

/-- The job a pointer points to. A pointer of a well-formed workflow or of a
copy is always allocated; the empty job stands for any other pointer. -/
def readJob (h : JobHeap) (p : Nat) : Job :=
  (h[p]?).getD ⟨"", "", ""⟩

/-- The value of a workflow in a heap. -/
def viewWorkflow (h : JobHeap) (workflow : WorkflowPtr) : WorkflowV4 :=
  ⟨workflow.Stages.map fun stage => ⟨stage.map (readJob h)⟩⟩

/-- Every job pointer of the workflow is allocated in the heap. -/
def wellFormed (h : JobHeap) (workflow : WorkflowPtr) : Bool :=
  workflow.Stages.all fun stage => stage.all fun p => decide (p < h.length)

/-- Modelled from the spec: the job-kind catalog of package `jobctl`, which is
outside the available sources, with the rewriting the spec allows. `LintJob`
and `ToJobs` receive a pointer to a job and a pointer to the workflow; they
read both and may rewrite the job in place, and they do not write the
workflow. Besides their result they give the job as the call leaves it. -/
structure JobCatalogH where
  JobSkiped : Job → Bool
  LintJob : Job → WorkflowV4 → Except String Unit × Job
  ToJobs : Job → WorkflowV4 → Int → Except String (List JobTask) × Job

/-- Modelled from the spec: the stages of the deep copy that
`models.IToi(workflow, tmp)` fills, allocated in the heap. Every job of the
value `tmp` is a new cell at the end of the heap; the result is the heap and
the job pointers of the stages of `tmp`. -/
def allocStages : JobHeap → List WorkflowStage → JobHeap × List (List Nat)
  | h, [] => (h, [])
  | h, stage :: rest =>
    match allocStages (h ++ stage.Jobs) rest with
    | (h1, stages) => (h1, List.range' h.length stage.Jobs.length :: stages)

/-- The call `jobctl.LintJob(job, workflow)` on a heap: the catalog function
reads the cell of `job` and the value of `workflow` in the heap, and the job as
it leaves it is written to the cell of `job`. -/
def callLintJob (cat : JobCatalogH) (h : JobHeap) (job : Nat) (workflow : WorkflowPtr) :
    Except String Unit × JobHeap :=
  match cat.LintJob (readJob h job) (viewWorkflow h workflow) with
  | (r, job1) => (r, h.set job job1)

/-- The call `jobctl.ToJobs(job, workflow, taskID)` on a heap, like
`callLintJob`. -/
def callToJobs (cat : JobCatalogH) (h : JobHeap) (job : Nat) (workflow : WorkflowPtr)
    (taskID : Int) : Except String (List JobTask) × JobHeap :=
  match cat.ToJobs (readJob h job) (viewWorkflow h workflow) taskID with
  | (r, job1) => (r, h.set job job1)

/-- The inner loop `for _, job := range stage.Jobs` of `lintWorkflow` on a heap;
`stage` holds the job pointers of a stage of `tmp` and `workflow` is the
pointer `lintWorkflow` was called with. The name in a message is read in the
heap that the failed call leaves. -/
def lintStageJobsH (cat : JobCatalogH) (workflow : WorkflowPtr) :
    JobHeap → List Nat → Except String Unit × JobHeap
  | h, [] => (.ok (), h)
  | h, job :: rest =>
    if cat.JobSkiped (readJob h job) then
      lintStageJobsH cat workflow h rest
    else
      match callLintJob cat h job workflow with
      | (.error err, h1) =>
        (.error ("lint job-" ++ (readJob h1 job).Name ++ " err: " ++ err), h1)
      | (.ok _, h1) =>
        match callToJobs cat h1 job workflow 0 with
        | (.error err, h2) =>
          (.error ("lint job-" ++ (readJob h2 job).Name ++ " runtime err: " ++ err), h2)
        | (.ok _, h2) => lintStageJobsH cat workflow h2 rest

/-- The outer loop `for _, stage := range tmp.Stages` of `lintWorkflow` on a
heap. -/
def lintStagesH (cat : JobCatalogH) (workflow : WorkflowPtr) :
    JobHeap → List (List Nat) → Except String Unit × JobHeap
  | h, [] => (.ok (), h)
  | h, stage :: rest =>
    match lintStageJobsH cat workflow h stage with
    | (.error e, h1) => (.error e, h1)
    | (.ok _, h1) => lintStagesH cat workflow h1 rest

/-- The function `lintWorkflow` on a heap: the result is the returned error
and the heap as the call leaves it. `none` is the nil workflow and `copy` is
`models.IToi(workflow, tmp)` on the value of the workflow. The loops run over
the job pointers of the copy `tmp`, and `LintJob` and `ToJobs` are given a job
pointer of the copy and the pointer `workflow` of the caller. -/
def lintWorkflowH (copy : WorkflowV4 → Except String WorkflowV4) (cat : JobCatalogH)
    (h : JobHeap) : Option WorkflowPtr → Except String Unit × JobHeap
  | none => (.error "workflow cannot be empty", h)
  | some workflow =>
    match copy (viewWorkflow h workflow) with
    | .error err => (.error ("IToi tmp workflow error: " ++ err), h)
    | .ok tmp =>
      match allocStages h tmp.Stages with
      | (h1, stages) => lintStagesH cat workflow h1 stages

/-- The result of the inner loop as a function of the values: the jobs of the
stage and the workflow that every call reads. -/
def lintStageJobsV (cat : JobCatalogH) (workflow : WorkflowV4) :
    List Job → Except String Unit
  | [] => .ok ()
  | job :: rest =>
    if cat.JobSkiped job then
      lintStageJobsV cat workflow rest
    else
      match cat.LintJob job workflow with
      | (.error err, job1) => .error ("lint job-" ++ job1.Name ++ " err: " ++ err)
      | (.ok _, job1) =>
        match cat.ToJobs job1 workflow 0 with
        | (.error err, job2) => .error ("lint job-" ++ job2.Name ++ " runtime err: " ++ err)
        | (.ok _, _) => lintStageJobsV cat workflow rest

/-- A catalog that does not rewrite, seen as a catalog on a heap. -/
def JobCatalog.toH (cat : JobCatalog) : JobCatalogH where
  JobSkiped := cat.JobSkiped
  LintJob := fun job workflow => (cat.LintJob job workflow, job)
  ToJobs := fun job workflow taskID => (cat.ToJobs job workflow taskID, job)

/-- A catalog that rewrites: `ToJobs` rewrites the configuration of the job it
is given; `notify` is skipped, lint rejects `deploy`, and lint rejects `test`
when the workflow it is given holds a job with a rewritten configuration. -/
def catalogRewritingJob : JobCatalogH where
  JobSkiped := fun job => job.Name == "notify"
  LintJob := fun job workflow =>
    (if job.Name = "deploy" then .error "upstream job not found"
      else if job.Name = "test" ∧ (allJobs workflow).any (fun j => j.Spec == "expanded")
        then .error "upstream job rewritten"
      else .ok (), job)
  ToJobs := fun job _ _ => (.ok [⟨job.Name⟩], ⟨job.Name, job.JobType, "expanded"⟩)

/-- A heap that holds the four jobs of `workflowDeployFails`. -/
def sampleHeap : JobHeap := [jobBuild, jobNotify, jobDeploy, jobTest]

/-- The workflow with stages `build`, then `test`, in `sampleHeap`. -/
def workflowPtrBuildTest : WorkflowPtr := ⟨[[0], [3]]⟩

end ReleasePlan

/-! ## Go values and library functions used by the code -/

namespace Go

/-- The outcome of a call: it returns a value, or it panics (a nil pointer is
dereferenced or an index is out of range). -/
inductive Outcome (α : Type) where
  | returns (value : α)
  | panics
  deriving DecidableEq, Repr

/-- The function `strings.Contains(s, substr)`. -/
def stringsContains (s substr : String) : Bool :=
  decide (substr.toList <:+: s.toList)

/-- The method `Has` of `sets.String`; a set is the list of its members. -/
def setHas (set : List String) (item : String) : Bool :=
  set.contains item

/-- The method `Insert` of `sets.String` for one item. -/
def setInsert (set : List String) (item : String) : List String :=
  item :: set

/-- The method `Delete` of `sets.String` for one item. -/
def setDelete (set : List String) (item : String) : List String :=
  set.filter fun x => x ≠ item

/-- The method `Len` of `sets.String`: the number of members. -/
def setLen (set : List String) : Nat :=
  set.dedup.length

/-- The code points of a string; their order is the order of the bytes. -/
def stringCodes (s : String) : List Nat :=
  s.toList.map Char.toNat

/-- The lexicographic order on lists of numbers. -/
def codesLess : List Nat → List Nat → Bool
  | [], [] => false
  | [], _ :: _ => true
  | _ :: _, [] => false
  | x :: xs, y :: ys =>
    if x < y then true else if y < x then false else codesLess xs ys

/-- The order `a <= b` of Go strings. -/
def stringLE (a b : String) : Bool :=
  !codesLess (stringCodes b) (stringCodes a)

/-- The method `List` of `sets.String`: the members in increasing order. -/
def setList (set : List String) : List String :=
  set.dedup.insertionSort fun a b => stringLE a b = true

/-- The function `strings.Join(elems, sep)`. -/
def stringsJoin (elems : List String) (sep : String) : String :=
  sep.intercalate elems

/-- Splitting a list of characters at every occurrence of `sep`. -/
def splitChars (sep : Char) : List Char → List (List Char)
  | [] => [[]]
  | c :: rest =>
    if c = sep then
      [] :: splitChars sep rest
    else
      match splitChars sep rest with
      | [] => [[c]]
      | part :: parts => (c :: part) :: parts

/-- The function `strings.Split(s, sep)` for a separator of one character. -/
def stringsSplit (s : String) (sep : Char) : List String :=
  (splitChars sep s.toList).map String.mk

end Go

namespace ReleasePlan

open Go

/-! ## The DingTalk scan as a list of checks -/

/-- One check of the scan of a DingTalk node list: node `i` has an approver,
the ID of an approver is not among the IDs met earlier, node `i` has a valid
type. -/
inductive DingTalkCheck where
  | approverPresent (i : Nat) (node : ApprovalNode)
  | notSeen (user : ApprovalUser) (earlier : List String)
  | typeValid (i : Nat) (node : ApprovalNode)
  deriving DecidableEq, Repr

/-- The error of a check that is violated, `none` for a check that holds. -/
def DingTalkCheck.violation : DingTalkCheck → Option String
  | .approverPresent i node =>
    if node.ApproveUsers.length = 0 then some (errNoApprover i) else none
  | .notSeen user earlier =>
    if user.ID ∈ earlier then some (errDuplicate user.Name) else none
  | .typeValid i node =>
    if node.Type_ = "AND" ∨ node.Type_ = "OR" then none else some (errNodeType i)

/-- The checks of the approvers of one node, from left to right; `earlier`
holds the IDs of all approvers before the first one. -/
def userChecks : List String → List ApprovalUser → List DingTalkCheck
  | _, [] => []
  | earlier, user :: rest => .notSeen user earlier :: userChecks (earlier ++ [user.ID]) rest

/-- The checks of a node list in scan order: nodes by increasing index from
`i`; within a node the approver-present check, then the approvers from left
to right, then the type. -/
def scanChecks : Nat → List String → List ApprovalNode → List DingTalkCheck
  | _, _, [] => []
  | i, earlier, node :: rest =>
    .approverPresent i node ::
      (userChecks earlier node.ApproveUsers ++
        .typeValid i node ::
          scanChecks (i + 1) (earlier ++ userIDs node.ApproveUsers) rest)

/-- The error of the first violated check of a list, if there is one. -/
def firstViolation (checks : List DingTalkCheck) : Option String :=
  checks.findSome? DingTalkCheck.violation

/-- The result of a scan: the error of the first violation, nil without one. -/
def scanResult (checks : List DingTalkCheck) : Except String Unit :=
  match firstViolation checks with
  | some e => .error e
  | none => .ok ()

/-- Node 0 is valid; node 1 repeats the approver ID `u1` and has the type
`XOR`. -/
def nodesDupAndXor : List ApprovalNode :=
  [⟨[userAlice], "AND"⟩, ⟨[userBob, userCarol], "XOR"⟩]

/-- The sample coercion, except that the copy of a workflow fails. -/
def sampleCoercionCopyFails : Coercion String where
  toTextSpec := sampleCoercion.toTextSpec
  toWorkflowSpec := sampleCoercion.toWorkflowSpec
  toWorkflow := copyFails

/-! ## The validators on values with pointers

The lists of the data model hold pointers in the code. Here an entry of a node,
approver, stage or job list may be nil (`none`), and a call either returns or
panics when it dereferences a nil entry. -/

/-- Modelled from the spec: an approval node whose approver entries may be
nil (the type declaration is outside the available sources). -/
structure ApprovalNodeP where
  ApproveUsers : List (Option ApprovalUser)
  Type_ : String
  deriving DecidableEq, Repr

/-- Modelled from the spec: the native block whose approver entries may be
nil (the type declaration is outside the available sources). -/
structure NativeApprovalP where
  ApproveUsers : List (Option ApprovalUser)
  NeededApprovers : Int
  deriving DecidableEq, Repr

/-- Modelled from the spec: the Lark block whose node entries may be nil (the
type declaration is outside the available sources). -/
structure LarkApprovalP where
  ApprovalNodes : List (Option ApprovalNodeP)
  deriving DecidableEq, Repr

/-- Modelled from the spec: the DingTalk block whose node entries may be nil
(the type declaration is outside the available sources). -/
structure DingTalkApprovalP where
  ApprovalNodes : List (Option ApprovalNodeP)
  deriving DecidableEq, Repr

/-- Modelled from the spec: the approval block with pointer entries in its
lists (the type declaration is outside the available sources). -/
structure ApprovalP where
  Enabled : Bool
  Type_ : String
  NativeApproval : Option NativeApprovalP
  LarkApproval : Option LarkApprovalP
  DingTalkApproval : Option DingTalkApprovalP
  deriving DecidableEq, Repr

/-- The Lark loop of `lintApproval`; `node.ApproveUsers` on a nil node panics. -/
def lintLarkNodesP : Nat → List (Option ApprovalNodeP) → Outcome (Except String Unit)
  | _, [] => .returns (.ok ())
  | _, none :: _ => .panics
  | i, some node :: rest =>
    if node.ApproveUsers.length = 0 then
      .returns (.error (errNoApprover i))
    else if !isAndOr node.Type_ then
      .returns (.error (errNodeType i))
    else
      lintLarkNodesP (i + 1) rest

/-- The inner DingTalk loop of `lintApproval`; `user.ID` on a nil approver
panics. -/
def lintDingTalkUsersP :
    List String → List (Option ApprovalUser) → Outcome (Except String (List String))
  | seen, [] => .returns (.ok seen)
  | _, none :: _ => .panics
  | seen, some user :: rest =>
    if seen.contains user.ID then
      .returns (.error (errDuplicate user.Name))
    else
      lintDingTalkUsersP (user.ID :: seen) rest

/-- The DingTalk loop of `lintApproval`; `node.ApproveUsers` on a nil node
panics. -/
def lintDingTalkNodesP :
    Nat → List String → List (Option ApprovalNodeP) → Outcome (Except String Unit)
  | _, _, [] => .returns (.ok ())
  | _, _, none :: _ => .panics
  | i, seen, some node :: rest =>
    if node.ApproveUsers.length = 0 then
      .returns (.error (errNoApprover i))
    else
      match lintDingTalkUsersP seen node.ApproveUsers with
      | .panics => .panics
      | .returns (.error e) => .returns (.error e)
      | .returns (.ok seen1) =>
        if !isAndOr node.Type_ then
          .returns (.error (errNodeType i))
        else
          lintDingTalkNodesP (i + 1) seen1 rest

/-- The function `lintApproval` on values with pointers. -/
def lintApprovalP : Option ApprovalP → Outcome (Except String Unit)
  | none => .returns (.ok ())
  | some approval =>
    if !approval.Enabled then
      .returns (.ok ())
    else if approval.Type_ = NativeApprovalType then
      match approval.NativeApproval with
      | none => .returns (.error errApprovalNotFound)
      | some native =>
        if (native.ApproveUsers.length : Int) < native.NeededApprovers then
          .returns (.error errNeededApprovers)
        else
          .returns (.ok ())
    else if approval.Type_ = LarkApprovalType then
      match approval.LarkApproval with
      | none => .returns (.error errApprovalNotFound)
      | some lark =>
        if lark.ApprovalNodes.length = 0 then
          .returns (.error errNoNode)
        else
          lintLarkNodesP 0 lark.ApprovalNodes
    else if approval.Type_ = DingTalkApprovalType then
      match approval.DingTalkApproval with
      | none => .returns (.error errApprovalNotFound)
      | some ding =>
        if ding.ApprovalNodes.length > 20 then
          .returns (.error errTooManyNodes)
        else if ding.ApprovalNodes.length = 0 then
          .returns (.error errNoNode)
        else
          lintDingTalkNodesP 0 [] ding.ApprovalNodes
    else
      .returns (.error (errInvalidType approval.Type_))

/-- Modelled from the spec: a stage whose job entries may be nil (the type
declaration is outside the available sources). -/
structure WorkflowStageP where
  Jobs : List (Option Job)
  deriving DecidableEq, Repr

/-- Modelled from the spec: a workflow whose stage entries may be nil (the
type declaration is outside the available sources). -/
structure WorkflowV4P where
  Stages : List (Option WorkflowStageP)
  deriving DecidableEq, Repr

/-- Modelled from the spec: the typed shape of a Workflow release job over
workflows with pointers (the type declaration is outside the available
sources). -/
structure WorkflowReleaseJobSpecP where
  Workflow : Option WorkflowV4P
  deriving DecidableEq, Repr

/-- Modelled from the spec: the job-kind catalog of package `jobctl`, which is
outside the available sources, on job pointers: each function is given a job
that may be nil, and it returns or panics. -/
structure JobCatalogP where
  JobSkiped : Option Job → Outcome Bool
  LintJob : Option Job → WorkflowV4P → Outcome (Except String Unit)
  ToJobs : Option Job → WorkflowV4P → Int → Outcome (Except String (List JobTask))

/-- Modelled from the spec: the coercion `models.IToi`, which is outside the
available sources, on values with pointers; it returns a value or an error. -/
structure CoercionP (Raw : Type) where
  toTextSpec : Raw → Except String TextReleaseJobSpec
  toWorkflowSpec : Raw → Except String WorkflowReleaseJobSpecP
  toWorkflow : WorkflowV4P → Except String WorkflowV4P

/-- The inner loop of `lintWorkflow` on job pointers; `job.Name` on a nil job
panics. -/
def lintStageJobsP (cat : JobCatalogP) (workflow : WorkflowV4P) :
    List (Option Job) → Outcome (Except String Unit)
  | [] => .returns (.ok ())
  | job :: rest =>
    match cat.JobSkiped job with
    | .panics => .panics
    | .returns true => lintStageJobsP cat workflow rest
    | .returns false =>
      match cat.LintJob job workflow with
      | .panics => .panics
      | .returns (.error err) =>
        match job with
        | none => .panics
        | some j => .returns (.error ("lint job-" ++ j.Name ++ " err: " ++ err))
      | .returns (.ok _) =>
        match cat.ToJobs job workflow 0 with
        | .panics => .panics
        | .returns (.error err) =>
          match job with
          | none => .panics
          | some j => .returns (.error ("lint job-" ++ j.Name ++ " runtime err: " ++ err))
        | .returns (.ok _) => lintStageJobsP cat workflow rest

/-- The outer loop of `lintWorkflow` on stage pointers; `stage.Jobs` on a nil
stage panics. -/
def lintStagesP (cat : JobCatalogP) (workflow : WorkflowV4P) :
    List (Option WorkflowStageP) → Outcome (Except String Unit)
  | [] => .returns (.ok ())
  | none :: _ => .panics
  | some stage :: rest =>
    match lintStageJobsP cat workflow stage.Jobs with
    | .panics => .panics
    | .returns (.error e) => .returns (.error e)
    | .returns (.ok _) => lintStagesP cat workflow rest

/-- The function `lintWorkflow` on values with pointers. -/
def lintWorkflowP (copy : WorkflowV4P → Except String WorkflowV4P) (cat : JobCatalogP) :
    Option WorkflowV4P → Outcome (Except String Unit)
  | none => .returns (.error "workflow cannot be empty")
  | some workflow =>
    match copy workflow with
    | .error err => .returns (.error ("IToi tmp workflow error: " ++ err))
    | .ok tmp => lintStagesP cat workflow tmp.Stages

/-- The function `lintReleaseJob` on values with pointers. -/
def lintReleaseJobP {Raw : Type} (co : CoercionP Raw) (cat : JobCatalogP)
    (_type : String) (spec : Raw) : Outcome (Except String Unit) :=
  if _type = JobText then
    match co.toTextSpec spec with
    | .error err => .returns (.error ("invalid text spec: " ++ err))
    | .ok _ => .returns (.ok ())
  else if _type = JobWorkflow then
    match co.toWorkflowSpec spec with
    | .error err => .returns (.error ("invalid workflow spec: " ++ err))
    | .ok w => lintWorkflowP co.toWorkflow cat w.Workflow
  else
    .returns (.error ("invalid release job type: " ++ _type))

/-- No node entry of the list is nil. -/
def nodesNilFree (nodes : List (Option ApprovalNodeP)) : Bool :=
  nodes.all fun node => node.isSome

/-- No node entry of the list is nil and no approver entry of a node is nil. -/
def nodesAndUsersNilFree (nodes : List (Option ApprovalNodeP)) : Bool :=
  nodes.all fun node =>
    match node with
    | none => false
    | some n => n.ApproveUsers.all fun user => user.isSome

/-- The Lark node list holds no nil node, and the DingTalk node list holds no
nil node and no nil approver. The approver lists of the native block and of
Lark nodes are free. -/
def approvalNilFree : Option ApprovalP → Bool
  | none => true
  | some approval =>
    (match approval.LarkApproval with
      | none => true
      | some lark => nodesNilFree lark.ApprovalNodes) &&
    (match approval.DingTalkApproval with
      | none => true
      | some ding => nodesAndUsersNilFree ding.ApprovalNodes)

/-- No stage entry of the workflow is nil and no job entry of a stage is nil. -/
def workflowNilFree (workflow : WorkflowV4P) : Bool :=
  workflow.Stages.all fun stage =>
    match stage with
    | none => false
    | some st => st.Jobs.all fun job => job.isSome

/-- The catalog returns, without a panic, on every job that is not nil. -/
def JobCatalogP.returnsOnJobs (cat : JobCatalogP) : Prop :=
  (∀ job, ∃ b, cat.JobSkiped (some job) = .returns b) ∧
  (∀ job workflow, ∃ r, cat.LintJob (some job) workflow = .returns r) ∧
  (∀ job workflow taskID, ∃ r, cat.ToJobs (some job) workflow taskID = .returns r)

/-- The sample catalog on job pointers: every function panics on a nil job. -/
def sampleCatalogP : JobCatalogP where
  JobSkiped := fun job =>
    match job with
    | none => .panics
    | some j => .returns (sampleCatalog.JobSkiped j)
  LintJob := fun job _ =>
    match job with
    | none => .panics
    | some j => .returns (if j.Name = "deploy" then .error "upstream job not found" else .ok ())
  ToJobs := fun job _ _ =>
    match job with
    | none => .panics
    | some j => .returns (if j.Name = "test" then .error "empty matrix" else .ok [⟨j.Name⟩])

/-- A coercion on values with pointers: the payload `wf` is a Workflow spec
with one stage of two jobs, workflows are copied exactly. -/
def sampleCoercionP : CoercionP String where
  toTextSpec := sampleCoercion.toTextSpec
  toWorkflowSpec := fun raw =>
    if raw = "wf" then .ok ⟨some ⟨[some ⟨[some jobBuild, some jobDeploy]⟩]⟩⟩
    else .error "cannot unmarshal"
  toWorkflow := fun workflow => .ok workflow

/-- A node of the value model as a node with pointers, no entry nil. -/
def ApprovalNode.toP (node : ApprovalNode) : ApprovalNodeP :=
  ⟨node.ApproveUsers.map some, node.Type_⟩

/-- An approval of the value model as an approval with pointers, no list
entry nil. -/
def Approval.toP (a : Approval) : ApprovalP :=
  ⟨a.Enabled, a.Type_,
    a.NativeApproval.map fun native => ⟨native.ApproveUsers.map some, native.NeededApprovers⟩,
    a.LarkApproval.map fun lark => ⟨lark.ApprovalNodes.map fun node => some node.toP⟩,
    a.DingTalkApproval.map fun ding => ⟨ding.ApprovalNodes.map fun node => some node.toP⟩⟩

end ReleasePlan

/-! ## Project service

A shallow embedding of `validateSvc`, `filterProductServices`,
`ensureProductTmpl` and `validateCommonRule` from
`pkg/microservice/aslan/core/project/service/product.go`. -/

namespace ProjectService

open Go

/-! ### validateSvc -/

/-- The inner loop `for _, singleSvc := range serviceSeq` of `validateSvc`; the
state is the pair of `usedServiceSet` and `validServices`. -/
def validateSvcSeq :
    List String → List String → List String → Except String (List String × List String)
  | usedServiceSet, validServices, [] => .ok (usedServiceSet, validServices)
  | usedServiceSet, validServices, singleSvc :: rest =>
    if setHas usedServiceSet singleSvc then
      .error ("duplicated service:" ++ singleSvc)
    else if !setHas validServices singleSvc then
      .error ("invalid service:" ++ singleSvc)
    else
      validateSvcSeq (setInsert usedServiceSet singleSvc)
        (setDelete validServices singleSvc) rest

/-- The outer loop `for _, serviceSeq := range services` of `validateSvc`. -/
def validateSvcSeqs :
    List String → List String → List (List String) →
      Except String (List String × List String)
  | usedServiceSet, validServices, [] => .ok (usedServiceSet, validServices)
  | usedServiceSet, validServices, serviceSeq :: rest =>
    match validateSvcSeq usedServiceSet validServices serviceSeq with
    | .error e => .error e
    | .ok (used1, valid1) => validateSvcSeqs used1 valid1 rest

/-- The function `validateSvc`. -/
def validateSvc (services : List (List String)) (validServices : List String) :
    Except String Unit :=
  match validateSvcSeqs [] validServices services with
  | .error e => .error e
  | .ok (_, valid1) =>
    if setLen valid1 > 0 then
      .error ("service: [" ++ stringsJoin (setList valid1) "," ++ "] not found in params")
    else
      .ok ()

/-! ### filterProductServices -/

/-- Modelled from the spec: a service template as `filterProductServices`
reads one, by its `ServiceName` (the type declaration is outside the available
sources). -/
structure Service where
  ServiceName : String
  deriving DecidableEq, Repr

/-- The loop `for _, svc := range curServices` that fills `validSvcSet`. -/
def insertServiceNames : List String → List Service → List String
  | validSvcSet, [] => validSvcSet
  | validSvcSet, svc :: rest => insertServiceNames (setInsert validSvcSet svc.ServiceName) rest

/-- The inner loop `for _, svc := range svcGroup`; `validSvcs` is appended to. -/
def filterSvcGroup (validSvcSet : List String) : List String → List String → List String
  | validSvcs, [] => validSvcs
  | validSvcs, svc :: rest =>
    if setHas validSvcSet svc then
      filterSvcGroup validSvcSet (validSvcs ++ [svc]) rest
    else
      filterSvcGroup validSvcSet validSvcs rest

/-- The outer loop `for _, svcGroup := range source`; `ret` is appended to. -/
def filterSvcGroups (validSvcSet : List String) :
    List (List String) → List (List String) → List (List String)
  | ret, [] => ret
  | ret, svcGroup :: rest =>
    if (filterSvcGroup validSvcSet [] svcGroup).length > 0 then
      filterSvcGroups validSvcSet (ret ++ [filterSvcGroup validSvcSet [] svcGroup]) rest
    else
      filterSvcGroups validSvcSet ret rest

/-- The function `filterProductServices`. The query
`repository.ListMaxRevisionsServices`, which is outside the available sources,
is the parameter `listMaxRevisionsServices`; the log line of the error branch
is left out. -/
def filterProductServices
    (listMaxRevisionsServices : String → Bool → Except String (List Service))
    (productName : String) (source : List (List String)) (production : Bool) :
    List (List String) :=
  if source.length = 0 then
    []
  else
    match listMaxRevisionsServices productName production with
    | .error _ => source
    | .ok curServices =>
      filterSvcGroups (insertServiceNames [] curServices) [] source

/-! ### ensureProductTmpl -/

/-- Modelled from the spec: the product template as `ensureProductTmpl` reads
and writes it (the type declaration is outside the available sources). -/
structure Product where
  ProjectName : String
  ProductName : String
  Revision : Int
  Services : List (List String)
  ProjectNamePinyin : String
  ProjectNamePinyinFirstLetter : String
  deriving DecidableEq, Repr

/-- Modelled from the spec: what `ensureProductTmpl` uses and is outside the
available sources: the pattern `config.ServiceNameRegex` with its text, the
counter `GetNextSeq` of the counter collection, whose store has the state `σ`,
and `util.GetPinyinFromChinese`. -/
structure ProductDeps (σ : Type) where
  matchServiceName : String → Bool
  ServiceNameRegexString : String
  GetNextSeq : σ → String → Except String Int × σ
  GetPinyinFromChinese : String → String × String

/-- The inner loop `for _, s := range sg` of `ensureProductTmpl`, with the
set `serviceNames`. -/
def ensureServiceSeq : List String → List String → Except String (List String)
  | serviceNames, [] => .ok serviceNames
  | serviceNames, s :: rest =>
    if setHas serviceNames s then
      .error ("duplicated service found: " ++ s)
    else
      ensureServiceSeq (setInsert serviceNames s) rest

/-- The outer loop `for _, sg := range args.Services` of `ensureProductTmpl`. -/
def ensureServiceSeqs : List String → List (List String) → Except String (List String)
  | serviceNames, [] => .ok serviceNames
  | serviceNames, sg :: rest =>
    match ensureServiceSeq serviceNames sg with
    | .error e => .error e
    | .ok names1 => ensureServiceSeqs names1 rest

/-- The function `ensureProductTmpl`; `none` is the nil template. The result
holds the returned error, the template as the call leaves it and the state of
the counter store. -/
def ensureProductTmpl {σ : Type} (deps : ProductDeps σ) (store : σ) :
    Option Product → Except String Unit × Option Product × σ
  | none => (.error "nil ProductTmpl", none, store)
  | some args =>
    if args.ProductName.length = 0 then
      (.error "empty product name", some args, store)
    else if !deps.matchServiceName args.ProductName then
      (.error ("product name must match " ++ deps.ServiceNameRegexString), some args, store)
    else
      match ensureServiceSeqs [] args.Services with
      | .error e => (.error e, some args, store)
      | .ok _ =>
        match deps.GetNextSeq store ("product:" ++ args.ProductName) with
        | (.error err, store1) =>
          (.error ("get next product template revision error: " ++ err), some args, store1)
        | (.ok rev, store1) =>
          (.ok (),
            some { args with
              Revision := rev
              ProjectNamePinyin := (deps.GetPinyinFromChinese args.ProjectName).1
              ProjectNamePinyinFirstLetter := (deps.GetPinyinFromChinese args.ProjectName).2 },
            store1)

/-! ### validateCommonRule -/

/-- Modelled from the spec: the constant `config.ImageResourceType` is declared
outside the available sources. -/
def ImageResourceType : String := "image"

/-- Modelled from the spec: the constant `config.TarResourceType` is declared
outside the available sources. -/
def TarResourceType : String := "tar"

/-- The character is in the range from `lo` to `hi`. -/
def inRange (c lo hi : Char) : Bool :=
  decide (lo.toNat ≤ c.toNat) && decide (c.toNat ≤ hi.toNat)

/-- The class `[a-z0-9]`. -/
def isLowerOrDigit (c : Char) : Bool :=
  inRange c 'a' 'z' || inRange c '0' '9'

/-- The class `[a-zA-Z0-9-_.]`. -/
def isTarChar (c : Char) : Bool :=
  inRange c 'a' 'z' || inRange c 'A' 'Z' || inRange c '0' '9' ||
    c == '-' || c == '_' || c == '.'

/-- The class `[a-zA-Z0-9-_:.]`. -/
def isImageChar (c : Char) : Bool :=
  inRange c 'a' 'z' || inRange c 'A' 'Z' || inRange c '0' '9' ||
    c == '-' || c == '_' || c == ':' || c == '.'

/-- The class `[a-z0-9A-Z_]`. -/
def isTagFirstChar (c : Char) : Bool :=
  inRange c 'a' 'z' || inRange c '0' '9' || inRange c 'A' 'Z' || c == '_'

/-- A first character of one class followed by one or more characters of
another class, and nothing else. -/
def matchFirstRest (first rest : Char → Bool) : List Char → Bool
  | [] => false
  | c :: cs => first c && !cs.isEmpty && cs.all rest

/-- A match of `imageRegexString`, `^[a-z0-9][a-zA-Z0-9-_:.]+$`. -/
def matchImageRegex (s : String) : Bool :=
  matchFirstRest isLowerOrDigit isImageChar s.toList

/-- A match of `tarRegexString`, `^[a-z0-9][a-zA-Z0-9-_.]+$`. -/
def matchTarRegex (s : String) : Bool :=
  matchFirstRest isLowerOrDigit isTarChar s.toList

/-- A match of `tagRegexString`, `^[a-z0-9A-Z_][a-zA-Z0-9-_.]+$`. -/
def matchTagRegex (s : String) : Bool :=
  matchFirstRest isTagFirstChar isTarChar s.toList

/-- The text `errMessage`. -/
def errMessage : String := "contains invalid characters, please check"

/-- The function `validateCommonRule`. The substitution
`commonservice.ReplaceRuleVariable`, which is outside the available sources,
is the parameter `replaceRuleVariable`. The call panics when `[1]` is out of
range. -/
def validateCommonRule (replaceRuleVariable : String → String)
    (currentRule ruleType deliveryType : String) : Outcome (Except String Unit) :=
  if currentRule = "" then
    .returns (.error (ruleType ++ " can not be empty"))
  else if deliveryType = ImageResourceType ∧ stringsContains currentRule ":" = false then
    .returns (.error (ruleType ++ " is invalid, must contain a colon"))
  else
    if deliveryType = ImageResourceType then
      if !matchImageRegex (replaceRuleVariable currentRule) then
        .returns (.error ("image " ++ ruleType ++ " " ++ errMessage))
      else
        match (stringsSplit (replaceRuleVariable currentRule) ':')[1]? with
        | none => .panics
        | some tag =>
          if !matchTagRegex tag then
            .returns (.error ("image " ++ ruleType ++ " " ++ errMessage))
          else
            .returns (.ok ())
    else if deliveryType = TarResourceType then
      if !matchTarRegex (replaceRuleVariable currentRule) then
        .returns (.error ("tar " ++ ruleType ++ " " ++ errMessage))
      else
        .returns (.ok ())
    else
      .returns (.ok ())

/-- The groups of `source` restricted to the names in `names`, in the
original order, without the groups that become empty. -/
def restrictGroups (names : List String) (source : List (List String)) :
    List (List String) :=
  (source.map fun group => group.filter fun svc => decide (svc ∈ names)).filter
    fun group => !group.isEmpty

/-! ### Sample values -/

/-- A listing of current services that succeeds with the names `a`, `c`. -/
def listAC : String → Bool → Except String (List Service) :=
  fun _ _ => .ok [⟨"a"⟩, ⟨"c"⟩]

/-- A listing of current services that fails. -/
def listFails : String → Bool → Except String (List Service) :=
  fun _ _ => .error "connection refused"

/-- Dependencies of `ensureProductTmpl` with a counter store that holds the
last number given: every name matches, the counter adds one, the pinyin of a
name is the name and its first letter. -/
def sampleDeps : ProductDeps Int where
  matchServiceName := fun _ => true
  ServiceNameRegexString := "^[a-zA-Z0-9-_]+$"
  GetNextSeq := fun store _ => (.ok (store + 1), store + 1)
  GetPinyinFromChinese := fun name => (name, name.take 1)

/-- A product template with the service `b` in two groups. -/
def productDup : Product :=
  ⟨"shop", "shop", 3, [["a", "b"], ["c", "b", "a"]], "", ""⟩

/-- A product template without a repeated service. -/
def productOk : Product :=
  ⟨"shop", "shop", 3, [["a", "b"], ["c"]], "", ""⟩

/-- A substitution of rule variables that leaves the rule as it is. -/
def replaceNothing : String → String := fun rule => rule

/-- A substitution of rule variables that gives a text without a colon. -/
def replaceAll : String → String := fun _ => "ss"

end ProjectService

/-! ## Environment service

A shallow embedding of `queryPodsStatus` and `validateServiceContainer2` from
`pkg/microservice/aslan/core/environment/service/service.go`. -/

namespace EnvironmentService

open Go

/-! ### Constants of package setting -/

/-- Modelled from the spec: the constant `setting.PodRunning` is declared
outside the available sources. -/
def PodRunning : String := "Running"

/-- Modelled from the spec: the constant `setting.PodError` is declared outside
the available sources. -/
def PodError : String := "Error"

/-- Modelled from the spec: the constant `setting.PodUnstable` is declared
outside the available sources. -/
def PodUnstable : String := "Unstable"

/-- Modelled from the spec: the constant `setting.PodSucceeded` is declared
outside the available sources. -/
def PodSucceeded : String := "Succeeded"

/-- Modelled from the spec: the constant `setting.PodNonStarted` is declared
outside the available sources. -/
def PodNonStarted : String := "Unstart"

/-- Modelled from the spec: the constant `setting.ServiceStatusAllSuspended` is
declared outside the available sources. -/
def ServiceStatusAllSuspended : String := "AllSuspended"

/-- Modelled from the spec: the constant `setting.ServiceStatusPartSuspended`
is declared outside the available sources. -/
def ServiceStatusPartSuspended : String := "PartSuspended"

/-- Modelled from the spec: the constant `setting.ServiceStatusNoSuspended` is
declared outside the available sources. -/
def ServiceStatusNoSuspended : String := "NoSuspended"

/-- Modelled from the spec: the constant `setting.PodReady` is declared outside
the available sources. -/
def PodReady : String := "ready"

/-- Modelled from the spec: the constant `setting.JobReady` is declared outside
the available sources. -/
def JobReady : String := "Completed"

/-- Modelled from the spec: the constant `setting.PodNotReady` is declared
outside the available sources. -/
def PodNotReady : String := "not ready"

/-- The text of the Kubernetes pod phase `corev1.PodSucceeded`. -/
def CoreV1PodSucceeded : String := "Succeeded"

/-- Modelled from the spec: the constant `setting.SourceFromHelm` is declared
outside the available sources. -/
def SourceFromHelm : String := "helm"

/-- Modelled from the spec: the constant `setting.ProductLabel` is declared
outside the available sources. -/
def ProductLabel : String := "s-product"

/-- Modelled from the spec: the constant `setting.ServiceLabel` is declared
outside the available sources. -/
def ServiceLabel : String := "s-service"

/-! ### queryPodsStatus -/

/-- Modelled from the spec: a container as the code reads one, by name and
image (the type declaration is outside the available sources). -/
structure Container where
  Name : String
  Image : String
  deriving DecidableEq, Repr

/-- Modelled from the spec: a pod of a workload as `queryPodsStatus` reads one
(the type declaration is outside the available sources). -/
structure Pod where
  Succeed : Bool
  Ready : Bool
  Containers : List Container
  deriving DecidableEq, Repr

/-- Modelled from the spec: an entry of `svcResp.Scales`, read for its pods
(the type declaration is outside the available sources). -/
structure Scale where
  Pods : List Pod
  deriving DecidableEq, Repr

/-- Modelled from the spec: a cron job as `queryPodsStatus` reads one (the type
declaration is outside the available sources). -/
structure CronJob where
  Suspend : Bool
  Images : List Container
  deriving DecidableEq, Repr

/-- Modelled from the spec: a workload as `queryPodsStatus` reads one, by its
image names (the type declaration is outside the available sources). -/
structure Workload where
  Images : List String
  deriving DecidableEq, Repr

/-- Modelled from the spec: the ingress information, which `queryPodsStatus`
passes on unread (the type declaration is outside the available sources). -/
structure IngressInfo where
  HostInfo : List String
  deriving DecidableEq, Repr

/-- Modelled from the spec: the result of `commonservice.GetServiceImpl` as
`queryPodsStatus` reads it (the type declaration is outside the available
sources). -/
structure SvcResp where
  Ingress : Option IngressInfo
  Workloads : List Workload
  CronJobs : List CronJob
  Scales : List Scale
  deriving DecidableEq, Repr

/-- Modelled from the spec: the service template as `queryPodsStatus` reads it
(the type declaration is outside the available sources). -/
structure ServiceTmpl where
  ServiceName : String
  Containers : List Container
  deriving DecidableEq, Repr

/-- The response type `ZadigServiceStatusResp`, with the fields that
`queryPodsStatus` sets. -/
structure ZadigServiceStatusResp where
  ServiceName : String
  PodStatus : String
  Ready : String
  Ingress : Option IngressInfo
  Images : List String
  Workloads : List Workload
  deriving DecidableEq, Repr

/-- The loop that counts the suspended cron jobs. -/
def countSuspended : Nat → List CronJob → Nat
  | suspendCronJobCount, [] => suspendCronJobCount
  | suspendCronJobCount, cronJob :: rest =>
    if cronJob.Suspend then countSuspended (suspendCronJobCount + 1) rest
    else countSuspended suspendCronJobCount rest

/-- The loop `pods = append(pods, svc.Pods...)` over `svcResp.Scales`. -/
def collectPods : List Pod → List Scale → List Pod
  | pods, [] => pods
  | pods, svc :: rest => collectPods (pods ++ svc.Pods) rest

/-- Inserting a list of items into a string set. -/
def insertAll : List String → List String → List String
  | set, [] => set
  | set, item :: rest => insertAll (setInsert set item) rest

/-- The loop that inserts the images of the workloads. -/
def insertWorkloadImages : List String → List Workload → List String
  | imageSet, [] => imageSet
  | imageSet, workload :: rest => insertWorkloadImages (insertAll imageSet workload.Images) rest

/-- The loop that inserts the container images of the pods. -/
def insertPodImages : List String → List Pod → List String
  | imageSet, [] => imageSet
  | imageSet, pod :: rest =>
    insertPodImages (insertAll imageSet (pod.Containers.map fun container => container.Image))
      rest

/-- The loop that inserts the images of the cron jobs. -/
def insertCronJobImages : List String → List CronJob → List String
  | imageSet, [] => imageSet
  | imageSet, cronJob :: rest =>
    insertCronJobImages (insertAll imageSet (cronJob.Images.map fun image => image.Image)) rest

/-- The loop over the pods that counts the succeeded ones; `none` is the early
return at a pod that has not succeeded and is not ready. -/
def scanPods : Nat → List Pod → Option Nat
  | succeededPods, [] => some succeededPods
  | succeededPods, pod :: rest =>
    if pod.Succeed then
      scanPods (succeededPods + 1) rest
    else if !pod.Ready then
      none
    else
      scanPods succeededPods rest

/-- The function `queryPodsStatus`. The lookup `commonservice.GetServiceImpl`,
which is outside the available sources, is the parameter `getServiceImpl`;
what it is given besides the name and the template is part of it. -/
def queryPodsStatus (getServiceImpl : String → ServiceTmpl → Except String SvcResp)
    (serviceTmpl : ServiceTmpl) (serviceName : String) : ZadigServiceStatusResp :=
  match getServiceImpl serviceTmpl.ServiceName serviceTmpl with
  | .error _ =>
    { ServiceName := serviceName, PodStatus := PodError, Ready := PodNotReady,
      Ingress := none, Images := [], Workloads := [] }
  | .ok svcResp =>
    if serviceTmpl.Containers.length = 0 then
      { ServiceName := serviceName, PodStatus := PodSucceeded, Ready := PodReady,
        Ingress := svcResp.Ingress, Images := [], Workloads := svcResp.Workloads }
    else if (collectPods [] svcResp.Scales).length = 0 ∧ svcResp.CronJobs.length = 0 then
      { ServiceName := serviceName, PodStatus := PodNonStarted, Ready := PodNotReady,
        Ingress := svcResp.Ingress,
        Images := setList (insertWorkloadImages [] svcResp.Workloads),
        Workloads := svcResp.Workloads }
    else if svcResp.Workloads.length = 0 ∧ svcResp.CronJobs.length > 0 then
      { ServiceName := serviceName,
        PodStatus :=
          if svcResp.CronJobs.length = countSuspended 0 svcResp.CronJobs then
            ServiceStatusAllSuspended
          else if countSuspended 0 svcResp.CronJobs = 0 then
            ServiceStatusNoSuspended
          else
            ServiceStatusPartSuspended,
        Ready := PodNotReady,
        Ingress := svcResp.Ingress,
        Images := setList (insertCronJobImages
          (insertPodImages [] (collectPods [] svcResp.Scales)) svcResp.CronJobs),
        Workloads := svcResp.Workloads }
    else
      match scanPods 0 (collectPods [] svcResp.Scales) with
      | none =>
        { ServiceName := serviceName, PodStatus := PodUnstable, Ready := PodNotReady,
          Ingress := svcResp.Ingress,
          Images := setList (insertCronJobImages
            (insertPodImages [] (collectPods [] svcResp.Scales)) svcResp.CronJobs),
          Workloads := svcResp.Workloads }
      | some succeededPods =>
        if (collectPods [] svcResp.Scales).length = succeededPods then
          { ServiceName := serviceName, PodStatus := CoreV1PodSucceeded, Ready := JobReady,
            Ingress := svcResp.Ingress,
            Images := setList (insertCronJobImages
              (insertPodImages [] (collectPods [] svcResp.Scales)) svcResp.CronJobs),
            Workloads := svcResp.Workloads }
        else
          { ServiceName := serviceName, PodStatus := PodRunning, Ready := PodReady,
            Ingress := svcResp.Ingress,
            Images := setList (insertCronJobImages
              (insertPodImages [] (collectPods [] svcResp.Scales)) svcResp.CronJobs),
            Workloads := svcResp.Workloads }

/-- All pods of the scales, in order. -/
def allPods (svcResp : SvcResp) : List Pod :=
  (svcResp.Scales.map fun svc => svc.Pods).flatten

/-! ### validateServiceContainer2 -/

/-- The specification of a Kubernetes pod, read for its containers. -/
structure PodSpec where
  Containers : List Container
  deriving DecidableEq, Repr

/-- A Kubernetes pod, read for its specification. -/
structure CorePod where
  Spec : PodSpec
  deriving DecidableEq, Repr

/-- The errors of `validateServiceContainer2`: the wrapped error of the pod
listing, and the value `ContainerNotFound` with its four fields. -/
inductive ContainerError where
  | listPods (message : String)
  | containerNotFound (ServiceName Container EnvName ProductName : String)
  deriving DecidableEq, Repr

/-- The test `c.Name == container || strings.Contains(c.Image, container)`. -/
def containerMatches (container : String) (c : Container) : Bool :=
  decide (c.Name = container) || stringsContains c.Image container

/-- The inner loop `for _, c := range pod.Spec.Containers`; `some image` is the
early return. -/
def findInContainers (container : String) : List Container → Option String
  | [] => none
  | c :: rest =>
    if containerMatches container c then some c.Image
    else findInContainers container rest

/-- The outer loop `for _, pod := range pods`. -/
def findInPods (container : String) : List CorePod → Option String
  | [] => none
  | pod :: rest =>
    match findInContainers container pod.Spec.Containers with
    | some image => some image
    | none => findInPods container rest

/-- The function `validateServiceContainer2`. The listing `getter.ListPods`,
which is outside the available sources, is the parameter `listPods`, given the
namespace and the selector (`none` is the nil selector); the log line before
the last return is left out. The parameter `namespace` is written
`namespace_`. -/
def validateServiceContainer2
    (listPods : String → Option (List (String × String)) → Except String (List CorePod))
    (namespace_ envName productName serviceName container source : String) :
    Except ContainerError String :=
  match listPods namespace_
      (if source ≠ SourceFromHelm then
        some [(ProductLabel, productName), (ServiceLabel, serviceName)]
      else none) with
  | .error err =>
    .error (.listPods ("[" ++ namespace_ ++ "] ListPods " ++ productName ++ "/" ++
      serviceName ++ " error: " ++ err))
  | .ok pods =>
    match findInPods container pods with
    | some image => .ok image
    | none => .error (.containerNotFound serviceName container envName productName)

/-- All containers of the pods, in pod order then container order. -/
def allContainers (pods : List CorePod) : List Container :=
  (pods.map fun pod => pod.Spec.Containers).flatten

/-! ### Sample values -/

/-- A lookup that succeeds with one workload, no cron job and the given pods
in two scales. -/
def lookupPods (first second : List Pod) : String → ServiceTmpl → Except String SvcResp :=
  fun _ _ => .ok ⟨none, [⟨["nginx:1.0"]⟩], [], [⟨first⟩, ⟨second⟩]⟩

/-- A service template with one container. -/
def sampleTmpl : ServiceTmpl := ⟨"web", [⟨"nginx", "nginx:1.0"⟩]⟩

/-- A pod that has succeeded. -/
def podSucceeded : Pod := ⟨true, false, [⟨"job", "busybox:1"⟩]⟩

/-- A pod that is ready. -/
def podReady : Pod := ⟨false, true, [⟨"nginx", "nginx:1.0"⟩]⟩

/-- A pod that has not succeeded and is not ready. -/
def podNotReady : Pod := ⟨false, false, [⟨"nginx", "nginx:1.1"⟩]⟩

/-- A listing of pods that succeeds with two pods. -/
def listTwoPods : String → Option (List (String × String)) → Except String (List CorePod) :=
  fun _ _ => .ok [⟨⟨[⟨"sidecar", "envoy:1.2"⟩]⟩⟩, ⟨⟨[⟨"nginx", "nginx:1.0"⟩, ⟨"web", "app:2"⟩]⟩⟩]

end EnvironmentService

namespace ReleasePlan

open Go

/-! ## Lemmas on the loops -/

theorem isAndOr_iff (t : String) : isAndOr t = true ↔ t = "AND" ∨ t = "OR" := by
  simp [isAndOr]

theorem isAndOr_of_nodeOk {node : ApprovalNode} (h : nodeOk node) :
    isAndOr node.Type_ = true :=
  (isAndOr_iff _).2 h.2

theorem length_ne_zero_of_nodeOk {node : ApprovalNode} (h : nodeOk node) :
    node.ApproveUsers.length ≠ 0 := by
  have := h.1
  omega

theorem nodeOk_iff (node : ApprovalNode) :
    nodeOk node ↔ node.ApproveUsers.length ≠ 0 ∧ isAndOr node.Type_ = true := by
  unfold nodeOk
  rw [isAndOr_iff]
  constructor
  · rintro ⟨h1, h2⟩
    exact ⟨by omega, h2⟩
  · rintro ⟨h1, h2⟩
    exact ⟨by omega, h2⟩

/-- A result of type `error` is the nil error or an error with a message. -/
theorem ok_or_error (r : Except String Unit) : r = .ok () ∨ ∃ e, r = .error e := by
  cases r with
  | ok u => exact Or.inl rfl
  | error e => exact Or.inr ⟨e, rfl⟩

theorem lintLarkNodes_ok_iff (nodes : List ApprovalNode) (i : Nat) :
    lintLarkNodes i nodes = .ok () ↔ ∀ node ∈ nodes, nodeOk node := by
  induction nodes generalizing i with
  | nil => simp [lintLarkNodes]
  | cons node rest ih =>
    simp only [lintLarkNodes, List.forall_mem_cons, nodeOk_iff node]
    by_cases h1 : node.ApproveUsers.length = 0
    · simp [h1]
    · by_cases h2 : isAndOr node.Type_ = true
      · simp [h1, h2, ih]
      · simp [h1, h2]

theorem lintLarkNodes_cons_ok {node : ApprovalNode} (h : nodeOk node)
    (rest : List ApprovalNode) (i : Nat) :
    lintLarkNodes i (node :: rest) = lintLarkNodes (i + 1) rest := by
  simp [lintLarkNodes, length_ne_zero_of_nodeOk h, isAndOr_of_nodeOk h]

/-- The Lark loop stops at the first node that fails a check. -/
theorem lintLarkNodes_first (pre : List ApprovalNode) (node : ApprovalNode)
    (post : List ApprovalNode) (i : Nat)
    (hpre : ∀ m ∈ pre, nodeOk m) (hnode : ¬ nodeOk node) :
    lintLarkNodes i (pre ++ node :: post) =
      if node.ApproveUsers.length = 0 then .error (errNoApprover (i + pre.length))
      else .error (errNodeType (i + pre.length)) := by
  induction pre generalizing i with
  | nil =>
    rw [nodeOk_iff] at hnode
    by_cases h1 : node.ApproveUsers.length = 0
    · simp [lintLarkNodes, h1]
    · have h2 : ¬ isAndOr node.Type_ = true := fun h => hnode ⟨h1, h⟩
      simp [lintLarkNodes, h1, h2]
  | cons m pre ih =>
    have hm : nodeOk m := hpre m (List.mem_cons_self _ _)
    have hrest : ∀ x ∈ pre, nodeOk x := fun x hx => hpre x (List.mem_cons_of_mem _ hx)
    rw [List.cons_append, lintLarkNodes_cons_ok hm, ih (i + 1) hrest, List.length_cons]
    have e : i + 1 + pre.length = i + (pre.length + 1) := by omega
    rw [e]

/-- A list with an element failing `p` splits at the first such element. -/
theorem split_first_not {α : Type} (p : α → Prop) (l : List α)
    (h : ¬ ∀ x ∈ l, p x) :
    ∃ pre x post, l = pre ++ x :: post ∧ (∀ y ∈ pre, p y) ∧ ¬ p x := by
  induction l with
  | nil => simp at h
  | cons a l ih =>
    by_cases ha : p a
    · have h2 : ¬ ∀ x ∈ l, p x := by
        intro hall
        apply h
        intro x hx
        rcases List.mem_cons.1 hx with rfl | hx
        · exact ha
        · exact hall x hx
      obtain ⟨pre, x, post, hl, hpre, hx⟩ := ih h2
      refine ⟨a :: pre, x, post, by simp [hl], ?_, hx⟩
      intro y hy
      rcases List.mem_cons.1 hy with rfl | hy
      · exact ha
      · exact hpre y hy
    · exact ⟨[], a, l, rfl, by simp, ha⟩

/-! ### The DingTalk loops -/

theorem userIDs_cons (u : ApprovalUser) (us : List ApprovalUser) :
    userIDs (u :: us) = u.ID :: userIDs us := rfl

theorem userIDs_append (a b : List ApprovalUser) :
    userIDs (a ++ b) = userIDs a ++ userIDs b := by
  simp [userIDs]

theorem approverIDs_cons (node : ApprovalNode) (rest : List ApprovalNode) :
    approverIDs (node :: rest) = userIDs node.ApproveUsers ++ approverIDs rest := by
  simp [approverIDs]

theorem approverIDs_append (a b : List ApprovalNode) :
    approverIDs (a ++ b) = approverIDs a ++ approverIDs b := by
  simp [approverIDs]

theorem approverIDs_eq (nodes : List ApprovalNode) :
    approverIDs nodes = userIDs (approvers nodes) := by
  induction nodes with
  | nil => rfl
  | cons node rest ih =>
    rw [approverIDs_cons, ih]
    simp [approvers, userIDs]

/-- The inner loop succeeds exactly when the IDs are pairwise different and
none is in the set already; the set then holds the new IDs as well. -/
theorem lintDingTalkUsers_ok_iff (users : List ApprovalUser) (seen out : List String) :
    lintDingTalkUsers seen users = .ok out ↔
      out = (userIDs users).reverse ++ seen ∧ (userIDs users).Nodup ∧
        ∀ id ∈ userIDs users, id ∉ seen := by
  induction users generalizing seen with
  | nil =>
    simp only [lintDingTalkUsers, userIDs, List.map_nil, List.reverse_nil, List.nil_append,
      List.nodup_nil, List.not_mem_nil, false_imp_iff, implies_true, and_true]
    constructor
    · intro h
      injection h with h
      exact h.symm
    · intro h
      rw [h]
  | cons u us ih =>
    rw [lintDingTalkUsers, userIDs_cons]
    by_cases hu : u.ID ∈ seen
    · have hc : seen.contains u.ID = true := by simpa using hu
      rw [if_pos hc]
      constructor
      · intro h
        cases h
      · rintro ⟨_, _, h3⟩
        exact absurd hu (h3 u.ID (List.mem_cons_self _ _))
    · have hc : ¬ seen.contains u.ID = true := by simpa using hu
      rw [if_neg hc, ih]
      simp only [List.reverse_cons, List.append_assoc, List.singleton_append,
        List.nodup_cons, List.mem_cons, forall_eq_or_imp]
      constructor
      · rintro ⟨h1, h2, h3⟩
        refine ⟨h1, ⟨?_, h2⟩, hu, ?_⟩
        · intro hmem
          exact (h3 u.ID hmem) (Or.inl rfl)
        · intro id hid hs
          exact (h3 id hid) (Or.inr hs)
      · rintro ⟨h1, ⟨h2, h3⟩, _, h5⟩
        refine ⟨h1, h3, ?_⟩
        intro id hid hs
        rcases hs with rfl | hs
        · exact h2 hid
        · exact h5 id hid hs

/-- The inner loop fails at the first approver whose ID is in the set or was
met earlier in the list, with that approver's name in the message. -/
theorem lintDingTalkUsers_error (users : List ApprovalUser) (seen : List String)
    (e : String) (h : lintDingTalkUsers seen users = .error e) :
    ∃ pre u post, users = pre ++ u :: post ∧ (userIDs pre).Nodup ∧
      (∀ id ∈ userIDs pre, id ∉ seen) ∧ (u.ID ∈ seen ∨ u.ID ∈ userIDs pre) ∧
      e = errDuplicate u.Name := by
  induction users generalizing seen with
  | nil => simp [lintDingTalkUsers] at h
  | cons a us ih =>
    rw [lintDingTalkUsers] at h
    by_cases ha : a.ID ∈ seen
    · have hc : seen.contains a.ID = true := by simpa using ha
      rw [if_pos hc] at h
      injection h with h
      exact ⟨[], a, us, rfl, by simp [userIDs], by simp [userIDs], Or.inl ha, h.symm⟩
    · have hc : ¬ seen.contains a.ID = true := by simpa using ha
      rw [if_neg hc] at h
      obtain ⟨pre, u, post, hus, hnd, hdis, hmem, he⟩ := ih _ h
      refine ⟨a :: pre, u, post, by simp [hus], ?_, ?_, ?_, he⟩
      · rw [userIDs_cons, List.nodup_cons]
        refine ⟨?_, hnd⟩
        intro hin
        exact (hdis a.ID hin) (List.mem_cons_self _ _)
      · intro id hid hs
        rw [userIDs_cons] at hid
        rcases List.mem_cons.1 hid with rfl | hid
        · exact ha hs
        · exact (hdis id hid) (List.mem_cons_of_mem _ hs)
      · rw [userIDs_cons]
        rcases hmem with hmem | hmem
        · rcases List.mem_cons.1 hmem with heq | hmem
          · exact Or.inr (by rw [heq]; exact List.mem_cons_self _ _)
          · exact Or.inl hmem
        · exact Or.inr (List.mem_cons_of_mem _ hmem)

theorem lintDingTalkUsers_append (a b : List ApprovalUser) (seen : List String) :
    lintDingTalkUsers seen (a ++ b) =
      match lintDingTalkUsers seen a with
      | .error e => .error e
      | .ok out => lintDingTalkUsers out b := by
  induction a generalizing seen with
  | nil => simp [lintDingTalkUsers]
  | cons u us ih =>
    rw [List.cons_append, lintDingTalkUsers, lintDingTalkUsers]
    by_cases hc : seen.contains u.ID = true
    · rw [if_pos hc, if_pos hc]
    · rw [if_neg hc, if_neg hc]
      exact ih _

/-- One round of the DingTalk loop on a node that passes every check. -/
theorem lintDingTalkNodes_cons_ok {node : ApprovalNode} (h : nodeOk node)
    (seen : List String) (hnd : (userIDs node.ApproveUsers).Nodup)
    (hdis : ∀ id ∈ userIDs node.ApproveUsers, id ∉ seen)
    (rest : List ApprovalNode) (i : Nat) :
    lintDingTalkNodes i seen (node :: rest) =
      lintDingTalkNodes (i + 1) ((userIDs node.ApproveUsers).reverse ++ seen) rest := by
  have hu : lintDingTalkUsers seen node.ApproveUsers
      = .ok ((userIDs node.ApproveUsers).reverse ++ seen) :=
    (lintDingTalkUsers_ok_iff _ _ _).2 ⟨rfl, hnd, hdis⟩
  rw [lintDingTalkNodes, if_neg (length_ne_zero_of_nodeOk h), hu]
  simp [isAndOr_of_nodeOk h]

/-- The DingTalk loop succeeds exactly when every node passes the two per-node
checks and no approver ID is met twice or is in the set at entry. -/
theorem lintDingTalkNodes_ok_iff (nodes : List ApprovalNode) (i : Nat)
    (seen : List String) :
    lintDingTalkNodes i seen nodes = .ok () ↔
      (∀ node ∈ nodes, nodeOk node) ∧ (approverIDs nodes).Nodup ∧
        ∀ id ∈ approverIDs nodes, id ∉ seen := by
  induction nodes generalizing i seen with
  | nil => simp [lintDingTalkNodes, approverIDs]
  | cons node rest ih =>
    rw [approverIDs_cons, List.nodup_append, List.forall_mem_cons]
    by_cases hlen : node.ApproveUsers.length = 0
    · rw [lintDingTalkNodes, if_pos hlen]
      constructor
      · intro h
        cases h
      · rintro ⟨⟨hn, _⟩, _⟩
        exact absurd hlen (length_ne_zero_of_nodeOk hn)
    · rw [lintDingTalkNodes, if_neg hlen]
      cases hu : lintDingTalkUsers seen node.ApproveUsers with
      | error e =>
        simp only
        constructor
        · intro h
          cases h
        · rintro ⟨_, ⟨hnd, _, _⟩, hdis⟩
          have hok := (lintDingTalkUsers_ok_iff node.ApproveUsers seen _).2
            ⟨rfl, hnd, fun id hid => hdis id (List.mem_append_left _ hid)⟩
          rw [hu] at hok
          cases hok
      | ok out =>
        obtain ⟨hout, hnd, hdis⟩ := (lintDingTalkUsers_ok_iff _ _ _).1 hu
        simp only
        by_cases ht : isAndOr node.Type_ = true
        · have hn : nodeOk node := (nodeOk_iff node).2 ⟨hlen, ht⟩
          simp only [ht, Bool.not_true, Bool.false_eq_true, if_false]
          rw [ih, hout]
          constructor
          · rintro ⟨h1, h2, h3⟩
            refine ⟨⟨hn, h1⟩, ⟨hnd, h2, ?_⟩, ?_⟩
            · intro a ha hb
              exact h3 a hb (List.mem_append_left _ (List.mem_reverse.2 ha))
            · intro id hid
              rcases List.mem_append.1 hid with hid | hid
              · exact hdis id hid
              · intro hs
                exact h3 id hid (List.mem_append_right _ hs)
          · rintro ⟨⟨_, h1⟩, ⟨_, h2, h3⟩, h4⟩
            refine ⟨h1, h2, ?_⟩
            intro id hid hs
            rcases List.mem_append.1 hs with hs | hs
            · exact h3 (List.mem_reverse.1 hs) hid
            · exact h4 id (List.mem_append_right _ hid) hs
        · have htf : isAndOr node.Type_ = false := by simpa using ht
          simp only [htf, Bool.not_false, if_true]
          constructor
          · intro h
            cases h
          · rintro ⟨⟨hn, _⟩, _⟩
            exact absurd (isAndOr_of_nodeOk hn) ht

/-- When every node passes the two per-node checks, the DingTalk loop is one
scan for a repeated ID over all approvers in node order. -/
theorem lintDingTalkNodes_flat (nodes : List ApprovalNode) (i : Nat) (seen : List String)
    (h : ∀ node ∈ nodes, nodeOk node) :
    lintDingTalkNodes i seen nodes =
      match lintDingTalkUsers seen (approvers nodes) with
      | .error e => .error e
      | .ok _ => .ok () := by
  induction nodes generalizing i seen with
  | nil => simp [lintDingTalkNodes, approvers, lintDingTalkUsers]
  | cons node rest ih =>
    have hn : nodeOk node := h node (List.mem_cons_self _ _)
    have hrest : ∀ x ∈ rest, nodeOk x := fun x hx => h x (List.mem_cons_of_mem _ hx)
    have happ : approvers (node :: rest) = node.ApproveUsers ++ approvers rest := by
      simp [approvers]
    rw [happ, lintDingTalkUsers_append, lintDingTalkNodes,
      if_neg (length_ne_zero_of_nodeOk hn)]
    cases hu : lintDingTalkUsers seen node.ApproveUsers with
    | error e => rfl
    | ok out =>
      simp only [isAndOr_of_nodeOk hn, Bool.not_true, Bool.false_eq_true, if_false]
      exact ih (i + 1) out hrest

/-- The DingTalk loop runs through a prefix of nodes that pass every check. -/
theorem lintDingTalkNodes_prefix (pre rest : List ApprovalNode) (i : Nat)
    (seen : List String) (hpre : ∀ m ∈ pre, nodeOk m)
    (hnd : (approverIDs pre).Nodup) (hdis : ∀ id ∈ approverIDs pre, id ∉ seen) :
    lintDingTalkNodes i seen (pre ++ rest) =
      lintDingTalkNodes (i + pre.length) ((approverIDs pre).reverse ++ seen) rest := by
  induction pre generalizing i seen with
  | nil => simp [approverIDs]
  | cons m pre ih =>
    have hm : nodeOk m := hpre m (List.mem_cons_self _ _)
    have hrest : ∀ x ∈ pre, nodeOk x := fun x hx => hpre x (List.mem_cons_of_mem _ hx)
    rw [approverIDs_cons, List.nodup_append] at hnd
    obtain ⟨hnd1, hnd2, hnd3⟩ := hnd
    rw [List.cons_append, lintDingTalkNodes_cons_ok hm seen hnd1
      (fun id hid => hdis id (by rw [approverIDs_cons]; exact List.mem_append_left _ hid)),
      ih (i + 1) _ hrest hnd2]
    · rw [approverIDs_cons, List.reverse_append, List.append_assoc, List.length_cons]
      have e : i + 1 + pre.length = i + (pre.length + 1) := by omega
      rw [e]
    · intro id hid hs
      rcases List.mem_append.1 hs with hs | hs
      · exact hnd3 (List.mem_reverse.1 hs) hid
      · exact hdis id (by rw [approverIDs_cons]; exact List.mem_append_right _ hid) hs

/-! ### The dispatch of `lintApproval` -/

theorem lintApproval_native (a : Approval) (native : NativeApproval)
    (hEn : a.Enabled = true) (hT : a.Type_ = NativeApprovalType)
    (hB : a.NativeApproval = some native) :
    lintApproval (some a) =
      if (native.ApproveUsers.length : Int) < native.NeededApprovers then
        .error errNeededApprovers
      else .ok () := by
  simp [lintApproval, hEn, hT, hB]

theorem lintApproval_lark (a : Approval) (lark : LarkApproval)
    (hEn : a.Enabled = true) (hT : a.Type_ = LarkApprovalType)
    (hB : a.LarkApproval = some lark) :
    lintApproval (some a) =
      if lark.ApprovalNodes.length = 0 then .error errNoNode
      else lintLarkNodes 0 lark.ApprovalNodes := by
  have h1 : LarkApprovalType ≠ NativeApprovalType := by decide
  simp [lintApproval, hEn, hT, hB, h1]

theorem lintApproval_dingtalk (a : Approval) (ding : DingTalkApproval)
    (hEn : a.Enabled = true) (hT : a.Type_ = DingTalkApprovalType)
    (hB : a.DingTalkApproval = some ding) :
    lintApproval (some a) =
      if ding.ApprovalNodes.length > 20 then .error errTooManyNodes
      else if ding.ApprovalNodes.length = 0 then .error errNoNode
      else lintDingTalkNodes 0 [] ding.ApprovalNodes := by
  have h1 : DingTalkApprovalType ≠ NativeApprovalType := by decide
  have h2 : DingTalkApprovalType ≠ LarkApprovalType := by decide
  simp [lintApproval, hEn, hT, hB, h1, h2]

/-- One round of the DingTalk loop on a node with approvers, no repeated ID
and a type that is neither `AND` nor `OR`. -/
theorem lintDingTalkNodes_cons_bad_type (node : ApprovalNode) (rest : List ApprovalNode)
    (i : Nat) (seen : List String) (hlen : node.ApproveUsers.length ≠ 0)
    (hnd : (userIDs node.ApproveUsers).Nodup)
    (hdis : ∀ id ∈ userIDs node.ApproveUsers, id ∉ seen)
    (hbad : isAndOr node.Type_ = false) :
    lintDingTalkNodes i seen (node :: rest) = .error (errNodeType i) := by
  have hu : lintDingTalkUsers seen node.ApproveUsers
      = .ok ((userIDs node.ApproveUsers).reverse ++ seen) :=
    (lintDingTalkUsers_ok_iff _ _ _).2 ⟨rfl, hnd, hdis⟩
  rw [lintDingTalkNodes, if_neg hlen, hu]
  simp [hbad]

theorem not_nodeOk_of_bad_type {node : ApprovalNode}
    (h : node.Type_ ≠ "AND" ∧ node.Type_ ≠ "OR") : ¬ nodeOk node := by
  rintro ⟨_, h1 | h1⟩
  · exact h.1 h1
  · exact h.2 h1

theorem isAndOr_false_of_bad_type {t : String} (h : t ≠ "AND" ∧ t ≠ "OR") :
    isAndOr t = false := by
  cases hb : isAndOr t with
  | false => rfl
  | true =>
    rcases (isAndOr_iff t).1 hb with h1 | h1
    · exact absurd h1 h.1
    · exact absurd h1 h.2

/-- A Lark node list with a node that fails a check is rejected. -/
theorem lintLark_error_of_not_ok (a : Approval) (lark : LarkApproval)
    (hEn : a.Enabled = true) (hT : a.Type_ = LarkApprovalType)
    (hB : a.LarkApproval = some lark)
    (h : ¬ ∀ node ∈ lark.ApprovalNodes, nodeOk node) :
    ∃ e, lintApproval (some a) = .error e := by
  rcases ok_or_error (lintApproval (some a)) with hok | herr
  · exfalso
    rw [lintApproval_lark a lark hEn hT hB] at hok
    by_cases h0 : lark.ApprovalNodes.length = 0
    · rw [if_pos h0] at hok
      cases hok
    · rw [if_neg h0, lintLarkNodes_ok_iff] at hok
      exact h hok
  · exact herr

/-- A DingTalk node list with a node that fails a check is rejected. -/
theorem lintDingTalk_error_of_not_ok (a : Approval) (ding : DingTalkApproval)
    (hEn : a.Enabled = true) (hT : a.Type_ = DingTalkApprovalType)
    (hB : a.DingTalkApproval = some ding)
    (h : ¬ ∀ node ∈ ding.ApprovalNodes, nodeOk node) :
    ∃ e, lintApproval (some a) = .error e := by
  rcases ok_or_error (lintApproval (some a)) with hok | herr
  · exfalso
    rw [lintApproval_dingtalk a ding hEn hT hB] at hok
    by_cases h20 : ding.ApprovalNodes.length > 20
    · rw [if_pos h20] at hok
      cases hok
    · rw [if_neg h20] at hok
      by_cases h0 : ding.ApprovalNodes.length = 0
      · rw [if_pos h0] at hok
        cases hok
      · rw [if_neg h0, lintDingTalkNodes_ok_iff] at hok
        exact h hok.1
  · exact herr

/-! ### The workflow loops -/

theorem lintStageJobs_cons_skip (cat : JobCatalog) (workflow : WorkflowV4) (job : Job)
    (rest : List Job) (h : cat.JobSkiped job = true) :
    lintStageJobs cat workflow (job :: rest) = lintStageJobs cat workflow rest := by
  rw [lintStageJobs, if_pos h]

theorem lintStageJobs_cons_pass (cat : JobCatalog) (workflow : WorkflowV4) (job : Job)
    (rest : List Job) (h : jobPasses cat workflow job) :
    lintStageJobs cat workflow (job :: rest) = lintStageJobs cat workflow rest := by
  cases hs : cat.JobSkiped job with
  | true => exact lintStageJobs_cons_skip cat workflow job rest hs
  | false =>
    obtain ⟨hl, tasks, ht⟩ := h hs
    rw [lintStageJobs, hs, hl, ht]
    rfl

theorem lintStageJobs_cons_lint_error (cat : JobCatalog) (workflow : WorkflowV4)
    (job : Job) (rest : List Job) (c : String) (hs : cat.JobSkiped job = false)
    (hl : cat.LintJob job workflow = .error c) :
    lintStageJobs cat workflow (job :: rest) =
      .error ("lint job-" ++ job.Name ++ " err: " ++ c) := by
  rw [lintStageJobs, hs, hl]
  rfl

theorem lintStageJobs_cons_expand_error (cat : JobCatalog) (workflow : WorkflowV4)
    (job : Job) (rest : List Job) (c : String) (hs : cat.JobSkiped job = false)
    (hl : cat.LintJob job workflow = .ok ())
    (ht : cat.ToJobs job workflow 0 = .error c) :
    lintStageJobs cat workflow (job :: rest) =
      .error ("lint job-" ++ job.Name ++ " runtime err: " ++ c) := by
  rw [lintStageJobs, hs, hl, ht]
  rfl

/-- The inner loop runs through a prefix of jobs that pass. -/
theorem lintStageJobs_prefix (cat : JobCatalog) (workflow : WorkflowV4)
    (pre rest : List Job) (h : ∀ job ∈ pre, jobPasses cat workflow job) :
    lintStageJobs cat workflow (pre ++ rest) = lintStageJobs cat workflow rest := by
  induction pre with
  | nil => rfl
  | cons job pre ih =>
    rw [List.cons_append,
      lintStageJobs_cons_pass cat workflow job _ (h job (List.mem_cons_self _ _))]
    exact ih fun j hj => h j (List.mem_cons_of_mem _ hj)

theorem lintStageJobs_append (cat : JobCatalog) (workflow : WorkflowV4)
    (a b : List Job) :
    lintStageJobs cat workflow (a ++ b) =
      match lintStageJobs cat workflow a with
      | .error e => .error e
      | .ok _ => lintStageJobs cat workflow b := by
  induction a with
  | nil => rfl
  | cons job a ih =>
    rw [List.cons_append, lintStageJobs, lintStageJobs]
    cases cat.JobSkiped job with
    | true => simpa using ih
    | false =>
      cases cat.LintJob job workflow with
      | error e => rfl
      | ok u =>
        cases cat.ToJobs job workflow 0 with
        | error e => rfl
        | ok t => simpa using ih

/-- The two nested loops are one loop over all jobs in stage order. -/
theorem lintStages_eq (cat : JobCatalog) (workflow : WorkflowV4)
    (stages : List WorkflowStage) :
    lintStages cat workflow stages =
      lintStageJobs cat workflow (stages.map fun stage => stage.Jobs).flatten := by
  induction stages with
  | nil => rfl
  | cons stage rest ih =>
    rw [lintStages, List.map_cons, List.flatten_cons, lintStageJobs_append]
    cases lintStageJobs cat workflow stage.Jobs with
    | error e => rfl
    | ok u => exact ih

theorem lintWorkflow_some (copy : WorkflowV4 → Except String WorkflowV4)
    (cat : JobCatalog) (workflow tmp : WorkflowV4) (h : copy workflow = .ok tmp) :
    lintWorkflow copy cat (some workflow) = lintStageJobs cat workflow (allJobs tmp) := by
  rw [lintWorkflow, h]
  exact lintStages_eq cat workflow tmp.Stages

theorem lintWorkflow_copy_error (copy : WorkflowV4 → Except String WorkflowV4)
    (cat : JobCatalog) (workflow : WorkflowV4) (c : String)
    (h : copy workflow = .error c) :
    lintWorkflow copy cat (some workflow) = .error ("IToi tmp workflow error: " ++ c) := by
  rw [lintWorkflow, h]

/-- The inner loop succeeds exactly when every job passes. -/
theorem lintStageJobs_ok_iff (cat : JobCatalog) (workflow : WorkflowV4)
    (jobs : List Job) :
    lintStageJobs cat workflow jobs = .ok () ↔ ∀ job ∈ jobs, jobPasses cat workflow job := by
  induction jobs with
  | nil => simp [lintStageJobs]
  | cons job rest ih =>
    rw [List.forall_mem_cons]
    by_cases hp : jobPasses cat workflow job
    · rw [lintStageJobs_cons_pass cat workflow job rest hp, ih]
      exact ⟨fun h => ⟨hp, h⟩, fun h => h.2⟩
    · constructor
      · intro h
        exfalso
        apply hp
        intro hs
        rw [lintStageJobs, hs] at h
        cases hl : cat.LintJob job workflow with
        | error e =>
          rw [hl] at h
          cases h
        | ok u =>
          rw [hl] at h
          cases ht : cat.ToJobs job workflow 0 with
          | error e =>
            rw [ht] at h
            cases h
          | ok t => exact ⟨rfl, t, rfl⟩
      · intro h
        exact absurd h.1 hp

theorem mem_allJobs (workflow : WorkflowV4) (job : Job) :
    job ∈ allJobs workflow ↔ ∃ stage ∈ workflow.Stages, job ∈ stage.Jobs := by
  simp [allJobs, List.mem_flatten]

/-- Two catalogs that agree on the skip predicate and, on the jobs that are
not skipped, on lint and expansion give the same inner loop. -/
theorem lintStageJobs_congr (c1 c2 : JobCatalog) (workflow : WorkflowV4) (jobs : List Job)
    (hskip : ∀ job ∈ jobs, c1.JobSkiped job = c2.JobSkiped job)
    (hlint : ∀ job ∈ jobs, c1.JobSkiped job = false →
      c1.LintJob job workflow = c2.LintJob job workflow)
    (hexp : ∀ job ∈ jobs, c1.JobSkiped job = false →
      c1.ToJobs job workflow 0 = c2.ToJobs job workflow 0) :
    lintStageJobs c1 workflow jobs = lintStageJobs c2 workflow jobs := by
  induction jobs with
  | nil => rfl
  | cons job rest ih =>
    have ih2 := ih (fun j hj => hskip j (List.mem_cons_of_mem _ hj))
      (fun j hj => hlint j (List.mem_cons_of_mem _ hj))
      (fun j hj => hexp j (List.mem_cons_of_mem _ hj))
    have hm : job ∈ job :: rest := List.mem_cons_self _ _
    rw [lintStageJobs, lintStageJobs, ← hskip job hm]
    cases hs : c1.JobSkiped job with
    | true => simpa using ih2
    | false =>
      rw [← hlint job hm hs, ← hexp job hm hs]
      cases c1.LintJob job workflow with
      | error e => rfl
      | ok u =>
        cases c1.ToJobs job workflow 0 with
        | error e => rfl
        | ok t => simpa using ih2

/-! ### The workflow loops on a heap -/

theorem readJob_set_ne (h : JobHeap) (a b : Nat) (j : Job) (hab : a ≠ b) :
    readJob (h.set a j) b = readJob h b := by
  simp [readJob, List.getElem?_set_ne hab]

theorem readJob_set_self (h : JobHeap) (a : Nat) (j : Job) (ha : a < h.length) :
    readJob (h.set a j) a = j := by
  simp [readJob, List.getElem?_set_self ha]

theorem readJob_congr (h1 h2 : JobHeap) (p : Nat) (hp : h1[p]? = h2[p]?) :
    readJob h1 p = readJob h2 p := by
  simp [readJob, hp]

/-- The value of a workflow depends on the cells of its pointers only. -/
theorem viewWorkflow_congr (h1 h2 : JobHeap) (workflow : WorkflowPtr)
    (hp : ∀ stage ∈ workflow.Stages, ∀ p ∈ stage, h1[p]? = h2[p]?) :
    viewWorkflow h1 workflow = viewWorkflow h2 workflow := by
  unfold viewWorkflow
  congr 1
  apply List.map_congr_left
  intro stage hs
  congr 1
  apply List.map_congr_left
  intro p hpm
  exact readJob_congr h1 h2 p (hp stage hs p hpm)

theorem wellFormed_iff (h : JobHeap) (workflow : WorkflowPtr) :
    wellFormed h workflow = true ↔
      ∀ stage ∈ workflow.Stages, ∀ p ∈ stage, p < h.length := by
  simp [wellFormed, List.all_eq_true]

theorem callLintJob_frame (cat : JobCatalogH) (h : JobHeap) (job : Nat)
    (workflow : WorkflowPtr) :
    (callLintJob cat h job workflow).2.length = h.length ∧
    ∀ b, b ≠ job → (callLintJob cat h job workflow).2[b]? = h[b]? := by
  unfold callLintJob
  refine ⟨by simp, fun b hb => ?_⟩
  simp [List.getElem?_set_ne (Ne.symm hb)]

theorem callToJobs_frame (cat : JobCatalogH) (h : JobHeap) (job : Nat)
    (workflow : WorkflowPtr) (taskID : Int) :
    (callToJobs cat h job workflow taskID).2.length = h.length ∧
    ∀ b, b ≠ job → (callToJobs cat h job workflow taskID).2[b]? = h[b]? := by
  unfold callToJobs
  refine ⟨by simp, fun b hb => ?_⟩
  simp [List.getElem?_set_ne (Ne.symm hb)]

/-- The inner loop writes the cells of the pointers of the stage only, and
allocates nothing. -/
theorem lintStageJobsH_frame (cat : JobCatalogH) (workflow : WorkflowPtr) :
    ∀ (stage : List Nat) (h : JobHeap),
      (lintStageJobsH cat workflow h stage).2.length = h.length ∧
      ∀ b, b ∉ stage → (lintStageJobsH cat workflow h stage).2[b]? = h[b]? := by
  intro stage
  induction stage with
  | nil => intro h; exact ⟨rfl, fun _ _ => rfl⟩
  | cons job rest ih =>
    intro h
    have hne : ∀ b, b ∉ job :: rest → b ≠ job ∧ b ∉ rest := fun b hb =>
      ⟨fun e => hb (e ▸ List.mem_cons_self _ _), fun m => hb (List.mem_cons_of_mem _ m)⟩
    rw [lintStageJobsH]
    split
    · exact ⟨(ih h).1, fun b hb => (ih h).2 b (hne b hb).2⟩
    · have h1 := callLintJob_frame cat h job workflow
      rcases hL : callLintJob cat h job workflow with ⟨r1, hp1⟩
      rw [hL] at h1
      cases r1 with
      | error e => exact ⟨h1.1, fun b hb => h1.2 b (hne b hb).1⟩
      | ok u =>
        have h2 := callToJobs_frame cat hp1 job workflow 0
        dsimp only
        rcases hT : callToJobs cat hp1 job workflow 0 with ⟨r2, hp2⟩
        rw [hT] at h2
        cases r2 with
        | error e =>
          exact ⟨h2.1.trans h1.1, fun b hb =>
            (h2.2 b (hne b hb).1).trans (h1.2 b (hne b hb).1)⟩
        | ok t =>
          refine ⟨((ih hp2).1.trans h2.1).trans h1.1, fun b hb => ?_⟩
          exact ((ih hp2).2 b (hne b hb).2).trans
            ((h2.2 b (hne b hb).1).trans (h1.2 b (hne b hb).1))

/-- The result of the inner loop on a heap is its result on the values, when
the pointers of the stage are allocated, distinct, and not below `n`, and the
pointers of the workflow are below `n`. -/
theorem lintStageJobsH_result (cat : JobCatalogH) (workflow : WorkflowPtr) (n : Nat)
    (hw : ∀ stage ∈ workflow.Stages, ∀ p ∈ stage, p < n) :
    ∀ (stage : List Nat) (h : JobHeap),
      (∀ a ∈ stage, n ≤ a ∧ a < h.length) → stage.Nodup →
      (lintStageJobsH cat workflow h stage).1 =
        lintStageJobsV cat (viewWorkflow h workflow) (stage.map (readJob h)) := by
  intro stage
  induction stage with
  | nil => intro h _ _; rfl
  | cons job rest ih =>
    intro h hb hnd
    have hjob := hb job (List.mem_cons_self _ _)
    have hrest : ∀ a ∈ rest, n ≤ a ∧ a < h.length := fun a ha =>
      hb a (List.mem_cons_of_mem _ ha)
    have hnr : job ∉ rest := (List.nodup_cons.mp hnd).1
    have hndr : rest.Nodup := (List.nodup_cons.mp hnd).2
    -- a write to the cell of `job` leaves the workflow and the rest as they are
    have hview : ∀ (h1 : JobHeap), (∀ b, b ≠ job → h1[b]? = h[b]?) →
        viewWorkflow h1 workflow = viewWorkflow h workflow := fun h1 hf =>
      viewWorkflow_congr h1 h workflow fun st hs p hp =>
        hf p (Nat.ne_of_lt (Nat.lt_of_lt_of_le (hw st hs p hp) hjob.1))
    have hmap : ∀ (h1 : JobHeap), (∀ b, b ≠ job → h1[b]? = h[b]?) →
        rest.map (readJob h1) = rest.map (readJob h) := fun h1 hf =>
      List.map_congr_left fun a ha =>
        readJob_congr h1 h a (hf a fun e => hnr (e ▸ ha))
    rw [lintStageJobsH, List.map_cons, lintStageJobsV]
    split
    · exact ih h hrest hndr
    · unfold callLintJob
      rcases hL : cat.LintJob (readJob h job) (viewWorkflow h workflow) with ⟨r1, job1⟩
      have hs1 : ∀ b, b ≠ job → (h.set job job1)[b]? = h[b]? := fun b hne =>
        List.getElem?_set_ne (Ne.symm hne)
      cases r1 with
      | error e =>
        dsimp only
        rw [readJob_set_self h job job1 hjob.2]
      | ok u =>
        dsimp only
        unfold callToJobs
        rw [readJob_set_self h job job1 hjob.2, hview _ hs1]
        rcases hT : cat.ToJobs job1 (viewWorkflow h workflow) 0 with ⟨r2, job2⟩
        have hl1 : job < (h.set job job1).length := by simpa using hjob.2
        have hs2 : ∀ b, b ≠ job → ((h.set job job1).set job job2)[b]? = h[b]? :=
          fun b hne => (List.getElem?_set_ne (Ne.symm hne)).trans (hs1 b hne)
        cases r2 with
        | error e =>
          dsimp only
          rw [readJob_set_self _ job job2 hl1]
        | ok t =>
          dsimp only
          rw [ih _ (fun a ha => ⟨(hrest a ha).1, by simpa using (hrest a ha).2⟩) hndr,
            hview _ hs2, hmap _ hs2]

theorem lintStageJobsH_append (cat : JobCatalogH) (workflow : WorkflowPtr) :
    ∀ (a b : List Nat) (h : JobHeap),
      lintStageJobsH cat workflow h (a ++ b) =
        match lintStageJobsH cat workflow h a with
        | (.error e, h1) => (.error e, h1)
        | (.ok _, h1) => lintStageJobsH cat workflow h1 b := by
  intro a
  induction a with
  | nil => intro b h; rfl
  | cons job a ih =>
    intro b h
    rw [List.cons_append, lintStageJobsH, lintStageJobsH]
    split
    · exact ih b h
    · rcases callLintJob cat h job workflow with ⟨r1, h1⟩
      cases r1 with
      | error e => rfl
      | ok u =>
        dsimp only
        rcases callToJobs cat h1 job workflow 0 with ⟨r2, h2⟩
        cases r2 with
        | error e => rfl
        | ok t => exact ih b h2

/-- The two nested loops on a heap are one loop over all job pointers in stage
order. -/
theorem lintStagesH_eq (cat : JobCatalogH) (workflow : WorkflowPtr) :
    ∀ (stages : List (List Nat)) (h : JobHeap),
      lintStagesH cat workflow h stages = lintStageJobsH cat workflow h stages.flatten := by
  intro stages
  induction stages with
  | nil => intro h; rfl
  | cons stage rest ih =>
    intro h
    rw [lintStagesH, List.flatten_cons, lintStageJobsH_append]
    rcases lintStageJobsH cat workflow h stage with ⟨r, h1⟩
    cases r with
    | error e => rfl
    | ok u => exact ih h1

/-- The copy is allocated at the end of the heap. -/
theorem allocStages_heap : ∀ (stages : List WorkflowStage) (h : JobHeap),
    (allocStages h stages).1 = h ++ allJobs ⟨stages⟩ := by
  intro stages
  induction stages with
  | nil => intro h; simp [allocStages, allJobs]
  | cons stage rest ih =>
    intro h
    have e := ih (h ++ stage.Jobs)
    rw [allocStages]
    rcases hA : allocStages (h ++ stage.Jobs) rest with ⟨h1, st⟩
    rw [hA] at e
    simp only at e ⊢
    rw [e]
    simp [allJobs]

/-- The job pointers of the copy are the new cells, in order. -/
theorem allocStages_ptrs : ∀ (stages : List WorkflowStage) (h : JobHeap),
    (allocStages h stages).2.flatten =
      List.range' h.length (allJobs ⟨stages⟩).length := by
  intro stages
  induction stages with
  | nil => intro h; simp [allocStages, allJobs]
  | cons stage rest ih =>
    intro h
    have e := ih (h ++ stage.Jobs)
    rw [allocStages]
    rcases hA : allocStages (h ++ stage.Jobs) rest with ⟨h1, st⟩
    rw [hA] at e
    simp only at e ⊢
    rw [List.flatten_cons, e]
    simp only [allJobs, List.map_cons, List.flatten_cons, List.length_append]
    rw [← List.range'_append]
    simp [Nat.add_comm]

/-- Reading the new cells in order gives the jobs of the copy. -/
theorem map_readJob_range (h jobs : JobHeap) :
    (List.range' h.length jobs.length).map (readJob (h ++ jobs)) = jobs := by
  apply List.ext_getElem?
  intro i
  by_cases hi : i < jobs.length
  · simp [List.getElem?_map, List.getElem?_range' , hi, readJob,
      List.getElem?_append_right, List.getElem?_eq_getElem hi]
    rw [List.getElem_append_right (Nat.le_add_right _ _)]
    simp
  · simp [List.getElem?_map, hi, List.getElem?_eq_none (Nat.le_of_not_lt hi)]
    omega

theorem lintWorkflowH_some (copy : WorkflowV4 → Except String WorkflowV4)
    (cat : JobCatalogH) (h : JobHeap) (workflow : WorkflowPtr) (tmp : WorkflowV4)
    (hc : copy (viewWorkflow h workflow) = .ok tmp) :
    lintWorkflowH copy cat h (some workflow) =
      lintStageJobsH cat workflow (h ++ allJobs tmp)
        (List.range' h.length (allJobs tmp).length) := by
  have e1 := allocStages_heap tmp.Stages h
  have e2 := allocStages_ptrs tmp.Stages h
  rw [lintWorkflowH, hc]
  simp only
  rw [lintStagesH_eq, e1, e2]

/-- The call `lintWorkflow` keeps every cell that was allocated before it. -/
theorem lintWorkflowH_frame (copy : WorkflowV4 → Except String WorkflowV4)
    (cat : JobCatalogH) (h : JobHeap) (workflow : Option WorkflowPtr) :
    h.length ≤ (lintWorkflowH copy cat h workflow).2.length ∧
    ∀ b, b < h.length → (lintWorkflowH copy cat h workflow).2[b]? = h[b]? := by
  cases workflow with
  | none => exact ⟨Nat.le_refl _, fun _ _ => rfl⟩
  | some w =>
    cases hc : copy (viewWorkflow h w) with
    | error e =>
      rw [lintWorkflowH, hc]
      exact ⟨Nat.le_refl _, fun _ _ => rfl⟩
    | ok tmp =>
      rw [lintWorkflowH_some copy cat h w tmp hc]
      have hf := lintStageJobsH_frame cat w
        (List.range' h.length (allJobs tmp).length) (h ++ allJobs tmp)
      refine ⟨by rw [hf.1, List.length_append]; exact Nat.le_add_right _ _, fun b hb => ?_⟩
      rw [hf.2 b (by simp [List.mem_range']; omega), List.getElem?_append_left hb]

theorem take_eq_of_cells (h h1 : JobHeap)
    (hf : ∀ b, b < h.length → h1[b]? = h[b]?) : h1.take h.length = h := by
  apply List.ext_getElem?
  intro i
  rw [List.getElem?_take]
  by_cases hi : i < h.length
  · rw [if_pos hi, hf i hi]
  · rw [if_neg hi, List.getElem?_eq_none (Nat.le_of_not_lt hi)]

/-- The result of `lintWorkflow` on a heap is a function of the value of the
workflow. -/
theorem lintWorkflowH_result (copy : WorkflowV4 → Except String WorkflowV4)
    (cat : JobCatalogH) (h : JobHeap) (workflow : WorkflowPtr)
    (hw : wellFormed h workflow = true) :
    (lintWorkflowH copy cat h (some workflow)).1 =
      match copy (viewWorkflow h workflow) with
      | .error err => .error ("IToi tmp workflow error: " ++ err)
      | .ok tmp => lintStageJobsV cat (viewWorkflow h workflow) (allJobs tmp) := by
  have hb := (wellFormed_iff h workflow).mp hw
  cases hc : copy (viewWorkflow h workflow) with
  | error e => rw [lintWorkflowH, hc]
  | ok tmp =>
    rw [lintWorkflowH_some copy cat h workflow tmp hc,
      lintStageJobsH_result cat workflow h.length hb _ _
        (fun a ha => by
          have := List.mem_range'.mp ha
          simp only [List.length_append]
          omega)
        (List.nodup_range' _ _),
      map_readJob_range,
      viewWorkflow_congr (h ++ allJobs tmp) h workflow fun st hs p hp =>
        List.getElem?_append_left (hb st hs p hp)]

/-- On a catalog that does not rewrite, the loop on values is `lintStageJobs`. -/
theorem lintStageJobsV_toH (cat : JobCatalog) (workflow : WorkflowV4) (jobs : List Job) :
    lintStageJobsV cat.toH workflow jobs = lintStageJobs cat workflow jobs := by
  induction jobs with
  | nil => rfl
  | cons job rest ih =>
    rw [lintStageJobsV, lintStageJobs]
    cases hs : cat.JobSkiped job <;> cases hl : cat.LintJob job workflow <;>
      cases ht : cat.ToJobs job workflow 0 <;>
      simp [JobCatalog.toH, hs, hl, ht] <;> simpa [JobCatalog.toH] using ih

/-- On a catalog that does not rewrite, `lintWorkflow` on a heap returns what
`lintWorkflow` on the value of the workflow returns. -/
theorem lintWorkflowH_toH (copy : WorkflowV4 → Except String WorkflowV4)
    (cat : JobCatalog) (h : JobHeap) (workflow : WorkflowPtr)
    (hw : wellFormed h workflow = true) :
    (lintWorkflowH copy cat.toH h (some workflow)).1 =
      lintWorkflow copy cat (some (viewWorkflow h workflow)) := by
  rw [lintWorkflowH_result copy cat.toH h workflow hw]
  cases hc : copy (viewWorkflow h workflow) with
  | error e => rw [lintWorkflow_copy_error copy cat _ e hc]
  | ok tmp => rw [lintWorkflow_some copy cat _ tmp hc]; exact lintStageJobsV_toH cat _ _

theorem wellFormed_of_frame (h h1 : JobHeap) (workflow : WorkflowPtr)
    (hl : h.length ≤ h1.length) (hw : wellFormed h workflow = true) :
    wellFormed h1 workflow = true :=
  (wellFormed_iff h1 workflow).mpr fun st hs p hp =>
    Nat.lt_of_lt_of_le ((wellFormed_iff h workflow).mp hw st hs p hp) hl

theorem viewWorkflow_of_frame (h h1 : JobHeap) (workflow : WorkflowPtr)
    (hf : ∀ b, b < h.length → h1[b]? = h[b]?) (hw : wellFormed h workflow = true) :
    viewWorkflow h1 workflow = viewWorkflow h workflow :=
  viewWorkflow_congr h1 h workflow fun st hs p hp =>
    hf p ((wellFormed_iff h workflow).mp hw st hs p hp)

/-! ### The dispatch of `lintReleaseJob` -/

theorem lintReleaseJob_case_text {Raw : Type} (co : Coercion Raw) (cat : JobCatalog)
    (spec : Raw) :
    lintReleaseJob co cat JobText spec =
      match co.toTextSpec spec with
      | .error err => .error ("invalid text spec: " ++ err)
      | .ok _ => .ok () := by
  rw [lintReleaseJob, if_pos rfl]

theorem lintReleaseJob_case_workflow {Raw : Type} (co : Coercion Raw) (cat : JobCatalog)
    (spec : Raw) :
    lintReleaseJob co cat JobWorkflow spec =
      match co.toWorkflowSpec spec with
      | .error err => .error ("invalid workflow spec: " ++ err)
      | .ok w => lintWorkflow co.toWorkflow cat w.Workflow := by
  have h : JobWorkflow ≠ JobText := by decide
  rw [lintReleaseJob, if_neg h, if_pos rfl]

/-! ## The approval gate validator: claims -/

/-- C1: for an enabled DingTalk approval whose block is present, `lintApproval`
returns nil if and only if the node list has between 1 and 20 nodes, every node
has at least one approver, every node's type is `AND` or `OR`, and no approver
ID occurs twice anywhere in the whole node list. -/
theorem lintApproval_dingtalk_ok_iff (a : Approval) (ding : DingTalkApproval)
    (hEn : a.Enabled = true) (hT : a.Type_ = DingTalkApprovalType)
    (hB : a.DingTalkApproval = some ding) :
    lintApproval (some a) = .ok () ↔
      (1 ≤ ding.ApprovalNodes.length ∧ ding.ApprovalNodes.length ≤ 20) ∧
      (∀ node ∈ ding.ApprovalNodes, 1 ≤ node.ApproveUsers.length) ∧
      (∀ node ∈ ding.ApprovalNodes, node.Type_ = "AND" ∨ node.Type_ = "OR") ∧
      (approverIDs ding.ApprovalNodes).Nodup := by
  rw [lintApproval_dingtalk a ding hEn hT hB]
  by_cases h20 : ding.ApprovalNodes.length > 20
  · rw [if_pos h20]
    constructor
    · intro h
      cases h
    · rintro ⟨⟨_, h⟩, _⟩
      omega
  · rw [if_neg h20]
    by_cases h0 : ding.ApprovalNodes.length = 0
    · rw [if_pos h0]
      constructor
      · intro h
        cases h
      · rintro ⟨⟨h, _⟩, _⟩
        omega
    · rw [if_neg h0, lintDingTalkNodes_ok_iff]
      constructor
      · rintro ⟨h1, h2, _⟩
        exact ⟨⟨by omega, by omega⟩, fun n hn => (h1 n hn).1, fun n hn => (h1 n hn).2, h2⟩
      · rintro ⟨_, h1, h2, h3⟩
        exact ⟨fun n hn => ⟨h1 n hn, h2 n hn⟩, h3, fun _ _ hs => by cases hs⟩

/-- C1 at two valid nodes with different approvers: the hypotheses hold, the
four conditions hold, and the result is nil. -/
theorem lintApproval_dingtalk_ok_iff_witness :
    (dingTalkOf nodesOk).Enabled = true ∧
    (dingTalkOf nodesOk).Type_ = DingTalkApprovalType ∧
    (dingTalkOf nodesOk).DingTalkApproval = some ⟨nodesOk⟩ ∧
    lintApproval (some (dingTalkOf nodesOk)) = .ok () ∧
    (lintApproval (some (dingTalkOf nodesOk)) = .ok () ↔
      (1 ≤ nodesOk.length ∧ nodesOk.length ≤ 20) ∧
      (∀ node ∈ nodesOk, 1 ≤ node.ApproveUsers.length) ∧
      (∀ node ∈ nodesOk, node.Type_ = "AND" ∨ node.Type_ = "OR") ∧
      (approverIDs nodesOk).Nodup) :=
  ⟨rfl, rfl, rfl, by decide,
    lintApproval_dingtalk_ok_iff (dingTalkOf nodesOk) ⟨nodesOk⟩ rfl rfl rfl⟩

/-- C2: for an enabled DingTalk approval with 1 to 20 nodes, each node valid on
its own (approvers present, type `AND` or `OR`, no ID repeated inside the
node), if some approver ID occurs in two different nodes then `lintApproval`
fails with the duplicate-approver error that carries the name of the first
approver, in node order then position order, whose ID was met before. -/
theorem lintApproval_dingtalk_duplicate (a : Approval) (ding : DingTalkApproval)
    (hEn : a.Enabled = true) (hT : a.Type_ = DingTalkApprovalType)
    (hB : a.DingTalkApproval = some ding)
    (hlen : 1 ≤ ding.ApprovalNodes.length ∧ ding.ApprovalNodes.length ≤ 20)
    (hvalid : ∀ node ∈ ding.ApprovalNodes,
      nodeOk node ∧ (userIDs node.ApproveUsers).Nodup)
    (hdup : ∃ (i j : Nat) (n1 n2 : ApprovalNode) (id : String), i ≠ j ∧ ding.ApprovalNodes[i]? = some n1 ∧
      ding.ApprovalNodes[j]? = some n2 ∧ id ∈ userIDs n1.ApproveUsers ∧
      id ∈ userIDs n2.ApproveUsers) :
    ∃ pre u post, approvers ding.ApprovalNodes = pre ++ u :: post ∧
      (userIDs pre).Nodup ∧ u.ID ∈ userIDs pre ∧
      lintApproval (some a) = .error (errDuplicate u.Name) := by
  have hok : ∀ node ∈ ding.ApprovalNodes, nodeOk node := fun n hn => (hvalid n hn).1
  have hnotnd : ¬ (approverIDs ding.ApprovalNodes).Nodup := by
    intro hnd
    have hiff := (lintDingTalkNodes_ok_iff ding.ApprovalNodes 0 []).2
      ⟨hok, hnd, fun _ _ hs => by cases hs⟩
    obtain ⟨i, j, n1, n2, id, hij, h1, h2, hid1, hid2⟩ := hdup
    -- two different positions of the flattened list of ID lists hold `id`
    have hnd2 : ((ding.ApprovalNodes.map fun node => userIDs node.ApproveUsers)).flatten.Nodup :=
      hnd
    rw [List.nodup_flatten] at hnd2
    obtain ⟨_, hpw⟩ := hnd2
    rw [List.pairwise_iff_getElem] at hpw
    have hi : i < ding.ApprovalNodes.length := (List.getElem?_eq_some_iff.1 h1).1
    have hj : j < ding.ApprovalNodes.length := (List.getElem?_eq_some_iff.1 h2).1
    have e1 : ding.ApprovalNodes[i] = n1 := (List.getElem?_eq_some_iff.1 h1).2
    have e2 : ding.ApprovalNodes[j] = n2 := (List.getElem?_eq_some_iff.1 h2).2
    rcases Nat.lt_or_gt_of_ne hij with hlt | hgt
    · have := hpw i j (by simpa using hi) (by simpa using hj) hlt
      simp only [List.getElem_map, e1, e2] at this
      exact this hid1 hid2
    · have := hpw j i (by simpa using hj) (by simpa using hi) hgt
      simp only [List.getElem_map, e1, e2] at this
      exact this hid2 hid1
  have hflat := lintDingTalkNodes_flat ding.ApprovalNodes 0 [] hok
  have hres : lintApproval (some a) = lintDingTalkNodes 0 [] ding.ApprovalNodes := by
    rw [lintApproval_dingtalk a ding hEn hT hB, if_neg (by omega), if_neg (by omega)]
  cases hu : lintDingTalkUsers [] (approvers ding.ApprovalNodes) with
  | ok out =>
    exfalso
    apply hnotnd
    rw [approverIDs_eq]
    exact ((lintDingTalkUsers_ok_iff _ _ _).1 hu).2.1
  | error e =>
    obtain ⟨pre, u, post, hsplit, hnd, _, hmem, he⟩ := lintDingTalkUsers_error _ _ _ hu
    refine ⟨pre, u, post, hsplit, hnd, ?_, ?_⟩
    · rcases hmem with hmem | hmem
      · cases hmem
      · exact hmem
    · rw [hres, hflat, hu, he]

/-- C2 at node 0 with approver `u1` and node 1 with approvers `u1`, `u2`: the
error names `carol`, the first approver whose ID was met before. -/
theorem lintApproval_dingtalk_duplicate_witness :
    (1 ≤ nodesDup.length ∧ nodesDup.length ≤ 20) ∧
    (∀ node ∈ nodesDup, nodeOk node ∧ (userIDs node.ApproveUsers).Nodup) ∧
    lintApproval (some (dingTalkOf nodesDup)) =
      .error "Duplicate approvers carol should not appear in a complete approval process" ∧
    ∃ pre u post, approvers nodesDup = pre ++ u :: post ∧
      (userIDs pre).Nodup ∧ u.ID ∈ userIDs pre ∧
      lintApproval (some (dingTalkOf nodesDup)) = .error (errDuplicate u.Name) :=
  ⟨by decide, by decide, by decide,
    lintApproval_dingtalk_duplicate (dingTalkOf nodesDup) ⟨nodesDup⟩ rfl rfl rfl
      (by decide) (by decide)
      ⟨0, 1, ⟨[userAlice], "AND"⟩, ⟨[userCarol, userBob], "OR"⟩, "u1",
        by decide, rfl, rfl, by decide, by decide⟩⟩

/-- C3: for an enabled Lark approval whose block is present, `lintApproval`
returns nil if and only if the node list has at least one node and every node
has at least one approver and a type equal to `AND` or `OR`. -/
theorem lintApproval_lark_ok_iff (a : Approval) (lark : LarkApproval)
    (hEn : a.Enabled = true) (hT : a.Type_ = LarkApprovalType)
    (hB : a.LarkApproval = some lark) :
    lintApproval (some a) = .ok () ↔
      1 ≤ lark.ApprovalNodes.length ∧
      ∀ node ∈ lark.ApprovalNodes,
        1 ≤ node.ApproveUsers.length ∧ (node.Type_ = "AND" ∨ node.Type_ = "OR") := by
  rw [lintApproval_lark a lark hEn hT hB]
  by_cases h0 : lark.ApprovalNodes.length = 0
  · rw [if_pos h0]
    constructor
    · intro h
      cases h
    · rintro ⟨h, _⟩
      omega
  · rw [if_neg h0, lintLarkNodes_ok_iff]
    constructor
    · intro h
      exact ⟨by omega, h⟩
    · rintro ⟨_, h⟩
      exact h

/-- C3 at two valid nodes, and at twenty-one valid nodes that all carry the
same approver: both pass. -/
theorem lintApproval_lark_ok_iff_witness :
    (larkOf nodesOk).Enabled = true ∧
    (larkOf nodesOk).Type_ = LarkApprovalType ∧
    (larkOf nodesOk).LarkApproval = some ⟨nodesOk⟩ ∧
    lintApproval (some (larkOf nodesOk)) = .ok () ∧
    lintApproval (some (larkOf (List.replicate 21 ⟨[userAlice], "OR"⟩))) = .ok () ∧
    (lintApproval (some (larkOf nodesOk)) = .ok () ↔
      1 ≤ nodesOk.length ∧
      ∀ node ∈ nodesOk,
        1 ≤ node.ApproveUsers.length ∧ (node.Type_ = "AND" ∨ node.Type_ = "OR")) :=
  ⟨rfl, rfl, rfl, by decide, by decide,
    lintApproval_lark_ok_iff (larkOf nodesOk) ⟨nodesOk⟩ rfl rfl rfl⟩

/-- C4: for an enabled native approval whose block is present, `lintApproval`
returns nil if and only if the number of listed approvers is at least
`NeededApprovers`; otherwise it returns the quorum error. -/
theorem lintApproval_native_iff (a : Approval) (native : NativeApproval)
    (hEn : a.Enabled = true) (hT : a.Type_ = NativeApprovalType)
    (hB : a.NativeApproval = some native) :
    (lintApproval (some a) = .ok () ↔
      native.NeededApprovers ≤ (native.ApproveUsers.length : Int)) ∧
    (¬ native.NeededApprovers ≤ (native.ApproveUsers.length : Int) →
      lintApproval (some a) =
        .error "all approve users should not less than needed approvers") := by
  rw [lintApproval_native a native hEn hT hB]
  by_cases h : (native.ApproveUsers.length : Int) < native.NeededApprovers
  · rw [if_pos h]
    refine ⟨⟨fun h1 => (by cases h1), fun h1 => (by omega)⟩, fun _ => rfl⟩
  · rw [if_neg h]
    refine ⟨⟨fun _ => (by omega), fun _ => rfl⟩, fun h1 => (by omega)⟩

/-- C4 at three listed approvers: a quorum of 4 fails, a quorum of 3 passes. -/
theorem lintApproval_native_iff_witness :
    (nativeOfThree 4).Enabled = true ∧
    (nativeOfThree 4).Type_ = NativeApprovalType ∧
    lintApproval (some (nativeOfThree 4)) =
      .error "all approve users should not less than needed approvers" ∧
    lintApproval (some (nativeOfThree 3)) = .ok () :=
  ⟨rfl, rfl,
    (lintApproval_native_iff (nativeOfThree 4)
      ⟨[userAlice, userBob, userDave], 4⟩ rfl rfl rfl).2 (by decide),
    (lintApproval_native_iff (nativeOfThree 3)
      ⟨[userAlice, userBob, userDave], 3⟩ rfl rfl rfl).1.2 (by decide)⟩

/-- C5: when the approval is nil or its `Enabled` flag is false, `lintApproval`
returns nil, whatever the type and the provider blocks are. -/
theorem lintApproval_inert (approval : Option Approval)
    (h : approval = none ∨ ∃ a, approval = some a ∧ a.Enabled = false) :
    lintApproval approval = .ok () := by
  rcases h with h | ⟨a, h, hEn⟩
  · rw [h, lintApproval]
  · rw [h, lintApproval]
    simp [hEn]

/-- C5 at a disabled approval with an unknown type, a missing native block and
an empty DingTalk node list, and at the nil approval. -/
theorem lintApproval_inert_witness :
    lintApproval (some ⟨false, "bogus", none, some ⟨nodesEmptyThenXor⟩, some ⟨[]⟩⟩) = .ok () ∧
    lintApproval none = .ok () :=
  ⟨lintApproval_inert _ (Or.inr ⟨_, rfl, rfl⟩), lintApproval_inert none (Or.inl rfl)⟩

/-- C6: for an enabled DingTalk approval whose block is present, more than 20
nodes give the error `num of approval-node should not exceed 20` whatever the
nodes contain, and an empty node list gives `num of approval-node is 0`. -/
theorem lintApproval_dingtalk_node_count (a : Approval) (ding : DingTalkApproval)
    (hEn : a.Enabled = true) (hT : a.Type_ = DingTalkApprovalType)
    (hB : a.DingTalkApproval = some ding) :
    (20 < ding.ApprovalNodes.length →
      lintApproval (some a) = .error "num of approval-node should not exceed 20") ∧
    (ding.ApprovalNodes.length = 0 →
      lintApproval (some a) = .error "num of approval-node is 0") := by
  rw [lintApproval_dingtalk a ding hEn hT hB]
  constructor
  · intro h
    rw [if_pos h]
    rfl
  · intro h
    rw [if_neg (by omega), if_pos h]
    rfl

/-- C6 at twenty-one nodes without approvers and at the empty node list. -/
theorem lintApproval_dingtalk_node_count_witness :
    (dingTalkOf (List.replicate 21 ⟨[], "XOR"⟩)).Enabled = true ∧
    lintApproval (some (dingTalkOf (List.replicate 21 ⟨[], "XOR"⟩))) =
      .error "num of approval-node should not exceed 20" ∧
    lintApproval (some (dingTalkOf [])) = .error "num of approval-node is 0" :=
  ⟨rfl,
    (lintApproval_dingtalk_node_count (dingTalkOf (List.replicate 21 ⟨[], "XOR"⟩))
      ⟨List.replicate 21 ⟨[], "XOR"⟩⟩ rfl rfl rfl).1 (by decide),
    (lintApproval_dingtalk_node_count (dingTalkOf []) ⟨[]⟩ rfl rfl rfl).2 rfl⟩

/-- C7, as stated, fails: in an enabled Lark approval whose node 0 has no
approver and whose node 1 has the type `XOR`, the error is the one of node 0;
it is not the type error of node 1 and does not hold the index 1 at all. -/
theorem lintApproval_bad_type_counterexample :
    (larkOf nodesEmptyThenXor).Enabled = true ∧
    (larkOf nodesEmptyThenXor).Type_ = LarkApprovalType ∧
    (larkOf nodesEmptyThenXor).LarkApproval = some ⟨nodesEmptyThenXor⟩ ∧
    nodesEmptyThenXor[1]? = some ⟨[userAlice], "XOR"⟩ ∧
    lintApproval (some (larkOf nodesEmptyThenXor)) =
      .error "num of approval-node 0 approver is 0" ∧
    lintApproval (some (larkOf nodesEmptyThenXor)) ≠
      .error "approval-node 1 type should be AND or OR" ∧
    '1' ∉ "num of approval-node 0 approver is 0".toList := by
  refine ⟨rfl, rfl, rfl, rfl, ?_, ?_, ?_⟩ <;> decide

/-- C7, amended: an enabled Lark or DingTalk approval whose node list holds a
node with a type outside `AND`, `OR` is rejected; the error is
`approval-node i type should be AND or OR` for that node's index `i` when no
check before it fails, that is when every earlier node has approvers and a
valid type, node `i` has approvers and, for DingTalk, the list has at most 20
nodes and no approver ID repeats among the nodes up to `i`. -/
theorem lintApproval_bad_type (a : Approval) (nodes pre post : List ApprovalNode)
    (node : ApprovalNode) (hEn : a.Enabled = true)
    (hP : (a.Type_ = LarkApprovalType ∧ a.LarkApproval = some ⟨nodes⟩) ∨
      (a.Type_ = DingTalkApprovalType ∧ a.DingTalkApproval = some ⟨nodes⟩))
    (hsplit : nodes = pre ++ node :: post)
    (hbad : node.Type_ ≠ "AND" ∧ node.Type_ ≠ "OR") :
    (∃ e, lintApproval (some a) = .error e) ∧
    ((∀ m ∈ pre, nodeOk m) → 1 ≤ node.ApproveUsers.length →
      (a.Type_ = DingTalkApprovalType →
        nodes.length ≤ 20 ∧ (approverIDs (pre ++ [node])).Nodup) →
      lintApproval (some a) = .error (errNodeType pre.length)) := by
  have hnot : ¬ ∀ m ∈ nodes, nodeOk m := by
    intro hall
    exact not_nodeOk_of_bad_type hbad (hall node (by rw [hsplit]; simp))
  have hne : nodes.length ≠ 0 := by
    rw [hsplit]
    simp
  rcases hP with ⟨hT, hB⟩ | ⟨hT, hB⟩
  · refine ⟨lintLark_error_of_not_ok a ⟨nodes⟩ hEn hT hB hnot, ?_⟩
    intro hpre hlen _
    rw [lintApproval_lark a ⟨nodes⟩ hEn hT hB, if_neg hne]
    show lintLarkNodes 0 nodes = _
    rw [hsplit, lintLarkNodes_first pre node post 0 hpre (not_nodeOk_of_bad_type hbad),
      if_neg (by omega), Nat.zero_add]
  · refine ⟨lintDingTalk_error_of_not_ok a ⟨nodes⟩ hEn hT hB hnot, ?_⟩
    intro hpre hlen hding
    obtain ⟨h20, hnd⟩ := hding hT
    rw [approverIDs_append, List.nodup_append] at hnd
    obtain ⟨hnd1, hnd2, hnd3⟩ := hnd
    have hids : approverIDs [node] = userIDs node.ApproveUsers := by
      simp [approverIDs]
    rw [hids] at hnd2 hnd3
    rw [lintApproval_dingtalk a ⟨nodes⟩ hEn hT hB, if_neg (by simpa using h20), if_neg hne]
    show lintDingTalkNodes 0 [] nodes = _
    rw [hsplit, lintDingTalkNodes_prefix pre (node :: post) 0 [] hpre hnd1
      (fun _ _ hs => by cases hs),
      lintDingTalkNodes_cons_bad_type node post _ _ (by omega) hnd2 ?_
        (isAndOr_false_of_bad_type hbad), Nat.zero_add]
    intro id hid hs
    rw [List.append_nil] at hs
    exact hnd3 (List.mem_reverse.1 hs) hid

/-- C7 amended, at a DingTalk list whose node 1 has the type `XOR` after one
valid node: the error is the type error of index 1. -/
theorem lintApproval_bad_type_witness :
    (dingTalkOf nodesXorSecond).Enabled = true ∧
    nodesXorSecond = [⟨[userAlice], "AND"⟩] ++ ⟨[userBob], "XOR"⟩ :: [⟨[], "OR"⟩] ∧
    lintApproval (some (dingTalkOf nodesXorSecond)) =
      .error "approval-node 1 type should be AND or OR" :=
  ⟨rfl, rfl,
    (lintApproval_bad_type (dingTalkOf nodesXorSecond) nodesXorSecond
      [⟨[userAlice], "AND"⟩] [⟨[], "OR"⟩] ⟨[userBob], "XOR"⟩ rfl
      (Or.inr ⟨rfl, rfl⟩) rfl (by decide)).2 (by decide) (by decide)
      (fun _ => by decide)⟩

/-- C8: when `lintApproval` rejects an enabled Lark approval with at least one
node, the error names the smallest index `i` whose node has no approver or a
type outside `AND`, `OR`: it is `num of approval-node i approver is 0` when
node `i` has no approver and `approval-node i type should be AND or OR`
otherwise, and the nodes after `i` have no influence on the result. -/
theorem lintApproval_lark_first_error (a : Approval) (lark : LarkApproval)
    (hEn : a.Enabled = true) (hT : a.Type_ = LarkApprovalType)
    (hB : a.LarkApproval = some lark) (hne : 1 ≤ lark.ApprovalNodes.length)
    (e : String) (hfail : lintApproval (some a) = .error e) :
    ∃ pre node post, lark.ApprovalNodes = pre ++ node :: post ∧
      (∀ m ∈ pre, 1 ≤ m.ApproveUsers.length ∧ (m.Type_ = "AND" ∨ m.Type_ = "OR")) ∧
      ¬ (1 ≤ node.ApproveUsers.length ∧ (node.Type_ = "AND" ∨ node.Type_ = "OR")) ∧
      e = (if node.ApproveUsers.length = 0 then
            "num of approval-node " ++ toString pre.length ++ " approver is 0"
          else "approval-node " ++ toString pre.length ++ " type should be AND or OR") ∧
      ∀ (b : Approval) (post2 : List ApprovalNode), b.Enabled = true →
        b.Type_ = LarkApprovalType → b.LarkApproval = some ⟨pre ++ node :: post2⟩ →
        lintApproval (some b) = .error e := by
  have h0 : lark.ApprovalNodes.length ≠ 0 := by omega
  rw [lintApproval_lark a lark hEn hT hB, if_neg h0] at hfail
  have hnot : ¬ ∀ m ∈ lark.ApprovalNodes, nodeOk m := by
    intro hall
    rw [(lintLarkNodes_ok_iff lark.ApprovalNodes 0).2 hall] at hfail
    cases hfail
  obtain ⟨pre, node, post, hsplit, hpre, hnode⟩ := split_first_not nodeOk _ hnot
  have hfirst := lintLarkNodes_first pre node post 0 hpre hnode
  rw [← hsplit, hfail, Nat.zero_add] at hfirst
  have he : e = (if node.ApproveUsers.length = 0 then errNoApprover pre.length
      else errNodeType pre.length) := by
    by_cases hl : node.ApproveUsers.length = 0
    · rw [if_pos hl] at hfirst ⊢
      injection hfirst
    · rw [if_neg hl] at hfirst ⊢
      injection hfirst
  refine ⟨pre, node, post, hsplit, hpre, hnode, he, ?_⟩
  intro b post2 hbEn hbT hbB
  rw [lintApproval_lark b ⟨pre ++ node :: post2⟩ hbEn hbT hbB, if_neg (by simp)]
  show lintLarkNodes 0 (pre ++ node :: post2) = _
  rw [lintLarkNodes_first pre node post2 0 hpre hnode, Nat.zero_add, he]
  by_cases hl : node.ApproveUsers.length = 0
  · rw [if_pos hl, if_pos hl]
  · rw [if_neg hl, if_neg hl]

/-- C8 at a Lark list whose node 1 has the type `XOR` and whose node 2 has no
approver: the error is the type error of index 1. -/
theorem lintApproval_lark_first_error_witness :
    (larkOf nodesXorSecond).Enabled = true ∧
    1 ≤ nodesXorSecond.length ∧
    lintApproval (some (larkOf nodesXorSecond)) =
      .error "approval-node 1 type should be AND or OR" ∧
    ∃ pre node post, nodesXorSecond = pre ++ node :: post ∧
      (∀ m ∈ pre, 1 ≤ m.ApproveUsers.length ∧ (m.Type_ = "AND" ∨ m.Type_ = "OR")) ∧
      ¬ (1 ≤ node.ApproveUsers.length ∧ (node.Type_ = "AND" ∨ node.Type_ = "OR")) ∧
      "approval-node 1 type should be AND or OR" =
        (if node.ApproveUsers.length = 0 then
            "num of approval-node " ++ toString pre.length ++ " approver is 0"
          else "approval-node " ++ toString pre.length ++ " type should be AND or OR") ∧
      ∀ (b : Approval) (post2 : List ApprovalNode), b.Enabled = true →
        b.Type_ = LarkApprovalType → b.LarkApproval = some ⟨pre ++ node :: post2⟩ →
        lintApproval (some b) = .error "approval-node 1 type should be AND or OR" :=
  ⟨rfl, by decide, by decide,
    lintApproval_lark_first_error (larkOf nodesXorSecond) ⟨nodesXorSecond⟩ rfl rfl rfl
      (by decide) "approval-node 1 type should be AND or OR" (by decide)⟩

/-- C9: for an enabled approval whose type is none of Native, Lark and
DingTalk, `lintApproval` fails with `invalid approval type` followed by the
type, whichever provider blocks are present. -/
theorem lintApproval_invalid_type (a : Approval) (hEn : a.Enabled = true)
    (hN : a.Type_ ≠ NativeApprovalType) (hL : a.Type_ ≠ LarkApprovalType)
    (hD : a.Type_ ≠ DingTalkApprovalType) :
    lintApproval (some a) = .error ("invalid approval type " ++ a.Type_) := by
  simp [lintApproval, hEn, hN, hL, hD, errInvalidType]

/-- C9 at the type `workwx` with three valid provider blocks present. -/
theorem lintApproval_invalid_type_witness :
    lintApproval (some (enabledApproval "workwx"
      (some ⟨[userAlice], 1⟩) (some ⟨nodesOk⟩) (some ⟨nodesOk⟩))) =
      .error "invalid approval type workwx" :=
  lintApproval_invalid_type
    (enabledApproval "workwx" (some ⟨[userAlice], 1⟩) (some ⟨nodesOk⟩) (some ⟨nodesOk⟩))
    rfl (by decide) (by decide) (by decide)

/-- C10: for an enabled approval whose type is Native, Lark or DingTalk and
whose block for that provider is nil, `lintApproval` fails with
`approval not found`, also when the blocks of the other providers are present
and valid. -/
theorem lintApproval_block_missing (a : Approval) (hEn : a.Enabled = true)
    (h : (a.Type_ = NativeApprovalType ∧ a.NativeApproval = none) ∨
      (a.Type_ = LarkApprovalType ∧ a.LarkApproval = none) ∨
      (a.Type_ = DingTalkApprovalType ∧ a.DingTalkApproval = none)) :
    lintApproval (some a) = .error "approval not found" := by
  have h1 : LarkApprovalType ≠ NativeApprovalType := by decide
  have h2 : DingTalkApprovalType ≠ NativeApprovalType := by decide
  have h3 : DingTalkApprovalType ≠ LarkApprovalType := by decide
  rcases h with ⟨hT, hB⟩ | ⟨hT, hB⟩ | ⟨hT, hB⟩
  · simp [lintApproval, hEn, hT, hB, errApprovalNotFound]
  · simp [lintApproval, hEn, hT, hB, h1, errApprovalNotFound]
  · simp [lintApproval, hEn, hT, hB, h2, h3, errApprovalNotFound]

/-- C10 at a Lark approval without a Lark block whose native and DingTalk
blocks are present and valid. -/
theorem lintApproval_block_missing_witness :
    lintApproval (some (enabledApproval LarkApprovalType
      (some ⟨[userAlice], 1⟩) none (some ⟨nodesOk⟩))) =
      .error "approval not found" :=
  lintApproval_block_missing
    (enabledApproval LarkApprovalType (some ⟨[userAlice], 1⟩) none (some ⟨nodesOk⟩))
    rfl (Or.inr (Or.inl ⟨rfl, rfl⟩))

/-! ## Workflow lint and release-job dispatch: claims -/

/-- C11: for a non-nil workflow whose deep copy succeeds, `lintWorkflow`
returns nil if and only if, for every job in every stage whose skip predicate
is false, `LintJob` returns no error and `ToJobs` returns no error. The stages
are those of the copy, which the loops run over. -/
theorem lintWorkflow_ok_iff (copy : WorkflowV4 → Except String WorkflowV4)
    (cat : JobCatalog) (workflow tmp : WorkflowV4) (hcopy : copy workflow = .ok tmp) :
    lintWorkflow copy cat (some workflow) = .ok () ↔
      ∀ stage ∈ tmp.Stages, ∀ job ∈ stage.Jobs, cat.JobSkiped job = false →
        cat.LintJob job workflow = .ok () ∧
        ∃ tasks, cat.ToJobs job workflow 0 = .ok tasks := by
  rw [lintWorkflow_some copy cat workflow tmp hcopy, lintStageJobs_ok_iff]
  constructor
  · intro h stage hstage job hjob
    exact h job ((mem_allJobs tmp job).2 ⟨stage, hstage, hjob⟩)
  · intro h job hjob
    obtain ⟨stage, hstage, hj⟩ := (mem_allJobs tmp job).1 hjob
    exact h stage hstage job hj

/-- C11 at a workflow of two stages whose jobs pass or are skipped, and at one
whose job `deploy` fails lint. -/
theorem lintWorkflow_ok_iff_witness :
    copyExact workflowPasses = .ok workflowPasses ∧
    lintWorkflow copyExact sampleCatalog (some workflowPasses) = .ok () ∧
    lintWorkflow copyExact sampleCatalog (some workflowDeployFails) ≠ .ok () ∧
    (lintWorkflow copyExact sampleCatalog (some workflowPasses) = .ok () ↔
      ∀ stage ∈ workflowPasses.Stages, ∀ job ∈ stage.Jobs,
        sampleCatalog.JobSkiped job = false →
        sampleCatalog.LintJob job workflowPasses = .ok () ∧
        ∃ tasks, sampleCatalog.ToJobs job workflowPasses 0 = .ok tasks) :=
  ⟨rfl, by decide, by decide,
    lintWorkflow_ok_iff copyExact sampleCatalog workflowPasses workflowPasses rfl⟩

/-- C12: two job-kind catalogs that agree on the skip predicate and, for the
jobs that are not skipped, on `LintJob` and `ToJobs` give the same result of
`lintWorkflow` on every workflow, however they behave on the skipped jobs. -/
theorem lintWorkflow_skip_independent (copy : WorkflowV4 → Except String WorkflowV4)
    (c1 c2 : JobCatalog) (workflow : Option WorkflowV4)
    (hskip : ∀ job, c1.JobSkiped job = c2.JobSkiped job)
    (hlint : ∀ job wf, c1.JobSkiped job = false → c1.LintJob job wf = c2.LintJob job wf)
    (hexp : ∀ job wf n, c1.JobSkiped job = false →
      c1.ToJobs job wf n = c2.ToJobs job wf n) :
    lintWorkflow copy c1 workflow = lintWorkflow copy c2 workflow := by
  cases workflow with
  | none => rfl
  | some w =>
    cases hc : copy w with
    | error e =>
      rw [lintWorkflow_copy_error copy c1 w e hc, lintWorkflow_copy_error copy c2 w e hc]
    | ok tmp =>
      rw [lintWorkflow_some copy c1 w tmp hc, lintWorkflow_some copy c2 w tmp hc]
      exact lintStageJobs_congr c1 c2 w _ (fun j _ => hskip j)
        (fun j _ hs => hlint j w hs) (fun j _ hs => hexp j w 0 hs)

/-- C12 at two catalogs that differ on the skipped job `notify` only: lint
fails on it in one and passes in the other, and the results are the same. -/
theorem lintWorkflow_skip_independent_witness :
    sampleCatalog.JobSkiped jobNotify = true ∧
    sampleCatalog.LintJob jobNotify workflowPasses ≠
      sampleCatalogStrict.LintJob jobNotify workflowPasses ∧
    lintWorkflow copyExact sampleCatalogStrict (some workflowPasses) = .ok () ∧
    lintWorkflow copyExact sampleCatalog (some workflowPasses) =
      lintWorkflow copyExact sampleCatalogStrict (some workflowPasses) :=
  ⟨by decide, by decide, by decide,
    lintWorkflow_skip_independent copyExact sampleCatalog sampleCatalogStrict
      (some workflowPasses) (fun _ => rfl)
      (fun job _ hs => by
        have hn : job.Name ≠ "notify" := by simpa [sampleCatalog] using hs
        simp [sampleCatalog, sampleCatalogStrict, hn])
      (fun job _ _ hs => by
        have hn : job.Name ≠ "notify" := by simpa [sampleCatalog] using hs
        simp [sampleCatalog, sampleCatalogStrict, hn])⟩

/-- C13: for a workflow `W` whose job pointers are allocated, after
`lintWorkflow(W)` every cell that was allocated before the call holds what it
held, so `W` has the value it had; a second call returns what the first
returned, and after it the cells and `W` are unchanged again. The jobs that
`LintJob` and `ToJobs` are given, and may rewrite, are cells of the copy,
allocated by the call. -/
theorem lintWorkflow_caller_unchanged (copy : WorkflowV4 → Except String WorkflowV4)
    (cat : JobCatalogH) (h : JobHeap) (workflow : WorkflowPtr)
    (hw : wellFormed h workflow = true) :
    (lintWorkflowH copy cat h (some workflow)).2.take h.length = h ∧
    viewWorkflow (lintWorkflowH copy cat h (some workflow)).2 workflow =
      viewWorkflow h workflow ∧
    (lintWorkflowH copy cat (lintWorkflowH copy cat h (some workflow)).2 (some workflow)).1 =
      (lintWorkflowH copy cat h (some workflow)).1 ∧
    (lintWorkflowH copy cat (lintWorkflowH copy cat h (some workflow)).2
      (some workflow)).2.take h.length = h ∧
    viewWorkflow (lintWorkflowH copy cat (lintWorkflowH copy cat h (some workflow)).2
      (some workflow)).2 workflow = viewWorkflow h workflow := by
  have f1 := lintWorkflowH_frame copy cat h (some workflow)
  have f2 := lintWorkflowH_frame copy cat (lintWorkflowH copy cat h (some workflow)).2
    (some workflow)
  have hw1 := wellFormed_of_frame h _ workflow f1.1 hw
  have v1 := viewWorkflow_of_frame h _ workflow f1.2 hw
  have f12 : ∀ b, b < h.length →
      (lintWorkflowH copy cat (lintWorkflowH copy cat h (some workflow)).2
        (some workflow)).2[b]? = h[b]? := fun b hb =>
    (f2.2 b (Nat.lt_of_lt_of_le hb f1.1)).trans (f1.2 b hb)
  refine ⟨take_eq_of_cells h _ f1.2, v1, ?_,
    take_eq_of_cells h _ f12,
    viewWorkflow_of_frame h _ workflow f12 hw⟩
  rw [lintWorkflowH_result copy cat _ workflow hw1,
    lintWorkflowH_result copy cat h workflow hw, v1]

/-- C13 at a catalog whose `ToJobs` rewrites the job it is given and whose
`LintJob` rejects `test` when the workflow holds a rewritten job: the call
returns nil and rewrites the two cells of the copy, the four cells of the
caller are as they were, and the second call returns nil again. The loops run
on the pointers of the workflow itself would rewrite `build` in the workflow of
the caller and fail on `test`. -/
theorem lintWorkflow_caller_unchanged_witness :
    wellFormed sampleHeap workflowPtrBuildTest = true ∧
    lintWorkflowH copyExact catalogRewritingJob sampleHeap (some workflowPtrBuildTest) =
      (.ok (), [jobBuild, jobNotify, jobDeploy, jobTest,
        ⟨"build", "zadig-build", "expanded"⟩, ⟨"test", "zadig-test", "expanded"⟩]) ∧
    lintStagesH catalogRewritingJob workflowPtrBuildTest sampleHeap
        workflowPtrBuildTest.Stages =
      (.error "lint job-test err: upstream job rewritten",
        [⟨"build", "zadig-build", "expanded"⟩, jobNotify, jobDeploy, jobTest]) ∧
    ((lintWorkflowH copyExact catalogRewritingJob sampleHeap
      (some workflowPtrBuildTest)).2.take sampleHeap.length = sampleHeap ∧
    viewWorkflow (lintWorkflowH copyExact catalogRewritingJob sampleHeap
      (some workflowPtrBuildTest)).2 workflowPtrBuildTest =
      viewWorkflow sampleHeap workflowPtrBuildTest ∧
    (lintWorkflowH copyExact catalogRewritingJob
      (lintWorkflowH copyExact catalogRewritingJob sampleHeap
        (some workflowPtrBuildTest)).2 (some workflowPtrBuildTest)).1 =
      (lintWorkflowH copyExact catalogRewritingJob sampleHeap
        (some workflowPtrBuildTest)).1 ∧
    (lintWorkflowH copyExact catalogRewritingJob
      (lintWorkflowH copyExact catalogRewritingJob sampleHeap
        (some workflowPtrBuildTest)).2 (some workflowPtrBuildTest)).2.take
        sampleHeap.length = sampleHeap ∧
    viewWorkflow (lintWorkflowH copyExact catalogRewritingJob
      (lintWorkflowH copyExact catalogRewritingJob sampleHeap
        (some workflowPtrBuildTest)).2 (some workflowPtrBuildTest)).2
        workflowPtrBuildTest = viewWorkflow sampleHeap workflowPtrBuildTest) :=
  ⟨by decide, by decide, by decide,
    lintWorkflow_caller_unchanged copyExact catalogRewritingJob sampleHeap
      workflowPtrBuildTest (by decide)⟩

/-- C14, as stated, fails: when the copy of the workflow fails, no job is
visited. Here `deploy` is the first job that is not skipped and fails, it
fails lint, and the result is the copy error, not the lint error. -/
theorem lintWorkflow_lint_error_counterexample :
    allJobs workflowDeployFails = [jobBuild, jobNotify] ++ jobDeploy :: [jobTest] ∧
    (∀ j ∈ [jobBuild, jobNotify], sampleCatalog.JobSkiped j = false →
      sampleCatalog.LintJob j workflowDeployFails = .ok () ∧
      sampleCatalog.ToJobs j workflowDeployFails 0 = .ok [⟨j.Name⟩]) ∧
    sampleCatalog.JobSkiped jobDeploy = false ∧
    sampleCatalog.LintJob jobDeploy workflowDeployFails = .error "upstream job not found" ∧
    lintWorkflow copyFails sampleCatalog (some workflowDeployFails) =
      .error "IToi tmp workflow error: unsupported value" ∧
    lintWorkflow copyFails sampleCatalog (some workflowDeployFails) ≠
      .error "lint job-deploy err: upstream job not found" := by
  refine ⟨?_, ?_, ?_, ?_, ?_, ?_⟩ <;> decide

/-- C14, amended: for a non-nil workflow whose deep copy succeeds,
`lintWorkflow` visits the jobs in stage order, then job order, and stops at the
first job that is not skipped and fails: when that job fails `LintJob` with
cause `c`, the result is `lint job-n err: c` for its name `n`; `ToJobs` is not
attempted on it and no later job is linted or expanded, so the result is the
same whatever `ToJobs` does on it and whatever the later jobs are. -/
theorem lintWorkflow_lint_error (copy : WorkflowV4 → Except String WorkflowV4)
    (cat : JobCatalog) (workflow tmp : WorkflowV4) (pre post : List Job) (job : Job)
    (c : String) (hcopy : copy workflow = .ok tmp)
    (hsplit : allJobs tmp = pre ++ job :: post)
    (hpre : ∀ j ∈ pre, cat.JobSkiped j = false →
      cat.LintJob j workflow = .ok () ∧ ∃ tasks, cat.ToJobs j workflow 0 = .ok tasks)
    (hs : cat.JobSkiped job = false) (hl : cat.LintJob job workflow = .error c) :
    lintWorkflow copy cat (some workflow) =
      .error ("lint job-" ++ job.Name ++ " err: " ++ c) ∧
    ∀ (copy2 : WorkflowV4 → Except String WorkflowV4) (cat2 : JobCatalog)
      (tmp2 : WorkflowV4) (post2 : List Job),
      copy2 workflow = .ok tmp2 → allJobs tmp2 = pre ++ job :: post2 →
      (∀ j ∈ pre, cat2.JobSkiped j = cat.JobSkiped j ∧
        cat2.LintJob j workflow = cat.LintJob j workflow ∧
        cat2.ToJobs j workflow 0 = cat.ToJobs j workflow 0) →
      cat2.JobSkiped job = false → cat2.LintJob job workflow = .error c →
      lintWorkflow copy2 cat2 (some workflow) =
        .error ("lint job-" ++ job.Name ++ " err: " ++ c) := by
  constructor
  · rw [lintWorkflow_some copy cat workflow tmp hcopy, hsplit,
      lintStageJobs_prefix cat workflow pre _ hpre,
      lintStageJobs_cons_lint_error cat workflow job post c hs hl]
  · intro copy2 cat2 tmp2 post2 hcopy2 hsplit2 hagree hs2 hl2
    have hpre2 : ∀ j ∈ pre, jobPasses cat2 workflow j := by
      intro j hj hsk
      obtain ⟨h1, h2, h3⟩ := hagree j hj
      rw [h1] at hsk
      rw [h2, h3]
      exact hpre j hj hsk
    rw [lintWorkflow_some copy2 cat2 workflow tmp2 hcopy2, hsplit2,
      lintStageJobs_prefix cat2 workflow pre _ hpre2,
      lintStageJobs_cons_lint_error cat2 workflow job post2 c hs2 hl2]

/-- C14 amended, at a workflow whose job `deploy` fails lint after `build`
and the skipped `notify`, and before `test`, whose expansion would fail. -/
theorem lintWorkflow_lint_error_witness :
    copyExact workflowDeployFails = .ok workflowDeployFails ∧
    allJobs workflowDeployFails = [jobBuild, jobNotify] ++ jobDeploy :: [jobTest] ∧
    lintWorkflow copyExact sampleCatalog (some workflowDeployFails) =
      .error "lint job-deploy err: upstream job not found" :=
  ⟨rfl, rfl,
    (lintWorkflow_lint_error copyExact sampleCatalog workflowDeployFails
      workflowDeployFails [jobBuild, jobNotify] [jobTest] jobDeploy
      "upstream job not found" rfl rfl
      (by
        intro j hj hs
        simp only [List.mem_cons, List.mem_singleton, List.not_mem_nil, or_false] at hj
        rcases hj with rfl | rfl
        · exact ⟨by decide, [⟨"build"⟩], by decide⟩
        · exact absurd hs (by decide))
      (by decide) (by decide)).1⟩

/-- C15, as stated, fails: when the copy of the workflow fails, no job is
expanded. Here the jobs before `test` pass or are skipped, `test` passes lint
and fails expansion, and the result is the copy error. -/
theorem lintWorkflow_expand_error_counterexample :
    allJobs workflowTestFails = [jobBuild, jobNotify] ++ jobTest :: [jobDeploy] ∧
    (∀ j ∈ [jobBuild, jobNotify], sampleCatalog.JobSkiped j = false →
      sampleCatalog.LintJob j workflowTestFails = .ok () ∧
      sampleCatalog.ToJobs j workflowTestFails 0 = .ok [⟨j.Name⟩]) ∧
    sampleCatalog.JobSkiped jobTest = false ∧
    sampleCatalog.LintJob jobTest workflowTestFails = .ok () ∧
    sampleCatalog.ToJobs jobTest workflowTestFails 0 = .error "empty matrix" ∧
    lintWorkflow copyFails sampleCatalog (some workflowTestFails) =
      .error "IToi tmp workflow error: unsupported value" ∧
    lintWorkflow copyFails sampleCatalog (some workflowTestFails) ≠
      .error "lint job-test runtime err: empty matrix" := by
  refine ⟨?_, ?_, ?_, ?_, ?_, ?_, ?_⟩ <;> decide

/-- C15, amended: for a non-nil workflow whose deep copy succeeds, when all
jobs before job `n` (stage order, then job order) that are not skipped pass
both `LintJob` and `ToJobs`, and job `n` is not skipped, passes `LintJob` and
fails `ToJobs` with cause `c`, `lintWorkflow` returns
`lint job-n runtime err: c`. -/
theorem lintWorkflow_expand_error (copy : WorkflowV4 → Except String WorkflowV4)
    (cat : JobCatalog) (workflow tmp : WorkflowV4) (pre post : List Job) (job : Job)
    (c : String) (hcopy : copy workflow = .ok tmp)
    (hsplit : allJobs tmp = pre ++ job :: post)
    (hpre : ∀ j ∈ pre, cat.JobSkiped j = false →
      cat.LintJob j workflow = .ok () ∧ ∃ tasks, cat.ToJobs j workflow 0 = .ok tasks)
    (hs : cat.JobSkiped job = false) (hl : cat.LintJob job workflow = .ok ())
    (ht : cat.ToJobs job workflow 0 = .error c) :
    lintWorkflow copy cat (some workflow) =
      .error ("lint job-" ++ job.Name ++ " runtime err: " ++ c) := by
  rw [lintWorkflow_some copy cat workflow tmp hcopy, hsplit,
    lintStageJobs_prefix cat workflow pre _ hpre,
    lintStageJobs_cons_expand_error cat workflow job post c hs hl ht]

/-- C15 amended, at a workflow whose job `test` fails expansion after `build`
and the skipped `notify`. -/
theorem lintWorkflow_expand_error_witness :
    copyExact workflowTestFails = .ok workflowTestFails ∧
    allJobs workflowTestFails = [jobBuild, jobNotify] ++ jobTest :: [jobDeploy] ∧
    lintWorkflow copyExact sampleCatalog (some workflowTestFails) =
      .error "lint job-test runtime err: empty matrix" :=
  ⟨rfl, rfl,
    lintWorkflow_expand_error copyExact sampleCatalog workflowTestFails
      workflowTestFails [jobBuild, jobNotify] [jobDeploy] jobTest
      "empty matrix" rfl rfl
      (by
        intro j hj hs
        simp only [List.mem_cons, List.mem_singleton, List.not_mem_nil, or_false] at hj
        rcases hj with rfl | rfl
        · exact ⟨by decide, [⟨"build"⟩], by decide⟩
        · exact absurd hs (by decide))
      (by decide) (by decide) (by decide)⟩

/-- C16: `lintWorkflow` applied to a nil workflow fails with
`workflow cannot be empty`, whatever the job-kind catalog and the copy are. -/
theorem lintWorkflow_nil (copy : WorkflowV4 → Except String WorkflowV4)
    (cat : JobCatalog) :
    lintWorkflow copy cat none = .error "workflow cannot be empty" := by
  rw [lintWorkflow]

/-- C17, as stated, fails: when the copy of the workflow fails, a workflow
without stages and a workflow whose only job is skipped are both rejected with
the copy error. -/
theorem lintWorkflow_no_job_counterexample :
    allJobs workflowEmpty = [] ∧
    (∀ job ∈ allJobs workflowSkippedOnly, sampleCatalog.JobSkiped job = true) ∧
    lintWorkflow copyFails sampleCatalog (some workflowEmpty) =
      .error "IToi tmp workflow error: unsupported value" ∧
    lintWorkflow copyFails sampleCatalog (some workflowSkippedOnly) =
      .error "IToi tmp workflow error: unsupported value" := by
  refine ⟨?_, ?_, ?_, ?_⟩ <;> decide

/-- C17, amended: for a non-nil workflow whose deep copy succeeds,
`lintWorkflow` returns nil when the workflow has no job at all across its
stages (also when it has no stage), and more generally when the skip predicate
is true of every job. The stages are those of the copy. -/
theorem lintWorkflow_no_job (copy : WorkflowV4 → Except String WorkflowV4)
    (cat : JobCatalog) (workflow tmp : WorkflowV4) (hcopy : copy workflow = .ok tmp) :
    ((∀ stage ∈ tmp.Stages, stage.Jobs = []) →
      lintWorkflow copy cat (some workflow) = .ok ()) ∧
    ((∀ stage ∈ tmp.Stages, ∀ job ∈ stage.Jobs, cat.JobSkiped job = true) →
      lintWorkflow copy cat (some workflow) = .ok ()) := by
  have hall : (∀ stage ∈ tmp.Stages, ∀ job ∈ stage.Jobs, cat.JobSkiped job = true) →
      lintWorkflow copy cat (some workflow) = .ok () := by
    intro h
    rw [lintWorkflow_some copy cat workflow tmp hcopy, lintStageJobs_ok_iff]
    intro job hjob hs
    obtain ⟨stage, hstage, hj⟩ := (mem_allJobs tmp job).1 hjob
    rw [h stage hstage job hj] at hs
    cases hs
  refine ⟨?_, hall⟩
  intro h
  apply hall
  intro stage hstage job hjob
  rw [h stage hstage] at hjob
  cases hjob

/-- C17 amended, at one stage that holds one skipped job, at a workflow
without stages and at a workflow with an empty stage. -/
theorem lintWorkflow_no_job_witness :
    lintWorkflow copyExact sampleCatalogStrict (some workflowSkippedOnly) = .ok () ∧
    lintWorkflow copyExact sampleCatalogStrict (some workflowEmpty) = .ok () ∧
    lintWorkflow copyExact sampleCatalogStrict (some ⟨[⟨[]⟩]⟩) = .ok () :=
  ⟨(lintWorkflow_no_job copyExact sampleCatalogStrict workflowSkippedOnly
      workflowSkippedOnly rfl).2 (by decide),
    (lintWorkflow_no_job copyExact sampleCatalogStrict workflowEmpty
      workflowEmpty rfl).1 (by decide),
    (lintWorkflow_no_job copyExact sampleCatalogStrict ⟨[⟨[]⟩]⟩ ⟨[⟨[]⟩]⟩ rfl).1
      (by decide)⟩

/-- C18: for every job type other than Text and Workflow, `lintReleaseJob`
fails with `invalid release job type:` followed by the type, whatever the
payload is and whatever decoding it would give. -/
theorem lintReleaseJob_invalid_type {Raw : Type} (co : Coercion Raw) (cat : JobCatalog)
    (_type : String) (spec : Raw) (hText : _type ≠ JobText)
    (hWorkflow : _type ≠ JobWorkflow) :
    lintReleaseJob co cat _type spec = .error ("invalid release job type: " ++ _type) := by
  rw [lintReleaseJob, if_neg hText, if_neg hWorkflow]

/-- C18 at the type `deploy` with a payload that decodes as a Text spec. -/
theorem lintReleaseJob_invalid_type_witness :
    sampleCoercion.toTextSpec "text" = .ok ⟨"release notes"⟩ ∧
    lintReleaseJob sampleCoercion sampleCatalog "deploy" "text" =
      .error "invalid release job type: deploy" :=
  ⟨by decide,
    lintReleaseJob_invalid_type sampleCoercion sampleCatalog "deploy" "text"
      (by decide) (by decide)⟩

/-- C19: for a release job of type Workflow whose payload decodes into a
Workflow spec, `lintReleaseJob` returns what `lintWorkflow` returns on the
embedded workflow of the decoded spec, so a decoded spec without a workflow
fails with `workflow cannot be empty`; when decoding fails with cause `c` it
returns `invalid workflow spec: c`, whatever the catalog is. -/
theorem lintReleaseJob_workflow {Raw : Type} (co : Coercion Raw) (cat : JobCatalog)
    (spec : Raw) :
    (∀ w, co.toWorkflowSpec spec = .ok w →
      lintReleaseJob co cat JobWorkflow spec = lintWorkflow co.toWorkflow cat w.Workflow) ∧
    (∀ w, co.toWorkflowSpec spec = .ok w → w.Workflow = none →
      lintReleaseJob co cat JobWorkflow spec = .error "workflow cannot be empty") ∧
    (∀ c, co.toWorkflowSpec spec = .error c →
      ∀ cat2 : JobCatalog,
        lintReleaseJob co cat2 JobWorkflow spec = .error ("invalid workflow spec: " ++ c)) := by
  refine ⟨?_, ?_, ?_⟩
  · intro w hw
    rw [lintReleaseJob_case_workflow, hw]
  · intro w hw hnone
    rw [lintReleaseJob_case_workflow, hw]
    simp only [hnone, lintWorkflow]
  · intro c hc cat2
    rw [lintReleaseJob_case_workflow, hc]

/-- C19 at a payload that embeds a workflow whose job `deploy` fails lint, at
a payload without a workflow and at a payload that does not decode. -/
theorem lintReleaseJob_workflow_witness :
    lintReleaseJob sampleCoercion sampleCatalog JobWorkflow "wf" =
      lintWorkflow sampleCoercion.toWorkflow sampleCatalog (some workflowDeployFails) ∧
    lintReleaseJob sampleCoercion sampleCatalog JobWorkflow "wf" =
      .error "lint job-deploy err: upstream job not found" ∧
    lintReleaseJob sampleCoercion sampleCatalog JobWorkflow "nowf" =
      .error "workflow cannot be empty" ∧
    lintReleaseJob sampleCoercion sampleCatalogStrict JobWorkflow "bad" =
      .error "invalid workflow spec: cannot unmarshal" :=
  ⟨(lintReleaseJob_workflow sampleCoercion sampleCatalog "wf").1
      ⟨some workflowDeployFails⟩ (by decide),
    by decide,
    (lintReleaseJob_workflow sampleCoercion sampleCatalog "nowf").2.1 ⟨none⟩
      (by decide) rfl,
    (lintReleaseJob_workflow sampleCoercion sampleCatalog "bad").2.2 "cannot unmarshal"
      (by decide) sampleCatalogStrict⟩

/-- C20: for a release job of type Text, `lintReleaseJob` returns nil exactly
when decoding the payload into a Text spec succeeds; when decoding fails with
cause `c` it returns `invalid text spec: c`; the result is the same whatever
the catalog and the copy of workflows are, no workflow being linted. -/
theorem lintReleaseJob_text_iff {Raw : Type} (co : Coercion Raw) (cat : JobCatalog)
    (spec : Raw) :
    (lintReleaseJob co cat JobText spec = .ok () ↔ ∃ t, co.toTextSpec spec = .ok t) ∧
    (∀ c, co.toTextSpec spec = .error c →
      lintReleaseJob co cat JobText spec = .error ("invalid text spec: " ++ c)) ∧
    (∀ (co2 : Coercion Raw) (cat2 : JobCatalog),
      co2.toTextSpec spec = co.toTextSpec spec →
      lintReleaseJob co2 cat2 JobText spec = lintReleaseJob co cat JobText spec) := by
  refine ⟨?_, ?_, ?_⟩
  · rw [lintReleaseJob_case_text]
    cases h : co.toTextSpec spec with
    | error e =>
      constructor
      · intro h1
        cases h1
      · rintro ⟨t, ht⟩
        cases ht
    | ok t => exact ⟨fun _ => ⟨t, rfl⟩, fun _ => rfl⟩
  · intro c hc
    rw [lintReleaseJob_case_text, hc]
  · intro co2 cat2 h
    rw [lintReleaseJob_case_text, lintReleaseJob_case_text, h]

/-- C20 at a payload that decodes as a Text spec and at one that does not. -/
theorem lintReleaseJob_text_iff_witness :
    lintReleaseJob sampleCoercion sampleCatalog JobText "text" = .ok () ∧
    lintReleaseJob sampleCoercion sampleCatalog JobText "wf" =
      .error "invalid text spec: cannot unmarshal" :=
  ⟨(lintReleaseJob_text_iff sampleCoercion sampleCatalog "text").1.2
      ⟨⟨"release notes"⟩, by decide⟩,
    (lintReleaseJob_text_iff sampleCoercion sampleCatalog "wf").2.1 "cannot unmarshal"
      (by decide)⟩

/-! ### The DingTalk loops and the list of checks -/

theorem firstViolation_cons (c : DingTalkCheck) (rest : List DingTalkCheck) :
    firstViolation (c :: rest) =
      match c.violation with
      | some e => some e
      | none => firstViolation rest := by
  cases h : c.violation <;> simp [firstViolation, List.findSome?_cons, h]

theorem firstViolation_append (a b : List DingTalkCheck) :
    firstViolation (a ++ b) = (firstViolation a).or (firstViolation b) := by
  simp only [firstViolation, List.findSome?_append]

/-- The inner DingTalk loop finds the first violated approver check; the set
it leaves holds the IDs met so far. -/
theorem lintDingTalkUsers_scan (users : List ApprovalUser) (seen earlier : List String)
    (hmem : ∀ x, x ∈ seen ↔ x ∈ earlier) :
    match lintDingTalkUsers seen users with
    | .error e => firstViolation (userChecks earlier users) = some e
    | .ok out => firstViolation (userChecks earlier users) = none ∧
        ∀ x, x ∈ out ↔ x ∈ earlier ++ userIDs users := by
  induction users generalizing seen earlier with
  | nil =>
    simp only [lintDingTalkUsers, userChecks, userIDs, List.map_nil, List.append_nil]
    exact ⟨rfl, hmem⟩
  | cons u us ih =>
    rw [lintDingTalkUsers, userChecks, firstViolation_cons]
    by_cases hu : u.ID ∈ seen
    · have hc : seen.contains u.ID = true := by simpa using hu
      have he : u.ID ∈ earlier := (hmem _).1 hu
      simp only [hc, if_true, DingTalkCheck.violation, he]
    · have hc : ¬ seen.contains u.ID = true := by simpa using hu
      have he : ¬ u.ID ∈ earlier := fun h => hu ((hmem _).2 h)
      simp only [hc, if_false, DingTalkCheck.violation, he]
      have hmem2 : ∀ x, x ∈ u.ID :: seen ↔ x ∈ earlier ++ [u.ID] := by
        intro x
        simp only [List.mem_cons, List.mem_append, List.mem_singleton, List.not_mem_nil,
          or_false, hmem x]
        exact or_comm
      have h := ih (u.ID :: seen) (earlier ++ [u.ID]) hmem2
      cases hr : lintDingTalkUsers (u.ID :: seen) us with
      | error e =>
        rw [hr] at h
        exact h
      | ok out =>
        rw [hr] at h
        refine ⟨h.1, ?_⟩
        intro x
        rw [h.2 x, userIDs_cons]
        simp only [List.append_assoc, List.singleton_append]

/-- The DingTalk loop returns the error of the first violated check of the
scan, and nil when no check is violated. -/
theorem lintDingTalkNodes_scan (nodes : List ApprovalNode) (i : Nat)
    (seen earlier : List String) (hmem : ∀ x, x ∈ seen ↔ x ∈ earlier) :
    lintDingTalkNodes i seen nodes = scanResult (scanChecks i earlier nodes) := by
  induction nodes generalizing i seen earlier with
  | nil => rfl
  | cons node rest ih =>
    rw [lintDingTalkNodes, scanChecks, scanResult, firstViolation_cons]
    by_cases hlen : node.ApproveUsers.length = 0
    · simp only [hlen, if_true, DingTalkCheck.violation]
    · simp only [hlen, if_false, DingTalkCheck.violation]
      rw [firstViolation_append, firstViolation_cons]
      have hu := lintDingTalkUsers_scan node.ApproveUsers seen earlier hmem
      cases hr : lintDingTalkUsers seen node.ApproveUsers with
      | error e =>
        rw [hr] at hu
        simp only [hu, Option.or_some]
      | ok out =>
        rw [hr] at hu
        simp only [hu.1, Option.none_or, DingTalkCheck.violation]
        by_cases ht : isAndOr node.Type_ = true
        · have ht2 := (isAndOr_iff _).1 ht
          simp only [ht, Bool.not_true, Bool.false_eq_true, if_false, ht2, if_true]
          rw [ih (i + 1) out (earlier ++ userIDs node.ApproveUsers) hu.2]
          rfl
        · have htf : isAndOr node.Type_ = false := by simpa using ht
          have ht2 : ¬ (node.Type_ = "AND" ∨ node.Type_ = "OR") :=
            fun h => ht ((isAndOr_iff _).2 h)
          simp only [htf, Bool.not_false, if_true, ht2, if_false]

/-! ### The validators on values with pointers -/

theorem lintLarkNodesP_returns (nodes : List (Option ApprovalNodeP)) (i : Nat)
    (h : nodesNilFree nodes = true) : ∃ r, lintLarkNodesP i nodes = .returns r := by
  induction nodes generalizing i with
  | nil => exact ⟨_, rfl⟩
  | cons node rest ih =>
    simp only [nodesNilFree, List.all_cons, Bool.and_eq_true] at h
    cases node with
    | none => simp at h
    | some n =>
      rw [lintLarkNodesP]
      by_cases h1 : n.ApproveUsers.length = 0
      · exact ⟨_, by rw [if_pos h1]⟩
      · rw [if_neg h1]
        by_cases h2 : (!isAndOr n.Type_) = true
        · exact ⟨_, by rw [if_pos h2]⟩
        · rw [if_neg h2]
          exact ih (i + 1) h.2

theorem lintDingTalkUsersP_returns (users : List (Option ApprovalUser))
    (seen : List String) (h : (users.all fun user => user.isSome) = true) :
    ∃ r, lintDingTalkUsersP seen users = .returns r := by
  induction users generalizing seen with
  | nil => exact ⟨_, rfl⟩
  | cons user rest ih =>
    simp only [List.all_cons, Bool.and_eq_true] at h
    cases user with
    | none => simp at h
    | some u =>
      rw [lintDingTalkUsersP]
      by_cases h1 : seen.contains u.ID = true
      · exact ⟨_, by rw [if_pos h1]⟩
      · rw [if_neg h1]
        exact ih _ h.2

theorem lintDingTalkNodesP_returns (nodes : List (Option ApprovalNodeP)) (i : Nat)
    (seen : List String) (h : nodesAndUsersNilFree nodes = true) :
    ∃ r, lintDingTalkNodesP i seen nodes = .returns r := by
  induction nodes generalizing i seen with
  | nil => exact ⟨_, rfl⟩
  | cons node rest ih =>
    simp only [nodesAndUsersNilFree, List.all_cons, Bool.and_eq_true] at h
    cases node with
    | none => simp at h
    | some n =>
      rw [lintDingTalkNodesP]
      by_cases h1 : n.ApproveUsers.length = 0
      · exact ⟨_, by rw [if_pos h1]⟩
      · rw [if_neg h1]
        obtain ⟨r, hr⟩ := lintDingTalkUsersP_returns n.ApproveUsers seen h.1
        rw [hr]
        cases r with
        | error e => exact ⟨_, rfl⟩
        | ok seen1 =>
          simp only
          by_cases h2 : (!isAndOr n.Type_) = true
          · exact ⟨_, by rw [if_pos h2]⟩
          · rw [if_neg h2]
            exact ih (i + 1) seen1 h.2

theorem lintApprovalP_returns (approval : Option ApprovalP)
    (h : approvalNilFree approval = true) : ∃ r, lintApprovalP approval = .returns r := by
  cases approval with
  | none => exact ⟨_, rfl⟩
  | some a =>
    simp only [approvalNilFree, Bool.and_eq_true] at h
    rw [lintApprovalP]
    split
    · exact ⟨_, rfl⟩
    · split
      · cases a.NativeApproval with
        | none => exact ⟨_, rfl⟩
        | some native =>
          simp only
          split
          · exact ⟨_, rfl⟩
          · exact ⟨_, rfl⟩
      · split
        · cases hl : a.LarkApproval with
          | none => exact ⟨_, rfl⟩
          | some lark =>
            simp only
            split
            · exact ⟨_, rfl⟩
            · have h1 := h.1
              rw [hl] at h1
              exact lintLarkNodesP_returns lark.ApprovalNodes 0 h1
        · split
          · cases hd : a.DingTalkApproval with
            | none => exact ⟨_, rfl⟩
            | some ding =>
              simp only
              split
              · exact ⟨_, rfl⟩
              · split
                · exact ⟨_, rfl⟩
                · have h2 := h.2
                  rw [hd] at h2
                  exact lintDingTalkNodesP_returns ding.ApprovalNodes 0 [] h2
          · exact ⟨_, rfl⟩

theorem lintStageJobsP_returns (cat : JobCatalogP) (hcat : cat.returnsOnJobs)
    (workflow : WorkflowV4P) (jobs : List (Option Job))
    (h : (jobs.all fun job => job.isSome) = true) :
    ∃ r, lintStageJobsP cat workflow jobs = .returns r := by
  induction jobs with
  | nil => exact ⟨_, rfl⟩
  | cons job rest ih =>
    simp only [List.all_cons, Bool.and_eq_true] at h
    cases job with
    | none => simp at h
    | some j =>
      obtain ⟨b, hb⟩ := hcat.1 j
      obtain ⟨r1, hr1⟩ := hcat.2.1 j workflow
      obtain ⟨r2, hr2⟩ := hcat.2.2 j workflow 0
      rw [lintStageJobsP, hb]
      cases b with
      | true => exact ih h.2
      | false =>
        simp only [hr1]
        cases r1 with
        | error e => exact ⟨_, rfl⟩
        | ok u =>
          simp only [hr2]
          cases r2 with
          | error e => exact ⟨_, rfl⟩
          | ok t => exact ih h.2

theorem lintStagesP_returns (cat : JobCatalogP) (hcat : cat.returnsOnJobs)
    (workflow : WorkflowV4P) (stages : List (Option WorkflowStageP))
    (h : workflowNilFree ⟨stages⟩ = true) :
    ∃ r, lintStagesP cat workflow stages = .returns r := by
  induction stages with
  | nil => exact ⟨_, rfl⟩
  | cons stage rest ih =>
    simp only [workflowNilFree, List.all_cons, Bool.and_eq_true] at h
    cases stage with
    | none => simp at h
    | some st =>
      obtain ⟨r, hr⟩ := lintStageJobsP_returns cat hcat workflow st.Jobs h.1
      rw [lintStagesP, hr]
      cases r with
      | error e => exact ⟨_, rfl⟩
      | ok u => exact ih h.2

theorem lintWorkflowP_returns (copy : WorkflowV4P → Except String WorkflowV4P)
    (cat : JobCatalogP) (hcat : cat.returnsOnJobs) (workflow : Option WorkflowV4P)
    (hcopy : ∀ w tmp, workflow = some w → copy w = .ok tmp → workflowNilFree tmp = true) :
    ∃ r, lintWorkflowP copy cat workflow = .returns r := by
  cases workflow with
  | none => exact ⟨_, rfl⟩
  | some w =>
    rw [lintWorkflowP]
    cases hc : copy w with
    | error e => exact ⟨_, rfl⟩
    | ok tmp => exact lintStagesP_returns cat hcat w tmp.Stages (hcopy w tmp rfl hc)

/-- On a node list without nil entries the Lark loop with pointers returns
what the Lark loop of the value model gives. -/
theorem lintLarkNodesP_toP (nodes : List ApprovalNode) (i : Nat) :
    lintLarkNodesP i (nodes.map fun node => some node.toP) =
      .returns (lintLarkNodes i nodes) := by
  induction nodes generalizing i with
  | nil => rfl
  | cons node rest ih =>
    rw [List.map_cons, lintLarkNodesP, lintLarkNodes]
    simp only [ApprovalNode.toP, List.length_map]
    by_cases h1 : node.ApproveUsers.length = 0
    · rw [if_pos h1, if_pos h1]
    · rw [if_neg h1, if_neg h1]
      by_cases h2 : (!isAndOr node.Type_) = true
      · rw [if_pos h2, if_pos h2]
      · rw [if_neg h2, if_neg h2]
        exact ih (i + 1)

theorem lintDingTalkUsersP_toP (users : List ApprovalUser) (seen : List String) :
    lintDingTalkUsersP seen (users.map some) = .returns (lintDingTalkUsers seen users) := by
  induction users generalizing seen with
  | nil => rfl
  | cons u rest ih =>
    rw [List.map_cons, lintDingTalkUsersP, lintDingTalkUsers]
    by_cases h1 : seen.contains u.ID = true
    · rw [if_pos h1, if_pos h1]
    · rw [if_neg h1, if_neg h1]
      exact ih _

theorem lintDingTalkNodesP_toP (nodes : List ApprovalNode) (i : Nat) (seen : List String) :
    lintDingTalkNodesP i seen (nodes.map fun node => some node.toP) =
      .returns (lintDingTalkNodes i seen nodes) := by
  induction nodes generalizing i seen with
  | nil => rfl
  | cons node rest ih =>
    rw [List.map_cons, lintDingTalkNodesP, lintDingTalkNodes]
    simp only [ApprovalNode.toP, List.length_map, lintDingTalkUsersP_toP]
    by_cases h1 : node.ApproveUsers.length = 0
    · rw [if_pos h1, if_pos h1]
    · rw [if_neg h1, if_neg h1]
      cases lintDingTalkUsers seen node.ApproveUsers with
      | error e => rfl
      | ok seen1 =>
        simp only
        by_cases h2 : (!isAndOr node.Type_) = true
        · rw [if_pos h2, if_pos h2]
        · rw [if_neg h2, if_neg h2]
          exact ih (i + 1) seen1

/-- On an approval without nil list entries `lintApproval` with pointers
returns what `lintApproval` of the value model gives. -/
theorem lintApprovalP_toP (approval : Option Approval) :
    lintApprovalP (approval.map Approval.toP) = .returns (lintApproval approval) := by
  cases approval with
  | none => rfl
  | some a =>
    simp only [Option.map_some', lintApprovalP, lintApproval, Approval.toP]
    split
    · rfl
    · split
      · cases a.NativeApproval with
        | none => rfl
        | some native =>
          simp only [Option.map_some', List.length_map]
          split <;> rfl
      · split
        · cases a.LarkApproval with
          | none => rfl
          | some lark =>
            simp only [Option.map_some', List.length_map]
            split
            · rfl
            · exact lintLarkNodesP_toP lark.ApprovalNodes 0
        · split
          · cases a.DingTalkApproval with
            | none => rfl
            | some ding =>
              simp only [Option.map_some', List.length_map]
              split
              · rfl
              · split
                · rfl
                · exact lintDingTalkNodesP_toP ding.ApprovalNodes 0 []
          · rfl

/-! ## Release-job dispatch and approval gate: further claims -/

/-- C21, as stated, fails: when the copy of the decoded workflow fails, the
result is the copy error, which does not hold the name of the job. Here the
payload decodes to a workflow whose job `deploy` is the first that is not
skipped and fails, and it fails lint. -/
theorem lintReleaseJob_lint_error_counterexample :
    sampleCoercionCopyFails.toWorkflowSpec "wf" = .ok ⟨some workflowDeployFails⟩ ∧
    allJobs workflowDeployFails = [jobBuild, jobNotify] ++ jobDeploy :: [jobTest] ∧
    (∀ j ∈ [jobBuild, jobNotify], sampleCatalog.JobSkiped j = false →
      sampleCatalog.LintJob j workflowDeployFails = .ok () ∧
      sampleCatalog.ToJobs j workflowDeployFails 0 = .ok [⟨j.Name⟩]) ∧
    sampleCatalog.JobSkiped jobDeploy = false ∧
    sampleCatalog.LintJob jobDeploy workflowDeployFails = .error "upstream job not found" ∧
    lintReleaseJob sampleCoercionCopyFails sampleCatalog JobWorkflow "wf" =
      .error "IToi tmp workflow error: unsupported value" ∧
    stringsContains "IToi tmp workflow error: unsupported value"
      "lint job-deploy err:" = false := by
  refine ⟨?_, ?_, ?_, ?_, ?_, ?_, ?_⟩ <;> decide

/-- C21, amended: for a release job of type Workflow whose payload decodes to
a workflow whose deep copy succeeds, when some job named `n` that is not
skipped fails `LintJob` with cause `c` while every job before it (stage order,
then job order) that is not skipped passes both lint and expansion,
`lintReleaseJob` returns the error `lint job-n err: c`, which starts with
`lint job-n err:`; it is the error of `lintWorkflow`, returned unwrapped. -/
theorem lintReleaseJob_lint_error {Raw : Type} (co : Coercion Raw) (cat : JobCatalog)
    (spec : Raw) (w : WorkflowReleaseJobSpec) (workflow tmp : WorkflowV4)
    (pre post : List Job) (job : Job) (c : String)
    (hdec : co.toWorkflowSpec spec = .ok w) (hw : w.Workflow = some workflow)
    (hcopy : co.toWorkflow workflow = .ok tmp)
    (hsplit : allJobs tmp = pre ++ job :: post)
    (hpre : ∀ j ∈ pre, cat.JobSkiped j = false →
      cat.LintJob j workflow = .ok () ∧ ∃ tasks, cat.ToJobs j workflow 0 = .ok tasks)
    (hs : cat.JobSkiped job = false) (hl : cat.LintJob job workflow = .error c) :
    lintReleaseJob co cat JobWorkflow spec =
      .error ("lint job-" ++ job.Name ++ " err:" ++ (" " ++ c)) ∧
    lintReleaseJob co cat JobWorkflow spec =
      lintWorkflow co.toWorkflow cat (some workflow) := by
  have h1 : lintReleaseJob co cat JobWorkflow spec =
      lintWorkflow co.toWorkflow cat (some workflow) := by
    rw [lintReleaseJob_case_workflow, hdec]
    simp only [hw]
  have h2 : lintWorkflow co.toWorkflow cat (some workflow) =
      .error ("lint job-" ++ job.Name ++ " err: " ++ c) := by
    rw [lintWorkflow_some co.toWorkflow cat workflow tmp hcopy, hsplit,
      lintStageJobs_prefix cat workflow pre _ hpre,
      lintStageJobs_cons_lint_error cat workflow job post c hs hl]
  have h3 : "lint job-" ++ job.Name ++ " err: " ++ c =
      "lint job-" ++ job.Name ++ " err:" ++ (" " ++ c) := by
    have e : (" err: " : String) = " err:" ++ " " := by decide
    rw [e]
    simp only [String.append_assoc]
  exact ⟨by rw [h1, h2, h3], h1⟩

/-- C21 amended, at a payload that embeds a workflow whose job `deploy` fails
lint after `build` and the skipped `notify`. -/
theorem lintReleaseJob_lint_error_witness :
    sampleCoercion.toWorkflowSpec "wf" = .ok ⟨some workflowDeployFails⟩ ∧
    sampleCoercion.toWorkflow workflowDeployFails = .ok workflowDeployFails ∧
    lintReleaseJob sampleCoercion sampleCatalog JobWorkflow "wf" =
      .error ("lint job-" ++ jobDeploy.Name ++ " err:" ++ (" " ++ "upstream job not found")) ∧
    lintReleaseJob sampleCoercion sampleCatalog JobWorkflow "wf" =
      .error "lint job-deploy err: upstream job not found" :=
  ⟨by decide, rfl,
    (lintReleaseJob_lint_error sampleCoercion sampleCatalog "wf"
      ⟨some workflowDeployFails⟩ workflowDeployFails workflowDeployFails
      [jobBuild, jobNotify] [jobTest] jobDeploy "upstream job not found"
      (by decide) rfl rfl rfl
      (by
        intro j hj hs
        simp only [List.mem_cons, List.mem_singleton, List.not_mem_nil, or_false] at hj
        rcases hj with rfl | rfl
        · exact ⟨by decide, [⟨"build"⟩], by decide⟩
        · exact absurd hs (by decide))
      (by decide) (by decide)).1,
    by decide⟩

/-- C24: the result of `lintApproval` depends only on the block of the
declared provider: two enabled approvals with the same type and the same
block for that type give the same result, whatever the two other blocks
hold. -/
theorem lintApproval_depends_on_declared_block (a b : Approval)
    (haEn : a.Enabled = true) (hbEn : b.Enabled = true) (hT : a.Type_ = b.Type_)
    (hN : a.Type_ = NativeApprovalType → a.NativeApproval = b.NativeApproval)
    (hL : a.Type_ = LarkApprovalType → a.LarkApproval = b.LarkApproval)
    (hD : a.Type_ = DingTalkApprovalType → a.DingTalkApproval = b.DingTalkApproval) :
    lintApproval (some a) = lintApproval (some b) := by
  have n1 : LarkApprovalType ≠ NativeApprovalType := by decide
  have n2 : DingTalkApprovalType ≠ NativeApprovalType := by decide
  have n3 : DingTalkApprovalType ≠ LarkApprovalType := by decide
  by_cases h1 : a.Type_ = NativeApprovalType
  · have hb : b.Type_ = NativeApprovalType := by rw [← hT, h1]
    simp [lintApproval, haEn, hbEn, h1, hb, ← hN h1]
  · by_cases h2 : a.Type_ = LarkApprovalType
    · have hb : b.Type_ = LarkApprovalType := by rw [← hT, h2]
      simp [lintApproval, haEn, hbEn, h2, hb, n1, ← hL h2]
    · by_cases h3 : a.Type_ = DingTalkApprovalType
      · have hb : b.Type_ = DingTalkApprovalType := by rw [← hT, h3]
        simp [lintApproval, haEn, hbEn, h3, hb, n2, n3, ← hD h3]
      · have hb1 : ¬ b.Type_ = NativeApprovalType := by rw [← hT]; exact h1
        have hb2 : ¬ b.Type_ = LarkApprovalType := by rw [← hT]; exact h2
        have hb3 : ¬ b.Type_ = DingTalkApprovalType := by rw [← hT]; exact h3
        simp [lintApproval, haEn, hbEn, h1, h2, h3, hb1, hb2, hb3, hT]

/-- C24 at two Lark approvals with the same Lark block: one has no other
block, the other has a native block that would fail and a DingTalk block
with a repeated approver; both pass. -/
theorem lintApproval_depends_on_declared_block_witness :
    lintApproval (some (enabledApproval LarkApprovalType
      (some ⟨[userAlice], 4⟩) (some ⟨nodesOk⟩) (some ⟨nodesDup⟩))) = .ok () ∧
    lintApproval (some (larkOf nodesOk)) =
      lintApproval (some (enabledApproval LarkApprovalType
        (some ⟨[userAlice], 4⟩) (some ⟨nodesOk⟩) (some ⟨nodesDup⟩))) :=
  ⟨by decide,
    lintApproval_depends_on_declared_block (larkOf nodesOk)
      (enabledApproval LarkApprovalType
        (some ⟨[userAlice], 4⟩) (some ⟨nodesOk⟩) (some ⟨nodesDup⟩))
      rfl rfl rfl (fun h => absurd h (by decide)) (fun _ => rfl)
      (fun h => absurd h (by decide))⟩

/-- C23: for an enabled DingTalk approval with 1 to 20 nodes, the error that
`lintApproval` returns is that of the first violation in scan order: nodes by
increasing index and, within a node, the approver-present check, then the
approvers from left to right for an ID met before, then the type of the node.
Hence a node that repeats an ID met before and has a type outside `AND`, `OR`
yields the duplicate-approver error, not the type error. -/
theorem lintApproval_dingtalk_scan_order (a : Approval) (ding : DingTalkApproval)
    (hEn : a.Enabled = true) (hT : a.Type_ = DingTalkApprovalType)
    (hB : a.DingTalkApproval = some ding)
    (hlen : 1 ≤ ding.ApprovalNodes.length ∧ ding.ApprovalNodes.length ≤ 20) :
    lintApproval (some a) = scanResult (scanChecks 0 [] ding.ApprovalNodes) ∧
    ∀ (pre post : List ApprovalNode) (node : ApprovalNode)
      (us1 us2 : List ApprovalUser) (u : ApprovalUser),
      ding.ApprovalNodes = pre ++ node :: post →
      (∀ m ∈ pre, nodeOk m) → (approverIDs pre ++ userIDs us1).Nodup →
      node.ApproveUsers = us1 ++ u :: us2 →
      u.ID ∈ approverIDs pre ++ userIDs us1 →
      (node.Type_ ≠ "AND" ∧ node.Type_ ≠ "OR") →
      lintApproval (some a) = .error (errDuplicate u.Name) := by
  have hres : lintApproval (some a) = lintDingTalkNodes 0 [] ding.ApprovalNodes := by
    rw [lintApproval_dingtalk a ding hEn hT hB, if_neg (by omega), if_neg (by omega)]
  refine ⟨?_, ?_⟩
  · rw [hres]
    exact lintDingTalkNodes_scan ding.ApprovalNodes 0 [] [] (fun _ => Iff.rfl)
  · intro pre post node us1 us2 u hsplit hpre hnd husers hu _
    rw [List.nodup_append] at hnd
    obtain ⟨hnd1, hnd2, hnd3⟩ := hnd
    rw [hres, hsplit, lintDingTalkNodes_prefix pre (node :: post) 0 [] hpre hnd1
      (fun _ _ hs => by cases hs), lintDingTalkNodes]
    have hlen0 : node.ApproveUsers.length ≠ 0 := by
      rw [husers]
      simp
    rw [if_neg hlen0, husers, lintDingTalkUsers_append]
    have hok : lintDingTalkUsers ((approverIDs pre).reverse ++ []) us1 =
        .ok ((userIDs us1).reverse ++ ((approverIDs pre).reverse ++ [])) := by
      apply (lintDingTalkUsers_ok_iff _ _ _).2
      refine ⟨rfl, hnd2, ?_⟩
      intro id hid hs
      rw [List.append_nil] at hs
      exact hnd3 (List.mem_reverse.1 hs) hid
    rw [hok]
    have hin : ((userIDs us1).reverse ++ ((approverIDs pre).reverse ++ [])).contains u.ID
        = true := by
      have hm : u.ID ∈ (userIDs us1).reverse ++ ((approverIDs pre).reverse ++ []) := by
        rcases List.mem_append.1 hu with h | h
        · exact List.mem_append_right _ (List.mem_append_left _ (List.mem_reverse.2 h))
        · exact List.mem_append_left _ (List.mem_reverse.2 h)
      simpa using hm
    simp only [lintDingTalkUsers, hin, if_true]

/-- C23 at a DingTalk list whose node 1 repeats the approver ID `u1` of node 0
in its second approver and has the type `XOR`: the error is the
duplicate-approver error of `carol`. -/
theorem lintApproval_dingtalk_scan_order_witness :
    (1 ≤ nodesDupAndXor.length ∧ nodesDupAndXor.length ≤ 20) ∧
    scanResult (scanChecks 0 [] nodesDupAndXor) =
      .error "Duplicate approvers carol should not appear in a complete approval process" ∧
    lintApproval (some (dingTalkOf nodesDupAndXor)) =
      scanResult (scanChecks 0 [] nodesDupAndXor) ∧
    lintApproval (some (dingTalkOf nodesDupAndXor)) = .error (errDuplicate userCarol.Name) :=
  ⟨by decide, by decide,
    (lintApproval_dingtalk_scan_order (dingTalkOf nodesDupAndXor) ⟨nodesDupAndXor⟩
      rfl rfl rfl (by decide)).1,
    (lintApproval_dingtalk_scan_order (dingTalkOf nodesDupAndXor) ⟨nodesDupAndXor⟩
      rfl rfl rfl (by decide)).2 [⟨[userAlice], "AND"⟩] [] ⟨[userBob, userCarol], "XOR"⟩
      [userBob] [] userCarol rfl (by decide) (by decide) rfl (by decide) (by decide)⟩

/-- C22, as stated, fails: a nil entry of a list is dereferenced without a
check. A Lark node list that holds a nil node, a DingTalk node whose approver
list holds a nil approver and a workflow that holds a nil stage make the
validator panic; with a catalog that panics on a nil job, so does a stage that
holds a nil job. -/
theorem validators_panic_counterexample :
    lintApprovalP (some ⟨true, LarkApprovalType, none, some ⟨[none]⟩, none⟩) = .panics ∧
    lintApprovalP (some ⟨true, DingTalkApprovalType, none, none,
      some ⟨[some ⟨[none], "AND"⟩]⟩⟩) = .panics ∧
    lintWorkflowP (fun workflow => .ok workflow) sampleCatalogP (some ⟨[none]⟩) = .panics ∧
    lintWorkflowP (fun workflow => .ok workflow) sampleCatalogP
      (some ⟨[some ⟨[none]⟩]⟩) = .panics ∧
    lintReleaseJobP (⟨sampleCoercion.toTextSpec, fun _ => .ok ⟨some ⟨[none]⟩⟩,
      fun workflow => .ok workflow⟩ : CoercionP String) sampleCatalogP JobWorkflow "wf"
      = .panics := by
  refine ⟨?_, ?_, ?_, ?_, ?_⟩ <;> decide

/-- C22, amended: on an input whose node, stage and job lists hold no nil
entry and whose DingTalk approver lists hold no nil approver, and with a
coercion and a job-kind catalog that return on jobs that are not nil, none of
the validators panics: `lintApproval`, `lintWorkflow` and `lintReleaseJob`
return nil or an error value. This covers the nil approval, an enabled
approval with a nil provider block, nil approvers in native and Lark approver
lists, and the nil workflow. -/
theorem validators_return_on_nil_free {Raw : Type} :
    (∀ approval : Option ApprovalP, approvalNilFree approval = true →
      ∃ r, lintApprovalP approval = .returns r) ∧
    (∀ (copy : WorkflowV4P → Except String WorkflowV4P) (cat : JobCatalogP)
      (workflow : Option WorkflowV4P), cat.returnsOnJobs →
      (∀ w tmp, workflow = some w → copy w = .ok tmp → workflowNilFree tmp = true) →
      ∃ r, lintWorkflowP copy cat workflow = .returns r) ∧
    (∀ (co : CoercionP Raw) (cat : JobCatalogP) (_type : String) (spec : Raw),
      cat.returnsOnJobs →
      (∀ decoded w tmp, co.toWorkflowSpec spec = .ok decoded → decoded.Workflow = some w →
        co.toWorkflow w = .ok tmp → workflowNilFree tmp = true) →
      ∃ r, lintReleaseJobP co cat _type spec = .returns r) := by
  refine ⟨lintApprovalP_returns, ?_, ?_⟩
  · intro copy cat workflow hcat hcopy
    exact lintWorkflowP_returns copy cat hcat workflow hcopy
  · intro co cat _type spec hcat hcopy
    rw [lintReleaseJobP]
    split
    · cases co.toTextSpec spec with
      | error e => exact ⟨_, rfl⟩
      | ok t => exact ⟨_, rfl⟩
    · split
      · cases hd : co.toWorkflowSpec spec with
        | error e => exact ⟨_, rfl⟩
        | ok decoded =>
          exact lintWorkflowP_returns co.toWorkflow cat hcat decoded.Workflow
            (fun w tmp hw hc => hcopy decoded w tmp hd hw hc)
      · exact ⟨_, rfl⟩

/-- C22 amended, at an enabled Lark approval without a Lark block, at a native
approval whose approver list holds a nil approver, at the nil workflow and at
a release job whose workflow has one stage with the jobs `build` and
`deploy`. -/
theorem validators_return_on_nil_free_witness :
    lintApprovalP (some ⟨true, LarkApprovalType, none, none, none⟩) =
      .returns (.error "approval not found") ∧
    (∃ r, lintApprovalP (some ⟨true, LarkApprovalType, none, none, none⟩) = .returns r) ∧
    lintApprovalP (some ⟨true, NativeApprovalType, some ⟨[none, some userAlice], 2⟩,
      none, none⟩) = .returns (.ok ()) ∧
    (∃ r, lintApprovalP (some ⟨true, NativeApprovalType, some ⟨[none, some userAlice], 2⟩,
      none, none⟩) = .returns r) ∧
    (∃ r, lintWorkflowP (fun workflow => .ok workflow) sampleCatalogP none = .returns r) ∧
    lintReleaseJobP sampleCoercionP sampleCatalogP JobWorkflow "wf" =
      .returns (.error "lint job-deploy err: upstream job not found") ∧
    (∃ r, lintReleaseJobP sampleCoercionP sampleCatalogP JobWorkflow "wf" = .returns r) :=
  ⟨by decide,
    (@validators_return_on_nil_free String).1 _ (by decide),
    by decide,
    (@validators_return_on_nil_free String).1 _ (by decide),
    (@validators_return_on_nil_free String).2.1 (fun workflow => .ok workflow)
      sampleCatalogP none ⟨fun _ => ⟨_, rfl⟩, fun _ _ => ⟨_, rfl⟩, fun _ _ _ => ⟨_, rfl⟩⟩
      (fun _ _ h => by cases h),
    by decide,
    (@validators_return_on_nil_free String).2.2 sampleCoercionP sampleCatalogP
      JobWorkflow "wf" ⟨fun _ => ⟨_, rfl⟩, fun _ _ => ⟨_, rfl⟩, fun _ _ _ => ⟨_, rfl⟩⟩
      (fun decoded w tmp hd hw hc => by
        have h1 : decoded = ⟨some ⟨[some ⟨[some jobBuild, some jobDeploy]⟩]⟩⟩ := by
          simpa [sampleCoercionP] using hd.symm
        subst h1
        have h2 : w = ⟨[some ⟨[some jobBuild, some jobDeploy]⟩]⟩ := by
          simpa using hw.symm
        subst h2
        have h3 : tmp = ⟨[some ⟨[some jobBuild, some jobDeploy]⟩]⟩ := by
          simpa [sampleCoercionP] using hc.symm
        subst h3
        decide)⟩

end ReleasePlan

/-! ## Project service: lemmas and claims -/

namespace ProjectService

open Go

theorem setHas_iff (set : List String) (item : String) :
    setHas set item = true ↔ item ∈ set := by
  simp [setHas]

theorem setHas_false_iff (set : List String) (item : String) :
    setHas set item = false ↔ item ∉ set := by
  rw [← setHas_iff]
  cases setHas set item <;> simp

theorem setLen_pos_iff (set : List String) : 0 < setLen set ↔ ∃ y, y ∈ set := by
  rw [setLen, List.length_pos]
  constructor
  · intro h
    obtain ⟨y, hy⟩ := List.exists_mem_of_ne_nil _ h
    exact ⟨y, List.mem_dedup.1 hy⟩
  · rintro ⟨y, hy⟩ h
    rw [List.dedup_eq_nil] at h
    rw [h] at hy
    cases hy

/-- The valid services that are not in `listed`. -/
theorem delete_filter (valid listed : List String) (x : String) :
    (setDelete valid x).filter (fun y => !listed.contains y) =
      valid.filter (fun y => !(x :: listed).contains y) := by
  rw [setDelete, List.filter_filter]
  apply List.filter_congr
  intro y _
  by_cases hy : y = x <;> simp [hy, List.contains_cons]

theorem validateSvcSeq_append (used valid a b : List String) :
    validateSvcSeq used valid (a ++ b) =
      match validateSvcSeq used valid a with
      | .error e => .error e
      | .ok (used1, valid1) => validateSvcSeq used1 valid1 b := by
  induction a generalizing used valid with
  | nil => rfl
  | cons x rest ih =>
    rw [List.cons_append, validateSvcSeq, validateSvcSeq]
    by_cases h1 : setHas used x = true
    · rw [if_pos h1, if_pos h1]
    · rw [if_neg h1, if_neg h1]
      by_cases h2 : (!setHas valid x) = true
      · rw [if_pos h2, if_pos h2]
      · rw [if_neg h2, if_neg h2]
        exact ih _ _

/-- The two nested loops are one loop over all names in group order. -/
theorem validateSvcSeqs_flat (used valid : List String) (services : List (List String)) :
    validateSvcSeqs used valid services = validateSvcSeq used valid services.flatten := by
  induction services generalizing used valid with
  | nil => rfl
  | cons g rest ih =>
    rw [validateSvcSeqs, List.flatten_cons, validateSvcSeq_append]
    cases validateSvcSeq used valid g with
    | error e => rfl
    | ok st =>
      obtain ⟨u, v⟩ := st
      exact ih u v

/-- The loop succeeds exactly when no name is listed twice, no name is in the
used set at entry and every name is valid; it leaves the valid services that
are not listed. -/
theorem validateSvcSeq_ok_iff (l used valid used1 valid1 : List String) :
    validateSvcSeq used valid l = .ok (used1, valid1) ↔
      l.Nodup ∧ (∀ x ∈ l, x ∉ used ∧ x ∈ valid) ∧ used1 = l.reverse ++ used ∧
        valid1 = valid.filter (fun y => !l.contains y) := by
  induction l generalizing used valid with
  | nil =>
    simp only [validateSvcSeq, List.nodup_nil, List.not_mem_nil, false_imp_iff, implies_true,
      List.reverse_nil, List.nil_append, true_and, List.contains_nil, Bool.not_false,
      List.filter_true]
    constructor
    · intro h
      injection h with h
      injection h with h1 h2
      exact ⟨h1.symm, h2.symm⟩
    · rintro ⟨h1, h2⟩
      rw [h1, h2]
  | cons x rest ih =>
    rw [validateSvcSeq]
    by_cases h1 : setHas used x = true
    · rw [if_pos h1]
      constructor
      · intro h
        cases h
      · rintro ⟨_, h, _⟩
        exact absurd ((setHas_iff _ _).1 h1) (h x (List.mem_cons_self _ _)).1
    · rw [if_neg h1]
      have hx1 : x ∉ used := fun h => h1 ((setHas_iff _ _).2 h)
      by_cases h2 : setHas valid x = true
      · have hx2 : x ∈ valid := (setHas_iff _ _).1 h2
        simp only [h2, Bool.not_true, Bool.false_eq_true, if_false]
        rw [ih, delete_filter]
        simp only [setInsert, setDelete, List.nodup_cons, List.mem_cons, List.mem_filter,
          List.reverse_cons, List.append_assoc, List.singleton_append, forall_eq_or_imp]
        constructor
        · rintro ⟨hnd, hall, hu, hv⟩
          refine ⟨⟨?_, hnd⟩, ⟨⟨hx1, hx2⟩, ?_⟩, hu, hv⟩
          · intro hin
            exact (hall x hin).1 (Or.inl rfl)
          · intro y hy
            exact ⟨fun h => (hall y hy).1 (Or.inr h), (hall y hy).2.1⟩
        · rintro ⟨⟨hxr, hnd⟩, ⟨_, hall⟩, hu, hv⟩
          refine ⟨hnd, ?_, hu, hv⟩
          intro y hy
          refine ⟨?_, (hall y hy).2, ?_⟩
          · rintro (h | h)
            · rw [h] at hy
              exact hxr hy
            · exact (hall y hy).1 h
          · have : y ≠ x := by
              rintro rfl
              exact hxr hy
            simpa using this
      · have h2f : setHas valid x = false := by simpa using h2
        simp only [h2f, Bool.not_false, if_true]
        constructor
        · intro h
          cases h
        · rintro ⟨_, h, _⟩
          exact absurd (h x (List.mem_cons_self _ _)).2 ((setHas_false_iff _ _).1 h2f)

theorem validateSvc_eq (services : List (List String)) (validServices : List String) :
    validateSvc services validServices =
      match validateSvcSeq [] validServices services.flatten with
      | .error e => .error e
      | .ok (_, valid1) =>
        if setLen valid1 > 0 then
          .error ("service: [" ++ stringsJoin (setList valid1) "," ++ "] not found in params")
        else
          .ok () := by
  rw [validateSvc, validateSvcSeqs_flat]

/-- The loop stops at the first name that was listed before or is not valid. -/
theorem validateSvcSeq_first (pre post valid : List String) (s : String)
    (hnd : pre.Nodup) (hvalid : ∀ x ∈ pre, x ∈ valid) :
    (s ∈ pre → validateSvcSeq [] valid (pre ++ s :: post) =
      .error ("duplicated service:" ++ s)) ∧
    (s ∉ pre → s ∉ valid → validateSvcSeq [] valid (pre ++ s :: post) =
      .error ("invalid service:" ++ s)) := by
  have hpre : validateSvcSeq [] valid pre =
      .ok (pre.reverse ++ [], valid.filter (fun y => !pre.contains y)) :=
    (validateSvcSeq_ok_iff pre [] valid _ _).2
      ⟨hnd, fun x hx => ⟨fun h => (by cases h), hvalid x hx⟩, rfl, rfl⟩
  constructor
  · intro hs
    rw [validateSvcSeq_append, hpre]
    have h1 : setHas (pre.reverse ++ []) s = true :=
      (setHas_iff _ _).2 (by simpa using hs)
    simp only [validateSvcSeq, h1, if_true]
  · intro hs hv
    rw [validateSvcSeq_append, hpre]
    have h1 : setHas (pre.reverse ++ []) s = false :=
      (setHas_false_iff _ _).2 (by simpa using hs)
    have h2 : setHas (valid.filter (fun y => !pre.contains y)) s = false :=
      (setHas_false_iff _ _).2 (fun h => hv (List.mem_filter.1 h).1)
    simp only [validateSvcSeq, h1, h2, Bool.false_eq_true, if_false, Bool.not_false, if_true]

/-- C25: `validateSvc(services, validServices)` returns nil if and only if the
concatenation of the groups holds no name twice and its set of names is
`validServices`. Otherwise, for the first offending name `s` in group order
then position order, the error is `duplicated service:s` when `s` occurred
earlier and `invalid service:s` when `s` is not a valid service; and it is
`service: [...] not found in params`, with the valid services that are not
listed in increasing order, when every listed name is fine and some valid
service is not listed. -/
theorem validateSvc_spec (services : List (List String)) (validServices : List String) :
    (validateSvc services validServices = .ok () ↔
      services.flatten.Nodup ∧ ∀ s, s ∈ services.flatten ↔ s ∈ validServices) ∧
    (∀ pre s post, services.flatten = pre ++ s :: post → pre.Nodup →
      (∀ x ∈ pre, x ∈ validServices) →
      (s ∈ pre → validateSvc services validServices =
        .error ("duplicated service:" ++ s)) ∧
      (s ∉ pre → s ∉ validServices → validateSvc services validServices =
        .error ("invalid service:" ++ s))) ∧
    (services.flatten.Nodup → (∀ x ∈ services.flatten, x ∈ validServices) →
      (∃ y ∈ validServices, y ∉ services.flatten) →
      validateSvc services validServices =
        .error ("service: [" ++
          stringsJoin (setList
            (validServices.filter fun y => !services.flatten.contains y)) "," ++
          "] not found in params")) := by
  have hok : services.flatten.Nodup → (∀ x ∈ services.flatten, x ∈ validServices) →
      validateSvcSeq [] validServices services.flatten =
        .ok (services.flatten.reverse ++ [],
          validServices.filter fun y => !services.flatten.contains y) :=
    fun hnd hall => (validateSvcSeq_ok_iff _ [] validServices _ _).2
      ⟨hnd, fun x hx => ⟨fun h => (by cases h), hall x hx⟩, rfl, rfl⟩
  have hrest : (∃ y ∈ validServices, y ∉ services.flatten) ↔
      0 < setLen (validServices.filter fun y => !services.flatten.contains y) := by
    rw [setLen_pos_iff]
    constructor
    · rintro ⟨y, hy, hn⟩
      exact ⟨y, List.mem_filter.2 ⟨hy, by simpa using hn⟩⟩
    · rintro ⟨y, hy⟩
      obtain ⟨h1, h2⟩ := List.mem_filter.1 hy
      exact ⟨y, h1, by simpa using h2⟩
  refine ⟨?_, ?_, ?_⟩
  · rw [validateSvc_eq]
    cases hr : validateSvcSeq [] validServices services.flatten with
    | error e =>
      simp only
      constructor
      · intro h
        cases h
      · rintro ⟨hnd, hall⟩
        rw [hok hnd (fun x hx => (hall x).1 hx)] at hr
        cases hr
    | ok st =>
      obtain ⟨u, v⟩ := st
      obtain ⟨hnd, hall, _, hv⟩ := (validateSvcSeq_ok_iff _ [] validServices u v).1 hr
      simp only
      subst hv
      by_cases hlen :
          setLen (validServices.filter fun y => !services.flatten.contains y) > 0
      · rw [if_pos hlen]
        constructor
        · intro h
          cases h
        · rintro ⟨_, hset⟩
          obtain ⟨y, hy, hn⟩ := hrest.2 hlen
          exact absurd ((hset y).2 hy) hn
      · rw [if_neg hlen]
        refine ⟨fun _ => ⟨hnd, fun x => ⟨fun hx => (hall x hx).2, fun hx => ?_⟩⟩, fun _ => rfl⟩
        by_contra hn
        exact hlen (hrest.1 ⟨x, hx, hn⟩)
  · intro pre s post hsplit hnd hvalid
    obtain ⟨h1, h2⟩ := validateSvcSeq_first pre post validServices s hnd hvalid
    constructor
    · intro hs
      rw [validateSvc_eq, hsplit, h1 hs]
    · intro hs hv
      rw [validateSvc_eq, hsplit, h2 hs hv]
  · intro hnd hall hex
    rw [validateSvc_eq, hok hnd hall]
    simp only
    rw [if_pos (hrest.1 hex)]

/-- C25 at three valid services: two groups that list each once pass; a
repeated name, a name that is not valid and a valid name that is not listed
give the three errors. -/
theorem validateSvc_spec_witness :
    validateSvc [["a", "b"], ["c"]] ["c", "b", "a"] = .ok () ∧
    ([["a", "b"], ["c"]].flatten.Nodup ∧
      ∀ s, s ∈ [["a", "b"], ["c"]].flatten ↔ s ∈ ["c", "b", "a"]) ∧
    validateSvc [["a", "b"], ["x", "b"]] ["c", "b", "a"] = .error "invalid service:x" ∧
    validateSvc [["a", "b"], ["b", "x"]] ["c", "b", "a"] = .error "duplicated service:b" ∧
    validateSvc [["b"]] ["c", "b", "a"] = .error "service: [a,c] not found in params" :=
  ⟨by decide,
    (validateSvc_spec [["a", "b"], ["c"]] ["c", "b", "a"]).1.1 (by decide),
    ((validateSvc_spec [["a", "b"], ["x", "b"]] ["c", "b", "a"]).2.1 ["a", "b"] "x" ["b"]
      rfl (by decide) (by decide)).2 (by decide) (by decide),
    ((validateSvc_spec [["a", "b"], ["b", "x"]] ["c", "b", "a"]).2.1 ["a", "b"] "b" ["x"]
      rfl (by decide) (by decide)).1 (by decide),
    (validateSvc_spec [["b"]] ["c", "b", "a"]).2.2 (by decide) (by decide) (by decide)⟩

/-! ### filterProductServices -/

theorem insertServiceNames_mem (set : List String) (cur : List Service) (x : String) :
    x ∈ insertServiceNames set cur ↔ x ∈ set ∨ x ∈ cur.map fun svc => svc.ServiceName := by
  induction cur generalizing set with
  | nil => simp [insertServiceNames]
  | cons svc rest ih =>
    rw [insertServiceNames, ih]
    simp only [setInsert, List.mem_cons, List.map_cons]
    constructor
    · rintro ((h | h) | h)
      · exact Or.inr (Or.inl h)
      · exact Or.inl h
      · exact Or.inr (Or.inr h)
    · rintro (h | h | h)
      · exact Or.inl (Or.inr h)
      · exact Or.inl (Or.inl h)
      · exact Or.inr h

theorem filterSvcGroup_eq (set acc group : List String) :
    filterSvcGroup set acc group = acc ++ group.filter fun svc => setHas set svc := by
  induction group generalizing acc with
  | nil => simp [filterSvcGroup]
  | cons svc rest ih =>
    rw [filterSvcGroup, List.filter_cons]
    by_cases h : setHas set svc = true
    · rw [if_pos h, if_pos h, ih]
      simp
    · rw [if_neg h, if_neg h, ih]

theorem filterSvcGroups_eq (set : List String) (ret source : List (List String)) :
    filterSvcGroups set ret source =
      ret ++ (source.map fun group => group.filter fun svc => setHas set svc).filter
        fun group => !group.isEmpty := by
  induction source generalizing ret with
  | nil => simp [filterSvcGroups]
  | cons group rest ih =>
    rw [filterSvcGroups, filterSvcGroup_eq, List.nil_append, List.map_cons, List.filter_cons]
    by_cases h : (group.filter fun svc => setHas set svc).length > 0
    · have hne : (!(group.filter fun svc => setHas set svc).isEmpty) = true := by
        cases hg : group.filter fun svc => setHas set svc with
        | nil => rw [hg] at h; simp at h
        | cons a l => rfl
      rw [if_pos h, if_pos hne, ih]
      simp
    · have hne : ¬ (!(group.filter fun svc => setHas set svc).isEmpty) = true := by
        cases hg : group.filter fun svc => setHas set svc with
        | nil => simp
        | cons a l => rw [hg] at h; simp at h
      rw [if_neg h, if_neg hne, ih]

/-- With a listing that succeeds, the result is the restriction of the groups
to the listed names. -/
theorem filterProductServices_ok
    (list : String → Bool → Except String (List Service)) (productName : String)
    (source : List (List String)) (production : Bool) (curServices : List Service)
    (hlist : list productName production = .ok curServices) :
    filterProductServices list productName source production =
      restrictGroups (curServices.map fun svc => svc.ServiceName) source := by
  rw [filterProductServices]
  by_cases h0 : source.length = 0
  · rw [if_pos h0]
    have : source = [] := List.length_eq_zero.1 h0
    rw [this]
    rfl
  · rw [if_neg h0, hlist]
    simp only
    rw [filterSvcGroups_eq, List.nil_append, restrictGroups]
    have hfun : (fun svc => setHas (insertServiceNames [] curServices) svc) =
        fun svc => decide (svc ∈ curServices.map fun svc => svc.ServiceName) := by
      funext svc
      by_cases hm : svc ∈ curServices.map fun svc => svc.ServiceName
      · have : svc ∈ insertServiceNames [] curServices :=
          (insertServiceNames_mem [] curServices svc).2 (Or.inr hm)
        simp [hm, (setHas_iff _ _).2 this]
      · have : svc ∉ insertServiceNames [] curServices := by
          intro h
          rcases (insertServiceNames_mem [] curServices svc).1 h with h | h
          · cases h
          · exact hm h
        simp [hm, (setHas_false_iff _ _).2 this]
    rw [hfun]

theorem restrictGroups_mem (names : List String) (source : List (List String))
    (group : List String) (h : group ∈ restrictGroups names source) :
    group ≠ [] ∧ ∀ x ∈ group, x ∈ names := by
  simp only [restrictGroups, List.mem_filter, List.mem_map] at h
  obtain ⟨⟨g, _, hg⟩, hne⟩ := h
  constructor
  · intro he
    rw [he] at hne
    simp at hne
  · intro x hx
    rw [← hg] at hx
    simpa using (List.mem_filter.1 hx).2

theorem restrictGroups_idem (names : List String) (source : List (List String)) :
    restrictGroups names (restrictGroups names source) = restrictGroups names source := by
  have hmap : ∀ l : List (List String), (∀ g ∈ l, ∀ x ∈ g, x ∈ names) →
      (l.map fun group => group.filter fun svc => decide (svc ∈ names)) = l := by
    intro l hl
    induction l with
    | nil => rfl
    | cons g rest ih =>
      rw [List.map_cons, ih (fun g2 hg2 => hl g2 (List.mem_cons_of_mem _ hg2))]
      have : g.filter (fun svc => decide (svc ∈ names)) = g := by
        rw [List.filter_eq_self]
        intro x hx
        simpa using hl g (List.mem_cons_self _ _) x hx
      rw [this]
  have h1 := hmap (restrictGroups names source)
    (fun g hg => (restrictGroups_mem names source g hg).2)
  conv_lhs => rw [restrictGroups, h1]
  rw [List.filter_eq_self]
  intro g hg
  have := (restrictGroups_mem names source g hg).1
  cases g with
  | nil => exact absurd rfl this
  | cons a l => rfl

/-- C26: when the listing of current services succeeds with the name set `V`,
`filterProductServices` returns, in the original order, each group of `source`
restricted to the names in `V`, without the groups that become empty; no
returned group is empty, every returned name is in `V`, and filtering the
result again with the same listing returns it unchanged. For an empty source
it returns an empty list whatever the listing would give. -/
theorem filterProductServices_spec
    (list : String → Bool → Except String (List Service)) (productName : String)
    (source : List (List String)) (production : Bool) (curServices : List Service)
    (hlist : list productName production = .ok curServices) :
    filterProductServices list productName source production =
      restrictGroups (curServices.map fun svc => svc.ServiceName) source ∧
    (∀ group ∈ filterProductServices list productName source production,
      group ≠ [] ∧ ∀ x ∈ group, x ∈ curServices.map fun svc => svc.ServiceName) ∧
    filterProductServices list productName
      (filterProductServices list productName source production) production =
      filterProductServices list productName source production ∧
    ∀ list2 : String → Bool → Except String (List Service),
      filterProductServices list2 productName [] production = [] := by
  have h := filterProductServices_ok list productName source production curServices hlist
  refine ⟨h, ?_, ?_, fun _ => rfl⟩
  · intro group hg
    rw [h] at hg
    exact restrictGroups_mem _ _ group hg
  · rw [filterProductServices_ok list productName _ production curServices hlist, h,
      restrictGroups_idem]

/-- C26 at a listing with the names `a`, `c`: the group `b` is dropped, the
other groups keep their valid names in order. -/
theorem filterProductServices_spec_witness :
    listAC "shop" false = .ok [⟨"a"⟩, ⟨"c"⟩] ∧
    filterProductServices listAC "shop" [["a", "b"], ["b"], ["c", "b", "a"]] false =
      [["a"], ["c", "a"]] ∧
    filterProductServices listAC "shop" [["a", "b"], ["b"], ["c", "b", "a"]] false =
      restrictGroups ["a", "c"] [["a", "b"], ["b"], ["c", "b", "a"]] ∧
    filterProductServices listFails "shop" [] false = [] :=
  ⟨rfl, by decide,
    (filterProductServices_spec listAC "shop" [["a", "b"], ["b"], ["c", "b", "a"]] false
      [⟨"a"⟩, ⟨"c"⟩] rfl).1,
    (filterProductServices_spec listAC "shop" [["a", "b"], ["b"], ["c", "b", "a"]] false
      [⟨"a"⟩, ⟨"c"⟩] rfl).2.2.2 listFails⟩

/-! ### ensureProductTmpl -/

theorem length_ne_zero_of_ne_empty (s : String) (h : s ≠ "") : s.length ≠ 0 := by
  intro h0
  apply h
  cases s with
  | mk data =>
    have : data = [] := List.length_eq_zero.1 h0
    rw [this]

theorem ensureServiceSeq_append (names a b : List String) :
    ensureServiceSeq names (a ++ b) =
      match ensureServiceSeq names a with
      | .error e => .error e
      | .ok names1 => ensureServiceSeq names1 b := by
  induction a generalizing names with
  | nil => rfl
  | cons x rest ih =>
    rw [List.cons_append, ensureServiceSeq, ensureServiceSeq]
    by_cases h : setHas names x = true
    · rw [if_pos h, if_pos h]
    · rw [if_neg h, if_neg h]
      exact ih _

/-- The two nested loops are one loop over all names in group order. -/
theorem ensureServiceSeqs_flat (names : List String) (services : List (List String)) :
    ensureServiceSeqs names services = ensureServiceSeq names services.flatten := by
  induction services generalizing names with
  | nil => rfl
  | cons g rest ih =>
    rw [ensureServiceSeqs, List.flatten_cons, ensureServiceSeq_append]
    cases ensureServiceSeq names g with
    | error e => rfl
    | ok names1 => exact ih names1

/-- The loop stops at the first name that is in the set or occurred before. -/
theorem ensureServiceSeq_first (pre post names : List String) (s : String)
    (hnd : pre.Nodup) (hdis : ∀ x ∈ pre, x ∉ names) (hs : s ∈ names ∨ s ∈ pre) :
    ensureServiceSeq names (pre ++ s :: post) =
      .error ("duplicated service found: " ++ s) := by
  induction pre generalizing names with
  | nil =>
    have : s ∈ names := by
      rcases hs with h | h
      · exact h
      · cases h
    rw [List.nil_append, ensureServiceSeq, if_pos ((setHas_iff _ _).2 this)]
  | cons x rest ih =>
    have hx : setHas names x = false :=
      (setHas_false_iff _ _).2 (hdis x (List.mem_cons_self _ _))
    rw [List.cons_append, ensureServiceSeq, hx]
    simp only [Bool.false_eq_true, if_false]
    rw [List.nodup_cons] at hnd
    apply ih _ hnd.2
    · intro y hy hin
      rcases List.mem_cons.1 hin with h | h
      · rw [h] at hy
        exact hnd.1 hy
      · exact hdis y (List.mem_cons_of_mem _ hy) h
    · rcases hs with h | h
      · exact Or.inl (List.mem_cons_of_mem _ h)
      · rcases List.mem_cons.1 h with h | h
        · exact Or.inl (by rw [h]; exact List.mem_cons_self _ _)
        · exact Or.inr h

/-- C28: for a non-nil product template with a non-empty product name that
matches the service-name pattern, when some service name occurs more than once
across all groups of `args.Services`, `ensureProductTmpl` returns
`duplicated service found: s` for the first repeated occurrence `s`; it
returns before a revision number is requested: the counter store, the revision
and the pinyin fields are unchanged. -/
theorem ensureProductTmpl_duplicate {σ : Type} (deps : ProductDeps σ) (store : σ)
    (args : Product) (pre post : List String) (s : String)
    (hname : args.ProductName ≠ "")
    (hmatch : deps.matchServiceName args.ProductName = true)
    (hsplit : args.Services.flatten = pre ++ s :: post) (hnd : pre.Nodup)
    (hs : s ∈ pre) :
    ensureProductTmpl deps store (some args) =
      (.error ("duplicated service found: " ++ s), some args, store) := by
  rw [ensureProductTmpl, if_neg (length_ne_zero_of_ne_empty _ hname)]
  simp only [hmatch, Bool.not_true, Bool.false_eq_true, if_false]
  rw [ensureServiceSeqs_flat, hsplit,
    ensureServiceSeq_first pre post [] s hnd (fun _ _ h => by cases h) (Or.inr hs)]

/-- C28 at a template whose service `b` is listed in two groups, before the
second `a`: the error names `b`, and the template and the counter store are
as before. -/
theorem ensureProductTmpl_duplicate_witness :
    productDup.Services.flatten = ["a", "b", "c"] ++ "b" :: ["a"] ∧
    ensureProductTmpl sampleDeps 7 (some productDup) =
      (.error "duplicated service found: b", some productDup, 7) ∧
    ensureProductTmpl sampleDeps 7 (some productOk) =
      (.ok (), some ⟨"shop", "shop", 8, [["a", "b"], ["c"]], "shop", "s"⟩, 8) :=
  ⟨rfl,
    ensureProductTmpl_duplicate sampleDeps 7 productDup ["a", "b", "c"] ["a"] "b"
      (by decide) rfl rfl (by decide) (by decide),
    by decide⟩

/-! ### validateCommonRule -/

theorem splitChars_length_pos (sep : Char) (l : List Char) :
    1 ≤ (splitChars sep l).length := by
  induction l with
  | nil => simp [splitChars]
  | cons c rest ih =>
    rw [splitChars]
    by_cases h : c = sep
    · rw [if_pos h]
      simp
    · rw [if_neg h]
      cases splitChars sep rest with
      | nil => simp
      | cons part parts => simp

/-- A text that holds the separator splits into at least two parts. -/
theorem splitChars_length_two (sep : Char) (l : List Char) (h : sep ∈ l) :
    2 ≤ (splitChars sep l).length := by
  induction l with
  | nil => cases h
  | cons c rest ih =>
    rw [splitChars]
    by_cases hc : c = sep
    · rw [if_pos hc, List.length_cons]
      have := splitChars_length_pos sep rest
      omega
    · rw [if_neg hc]
      have hin : sep ∈ rest := by
        rcases List.mem_cons.1 h with h | h
        · exact absurd h.symm hc
        · exact h
      have h2 := ih hin
      cases hsp : splitChars sep rest with
      | nil => rw [hsp] at h2; simp at h2
      | cons part parts =>
        rw [hsp] at h2
        simpa using h2

theorem mem_of_stringsContains_colon (s : String) (h : stringsContains s ":" = true) :
    ':' ∈ s.toList := by
  simp only [stringsContains, decide_eq_true_eq] at h
  obtain ⟨a, b, hab⟩ := h
  rw [← hab]
  have : (":" : String).toList = [':'] := rfl
  rw [this]
  simp

/-- C30: `validateCommonRule` does not index out of range when it extracts the
tag of an image rule: for a non-empty image rule that passes the colon check,
when the substituted rule still holds a colon, it splits on `:` into at least
two parts, so the call returns and does not panic; and the rule is accepted
only if the second part matches the tag pattern. -/
theorem validateCommonRule_tag_index (replaceRuleVariable : String → String)
    (currentRule ruleType : String) (hne : currentRule ≠ "")
    (hcolon : stringsContains currentRule ":" = true)
    (hkeep : stringsContains (replaceRuleVariable currentRule) ":" = true) :
    2 ≤ (stringsSplit (replaceRuleVariable currentRule) ':').length ∧
    (∃ r, validateCommonRule replaceRuleVariable currentRule ruleType ImageResourceType =
      .returns r) ∧
    (validateCommonRule replaceRuleVariable currentRule ruleType ImageResourceType =
        .returns (.ok ()) →
      ∃ tag, (stringsSplit (replaceRuleVariable currentRule) ':')[1]? = some tag ∧
        matchTagRegex tag = true) := by
  have hlen : 2 ≤ (stringsSplit (replaceRuleVariable currentRule) ':').length := by
    rw [stringsSplit, List.length_map]
    exact splitChars_length_two ':' _ (mem_of_stringsContains_colon _ hkeep)
  obtain ⟨tag, htag⟩ : ∃ tag,
      (stringsSplit (replaceRuleVariable currentRule) ':')[1]? = some tag := by
    cases hsp : stringsSplit (replaceRuleVariable currentRule) ':' with
    | nil => rw [hsp] at hlen; simp at hlen
    | cons a rest =>
      cases rest with
      | nil => rw [hsp] at hlen; simp at hlen
      | cons b rest2 => exact ⟨b, by simp⟩
  have hguard : ¬ (ImageResourceType = ImageResourceType ∧
      stringsContains currentRule ":" = false) := by
    rw [hcolon]
    simp
  have heq : validateCommonRule replaceRuleVariable currentRule ruleType ImageResourceType =
      if !matchImageRegex (replaceRuleVariable currentRule) then
        .returns (.error ("image " ++ ruleType ++ " " ++ errMessage))
      else if !matchTagRegex tag then
        .returns (.error ("image " ++ ruleType ++ " " ++ errMessage))
      else .returns (.ok ()) := by
    rw [validateCommonRule, if_neg hne, if_neg hguard, if_pos rfl, htag]
  refine ⟨hlen, ?_, ?_⟩
  · rw [heq]
    split
    · exact ⟨_, rfl⟩
    · split
      · exact ⟨_, rfl⟩
      · exact ⟨_, rfl⟩
  · intro hok
    refine ⟨tag, htag, ?_⟩
    rw [heq] at hok
    by_cases h1 : (!matchImageRegex (replaceRuleVariable currentRule)) = true
    · rw [if_pos h1] at hok
      cases hok
    · rw [if_neg h1] at hok
      by_cases h2 : (!matchTagRegex tag) = true
      · rw [if_pos h2] at hok
        cases hok
      · simpa using h2

/-- C30 at the rule `repo.img:v1` with a substitution that changes nothing:
the rule splits into two parts and is accepted, the tag being `v1`; with a
tag of one character it is rejected. -/
theorem validateCommonRule_tag_index_witness :
    stringsSplit (replaceNothing "repo.img:v1") ':' = ["repo.img", "v1"] ∧
    2 ≤ (stringsSplit (replaceNothing "repo.img:v1") ':').length ∧
    validateCommonRule replaceNothing "repo.img:v1" "imageRule" ImageResourceType =
      .returns (.ok ()) ∧
    validateCommonRule replaceNothing "repo.img:v" "imageRule" ImageResourceType =
      .returns (.error "image imageRule contains invalid characters, please check") ∧
    (∃ tag, (stringsSplit (replaceNothing "repo.img:v1") ':')[1]? = some tag ∧
      matchTagRegex tag = true) :=
  ⟨by decide,
    (validateCommonRule_tag_index replaceNothing "repo.img:v1" "imageRule"
      (by decide) (by decide) (by decide)).1,
    by decide, by decide,
    (validateCommonRule_tag_index replaceNothing "repo.img:v1" "imageRule"
      (by decide) (by decide) (by decide)).2.2 (by decide)⟩

end ProjectService

/-! ## Environment service: lemmas and claims -/

namespace EnvironmentService

open Go

/-! ### queryPodsStatus -/

theorem collectPods_eq (pods : List Pod) (scales : List Scale) :
    collectPods pods scales = pods ++ (scales.map fun svc => svc.Pods).flatten := by
  induction scales generalizing pods with
  | nil => simp [collectPods]
  | cons svc rest ih =>
    rw [collectPods, ih]
    simp

theorem collectPods_nil (svcResp : SvcResp) :
    collectPods [] svcResp.Scales = allPods svcResp := by
  rw [collectPods_eq, List.nil_append, allPods]

/-- The scan returns early exactly when some pod has not succeeded and is not
ready. -/
theorem scanPods_none_iff (pods : List Pod) (n : Nat) :
    scanPods n pods = none ↔ ∃ pod ∈ pods, pod.Succeed = false ∧ pod.Ready = false := by
  induction pods generalizing n with
  | nil => simp [scanPods]
  | cons pod rest ih =>
    rw [scanPods]
    cases hs : pod.Succeed with
    | true =>
      simp only [if_true, ih, List.mem_cons, exists_eq_or_imp, hs, Bool.true_eq_false,
        false_and, false_or]
    | false =>
      cases hr : pod.Ready with
      | true =>
        simp only [Bool.false_eq_true, if_false, Bool.not_true, ih, List.mem_cons,
          exists_eq_or_imp, hs, hr, Bool.true_eq_false, and_false, false_or]
      | false =>
        simp only [Bool.false_eq_true, if_false, Bool.not_false, if_true, List.mem_cons,
          exists_eq_or_imp, hs, hr, and_self, true_or]

/-- Without an early return the scan counts the succeeded pods. -/
theorem scanPods_some (pods : List Pod) (n m : Nat) (h : scanPods n pods = some m) :
    m = n + (pods.filter fun pod => pod.Succeed).length := by
  induction pods generalizing n with
  | nil =>
    simp only [scanPods, Option.some.injEq] at h
    simp [h]
  | cons pod rest ih =>
    rw [scanPods] at h
    cases hs : pod.Succeed with
    | true =>
      rw [hs] at h
      simp only [if_true] at h
      have := ih (n + 1) h
      simp only [List.filter_cons, hs, if_true, List.length_cons]
      omega
    | false =>
      rw [hs] at h
      simp only [Bool.false_eq_true, if_false] at h
      cases hr : pod.Ready with
      | true =>
        rw [hr] at h
        simp only [Bool.not_true, Bool.false_eq_true, if_false] at h
        have := ih n h
        simp only [List.filter_cons, hs, Bool.false_eq_true, if_false]
        exact this
      | false =>
        rw [hr] at h
        simp at h

/-- The response outside the early branches: the result of the scan decides
the status. -/
theorem queryPodsStatus_scan (getServiceImpl : String → ServiceTmpl → Except String SvcResp)
    (serviceTmpl : ServiceTmpl) (serviceName : String) (svcResp : SvcResp)
    (hlookup : getServiceImpl serviceTmpl.ServiceName serviceTmpl = .ok svcResp)
    (hcontainers : serviceTmpl.Containers ≠ [])
    (hcron : ¬ (svcResp.Workloads = [] ∧ svcResp.CronJobs ≠ []))
    (hrunning : ¬ (allPods svcResp = [] ∧ svcResp.CronJobs = [])) :
    ((queryPodsStatus getServiceImpl serviceTmpl serviceName).PodStatus,
      (queryPodsStatus getServiceImpl serviceTmpl serviceName).Ready) =
      match scanPods 0 (allPods svcResp) with
      | none => (PodUnstable, PodNotReady)
      | some succeededPods =>
        if (allPods svcResp).length = succeededPods then (CoreV1PodSucceeded, JobReady)
        else (PodRunning, PodReady) := by
  have h1 : ¬ serviceTmpl.Containers.length = 0 := by
    intro h
    exact hcontainers (List.length_eq_zero.1 h)
  have h2 : ¬ ((allPods svcResp).length = 0 ∧ svcResp.CronJobs.length = 0) := by
    rintro ⟨ha, hb⟩
    exact hrunning ⟨List.length_eq_zero.1 ha, List.length_eq_zero.1 hb⟩
  have h3 : ¬ (svcResp.Workloads.length = 0 ∧ svcResp.CronJobs.length > 0) := by
    rintro ⟨ha, hb⟩
    exact hcron ⟨List.length_eq_zero.1 ha, List.length_pos.1 hb⟩
  rw [queryPodsStatus, hlookup]
  simp only [collectPods_nil]
  rw [if_neg h1, if_neg h2, if_neg h3]
  cases scanPods 0 (allPods svcResp) with
  | none => rfl
  | some m =>
    simp only
    split <;> rfl

/-- C27: after the service lookup succeeds for a service template with at
least one container, outside the cron-job-only case and the nothing-running
case, `queryPodsStatus` reports `(PodUnstable, PodNotReady)` if and only if
some pod is neither succeeded nor ready; otherwise it reports
`(Succeeded, JobReady)` if and only if every pod has succeeded, also when
there is no pod; otherwise it reports `(PodRunning, PodReady)`. -/
theorem queryPodsStatus_spec (getServiceImpl : String → ServiceTmpl → Except String SvcResp)
    (serviceTmpl : ServiceTmpl) (serviceName : String) (svcResp : SvcResp)
    (hlookup : getServiceImpl serviceTmpl.ServiceName serviceTmpl = .ok svcResp)
    (hcontainers : serviceTmpl.Containers ≠ [])
    (hcron : ¬ (svcResp.Workloads = [] ∧ svcResp.CronJobs ≠ []))
    (hrunning : ¬ (allPods svcResp = [] ∧ svcResp.CronJobs = [])) :
    (((queryPodsStatus getServiceImpl serviceTmpl serviceName).PodStatus,
        (queryPodsStatus getServiceImpl serviceTmpl serviceName).Ready) =
        (PodUnstable, PodNotReady) ↔
      ∃ pod ∈ allPods svcResp, pod.Succeed = false ∧ pod.Ready = false) ∧
    ((¬ ∃ pod ∈ allPods svcResp, pod.Succeed = false ∧ pod.Ready = false) →
      (((queryPodsStatus getServiceImpl serviceTmpl serviceName).PodStatus,
          (queryPodsStatus getServiceImpl serviceTmpl serviceName).Ready) =
          (CoreV1PodSucceeded, JobReady) ↔
        ∀ pod ∈ allPods svcResp, pod.Succeed = true)) ∧
    ((¬ ∃ pod ∈ allPods svcResp, pod.Succeed = false ∧ pod.Ready = false) →
      (¬ ∀ pod ∈ allPods svcResp, pod.Succeed = true) →
      ((queryPodsStatus getServiceImpl serviceTmpl serviceName).PodStatus,
        (queryPodsStatus getServiceImpl serviceTmpl serviceName).Ready) =
        (PodRunning, PodReady)) := by
  have hq := queryPodsStatus_scan getServiceImpl serviceTmpl serviceName svcResp hlookup
    hcontainers hcron hrunning
  have d1 : (CoreV1PodSucceeded, JobReady) ≠ (PodUnstable, PodNotReady) := by decide
  have d2 : (PodRunning, PodReady) ≠ (PodUnstable, PodNotReady) := by decide
  have d3 : (PodRunning, PodReady) ≠ (CoreV1PodSucceeded, JobReady) := by decide
  have hall : ∀ m, scanPods 0 (allPods svcResp) = some m →
      ((allPods svcResp).length = m ↔ ∀ pod ∈ allPods svcResp, pod.Succeed = true) := by
    intro m hm
    have := scanPods_some _ 0 m hm
    rw [this, Nat.zero_add, ← List.filter_length_eq_length]
    exact eq_comm
  cases hscan : scanPods 0 (allPods svcResp) with
  | none =>
    have hex := (scanPods_none_iff _ 0).1 hscan
    rw [hscan] at hq
    refine ⟨⟨fun _ => hex, fun _ => hq⟩, fun hn => absurd hex hn, fun hn => absurd hex hn⟩
  | some m =>
    have hnex : ¬ ∃ pod ∈ allPods svcResp, pod.Succeed = false ∧ pod.Ready = false := by
      intro h
      rw [(scanPods_none_iff _ 0).2 h] at hscan
      cases hscan
    rw [hscan] at hq
    simp only at hq
    by_cases hlen : (allPods svcResp).length = m
    · rw [if_pos hlen] at hq
      have hs := (hall m hscan).1 hlen
      refine ⟨⟨fun h => ?_, fun h => absurd h hnex⟩, fun _ => ⟨fun _ => hs, fun _ => hq⟩,
        fun _ hn => absurd hs hn⟩
      rw [hq] at h
      exact absurd h d1
    · rw [if_neg hlen] at hq
      have hs : ¬ ∀ pod ∈ allPods svcResp, pod.Succeed = true :=
        fun h => hlen ((hall m hscan).2 h)
      refine ⟨⟨fun h => ?_, fun h => absurd h hnex⟩, fun _ => ⟨fun h => ?_, fun h => absurd h hs⟩,
        fun _ _ => hq⟩
      · rw [hq] at h
        exact absurd h d2
      · rw [hq] at h
        exact absurd h d3

/-- C27 at one workload without cron jobs: a pod that is neither succeeded nor
ready gives `Unstable`, succeeded pods only give `Succeeded`, and a succeeded
pod with a ready pod gives `Running`. -/
theorem queryPodsStatus_spec_witness :
    ((queryPodsStatus (lookupPods [podSucceeded] [podReady, podNotReady]) sampleTmpl
          "web").PodStatus,
        (queryPodsStatus (lookupPods [podSucceeded] [podReady, podNotReady]) sampleTmpl
          "web").Ready) = ("Unstable", "not ready") ∧
    ((queryPodsStatus (lookupPods [podSucceeded] [podSucceeded]) sampleTmpl "web").PodStatus,
        (queryPodsStatus (lookupPods [podSucceeded] [podSucceeded]) sampleTmpl "web").Ready)
      = ("Succeeded", "Completed") ∧
    ((queryPodsStatus (lookupPods [podSucceeded] [podReady]) sampleTmpl "web").PodStatus,
        (queryPodsStatus (lookupPods [podSucceeded] [podReady]) sampleTmpl "web").Ready)
      = ("Running", "ready") :=
  ⟨(queryPodsStatus_spec (lookupPods [podSucceeded] [podReady, podNotReady]) sampleTmpl "web"
      ⟨none, [⟨["nginx:1.0"]⟩], [], [⟨[podSucceeded]⟩, ⟨[podReady, podNotReady]⟩]⟩
      rfl (by decide) (by decide) (by decide)).1.2 ⟨podNotReady, by decide, rfl, rfl⟩,
    ((queryPodsStatus_spec (lookupPods [podSucceeded] [podSucceeded]) sampleTmpl "web"
      ⟨none, [⟨["nginx:1.0"]⟩], [], [⟨[podSucceeded]⟩, ⟨[podSucceeded]⟩]⟩
      rfl (by decide) (by decide) (by decide)).2.1 (by decide)).2 (by decide),
    (queryPodsStatus_spec (lookupPods [podSucceeded] [podReady]) sampleTmpl "web"
      ⟨none, [⟨["nginx:1.0"]⟩], [], [⟨[podSucceeded]⟩, ⟨[podReady]⟩]⟩
      rfl (by decide) (by decide) (by decide)).2.2 (by decide) (by decide)⟩

/-! ### validateServiceContainer2 -/

theorem findInContainers_append (container : String) (a b : List Container) :
    findInContainers container (a ++ b) =
      match findInContainers container a with
      | some image => some image
      | none => findInContainers container b := by
  induction a with
  | nil => rfl
  | cons c rest ih =>
    rw [List.cons_append, findInContainers, findInContainers]
    by_cases h : containerMatches container c = true
    · rw [if_pos h, if_pos h]
    · rw [if_neg h, if_neg h]
      exact ih

/-- The two nested loops are one loop over all containers in pod order. -/
theorem findInPods_flat (container : String) (pods : List CorePod) :
    findInPods container pods = findInContainers container (allContainers pods) := by
  induction pods with
  | nil => rfl
  | cons pod rest ih =>
    rw [findInPods, allContainers, List.map_cons, List.flatten_cons, findInContainers_append]
    cases findInContainers container pod.Spec.Containers with
    | some image => rfl
    | none => exact ih

/-- The loop returns the image of the first container that matches. -/
theorem findInContainers_first (container : String) (pre post : List Container)
    (c : Container) (hpre : ∀ x ∈ pre, containerMatches container x = false)
    (hc : containerMatches container c = true) :
    findInContainers container (pre ++ c :: post) = some c.Image := by
  induction pre with
  | nil => rw [List.nil_append, findInContainers, if_pos hc]
  | cons x rest ih =>
    have hx := hpre x (List.mem_cons_self _ _)
    rw [List.cons_append, findInContainers, hx]
    simp only [Bool.false_eq_true, if_false]
    exact ih fun y hy => hpre y (List.mem_cons_of_mem _ hy)

theorem findInContainers_none_iff (container : String) (cs : List Container) :
    findInContainers container cs = none ↔
      ∀ c ∈ cs, containerMatches container c = false := by
  induction cs with
  | nil => simp [findInContainers]
  | cons c rest ih =>
    rw [findInContainers, List.forall_mem_cons]
    by_cases h : containerMatches container c = true
    · rw [if_pos h]
      constructor
      · intro h2
        cases h2
      · rintro ⟨h2, _⟩
        rw [h] at h2
        cases h2
    · have hf : containerMatches container c = false := by simpa using h
      rw [if_neg h, ih]
      exact ⟨fun h2 => ⟨hf, h2⟩, fun h2 => h2.2⟩

theorem containerMatches_empty (c : Container) : containerMatches "" c = true := by
  have h : stringsContains c.Image "" = true := by
    simp only [stringsContains, decide_eq_true_eq]
    exact List.nil_infix
  simp [containerMatches, h]

/-- C29: when listing the pods succeeds, `validateServiceContainer2` returns
the image of the first container, scanning pods in order and the containers of
each pod in order, whose name equals the requested container string or whose
image contains it; it returns a `ContainerNotFound` error if and only if no
container of any pod matches. With an empty container string and a container
present it returns the image of the first container. -/
theorem validateServiceContainer2_spec
    (listPods : String → Option (List (String × String)) → Except String (List CorePod))
    (namespace_ envName productName serviceName container source : String)
    (pods : List CorePod)
    (hlist : listPods namespace_
      (if source ≠ SourceFromHelm then
        some [(ProductLabel, productName), (ServiceLabel, serviceName)]
      else none) = .ok pods) :
    (∀ pre c post, allContainers pods = pre ++ c :: post →
      (∀ x ∈ pre, ¬ (x.Name = container ∨ stringsContains x.Image container = true)) →
      (c.Name = container ∨ stringsContains c.Image container = true) →
      validateServiceContainer2 listPods namespace_ envName productName serviceName
        container source = .ok c.Image) ∧
    (validateServiceContainer2 listPods namespace_ envName productName serviceName
        container source =
        .error (.containerNotFound serviceName container envName productName) ↔
      ∀ c ∈ allContainers pods,
        ¬ (c.Name = container ∨ stringsContains c.Image container = true)) ∧
    (container = "" → ∀ c rest, allContainers pods = c :: rest →
      validateServiceContainer2 listPods namespace_ envName productName serviceName
        container source = .ok c.Image) := by
  have hm : ∀ x : Container, containerMatches container x = true ↔
      (x.Name = container ∨ stringsContains x.Image container = true) := by
    intro x
    simp [containerMatches]
  have hmf : ∀ x : Container, containerMatches container x = false ↔
      ¬ (x.Name = container ∨ stringsContains x.Image container = true) := by
    intro x
    rw [← hm]
    cases containerMatches container x <;> simp
  have heq : validateServiceContainer2 listPods namespace_ envName productName serviceName
      container source =
      match findInContainers container (allContainers pods) with
      | some image => .ok image
      | none => .error (.containerNotFound serviceName container envName productName) := by
    rw [validateServiceContainer2, hlist]
    simp only [findInPods_flat]
  have hfirst : ∀ pre c post, allContainers pods = pre ++ c :: post →
      (∀ x ∈ pre, ¬ (x.Name = container ∨ stringsContains x.Image container = true)) →
      (c.Name = container ∨ stringsContains c.Image container = true) →
      validateServiceContainer2 listPods namespace_ envName productName serviceName
        container source = .ok c.Image := by
    intro pre c post hsplit hpre hc
    rw [heq, hsplit, findInContainers_first container pre post c
      (fun x hx => (hmf x).2 (hpre x hx)) ((hm c).2 hc)]
  refine ⟨hfirst, ?_, ?_⟩
  · rw [heq]
    cases hf : findInContainers container (allContainers pods) with
    | some image =>
      simp only
      constructor
      · intro h
        cases h
      · intro h
        have := (findInContainers_none_iff container _).2 (fun c hc => (hmf c).2 (h c hc))
        rw [this] at hf
        cases hf
    | none =>
      simp only [true_iff]
      intro c hc
      exact (hmf c).1 ((findInContainers_none_iff container _).1 hf c hc)
  · intro hempty c rest hsplit
    apply hfirst [] c rest hsplit (fun _ h => by cases h)
    apply (hm c).1
    rw [hempty]
    exact containerMatches_empty c

/-- C29 at two pods with three containers: the name `web` gives the image of
the third container, the text `nginx` the image of the second, the empty text
the image of the first, and `redis` the `ContainerNotFound` error. -/
theorem validateServiceContainer2_spec_witness :
    validateServiceContainer2 listTwoPods "ns" "dev" "shop" "web" "web" "k8s" = .ok "app:2" ∧
    validateServiceContainer2 listTwoPods "ns" "dev" "shop" "web" "nginx" "k8s" =
      .ok "nginx:1.0" ∧
    validateServiceContainer2 listTwoPods "ns" "dev" "shop" "web" "" "k8s" = .ok "envoy:1.2" ∧
    validateServiceContainer2 listTwoPods "ns" "dev" "shop" "web" "redis" "k8s" =
      .error (.containerNotFound "web" "redis" "dev" "shop") :=
  ⟨(validateServiceContainer2_spec listTwoPods "ns" "dev" "shop" "web" "web" "k8s" _ rfl).1
      [⟨"sidecar", "envoy:1.2"⟩, ⟨"nginx", "nginx:1.0"⟩] ⟨"web", "app:2"⟩ [] rfl
      (by decide) (by decide),
    (validateServiceContainer2_spec listTwoPods "ns" "dev" "shop" "web" "nginx" "k8s" _ rfl).1
      [⟨"sidecar", "envoy:1.2"⟩] ⟨"nginx", "nginx:1.0"⟩ [⟨"web", "app:2"⟩] rfl
      (by decide) (by decide),
    (validateServiceContainer2_spec listTwoPods "ns" "dev" "shop" "web" "" "k8s" _ rfl).2.2
      rfl ⟨"sidecar", "envoy:1.2"⟩ [⟨"nginx", "nginx:1.0"⟩, ⟨"web", "app:2"⟩] rfl,
    (validateServiceContainer2_spec listTwoPods "ns" "dev" "shop" "web" "redis" "k8s" _ rfl).2.1.2
      (by decide)⟩

end EnvironmentService
